import Mathlib

/-!
# Verification of the `propagate` context-propagation engine

This file gives a shallow embedding, in Lean 4, of the core data model and
operations of the `go-context-propagate` refactoring engine (package
`propagate`): the call-site rewriting of the transformation phase
(`transform.go`: `rewriteCallSite`, `renameCallSite`, `addImports`,
`initContextExpressions`, `getCtxExprAndAddImports`,
`resolveCtxExprPackageWildcard`), the worklist-driven upward propagation of
the analysis phase (`collect`, `collectFnDef`, `collectFnParam`,
`isFirstParamContext`, `markFnAsFreshCtx`, `addIfacesModified`), the
interface/named-type closure (`collectIfaces`, `collectNamedTypes`,
`insertArtificialCtx`, `insertArtificialCtxCallsites`, the fixed-point loop
of `analyze`), and a composition of the two phases over a miniature Go
program used to study whole-pipeline properties such as idempotence.

Go maps are embedded as association lists (`alookup`/`mset`), Go slices as
lists, Go `int` as `Int` where sign matters, fatal `log.Fatalf` exits as an
`Except` error, and worklist recursion is made total with an explicit fuel
parameter.  Side effects that are only enabled at a positive debug level
(warning texts) are recorded as counters or omitted, as noted at each
definition.
-/

set_option maxHeartbeats 1000000

namespace CtxProp

/-! ## Association-list primitives (embedding Go maps) -/

/-- Lookup in an association list; first (most recent) binding wins. -/
def alookup [DecidableEq κ] : List (κ × α) → κ → Option α
  | [], _ => none
  | (k, v) :: m, q => if q = k then some v else alookup m q

/-- Go map assignment `m[k] = v`: record the new binding, dropping any
older binding for the same key. -/
def mset [DecidableEq κ] (m : List (κ × α)) (k : κ) (v : α) : List (κ × α) :=
  (k, v) :: m.filter (fun kv => ¬ kv.1 = k)

/-! ## Configuration constants (`part_000` of the source) -/

/-- Wildcard for the context parameter name inside a context expression. -/
def ctxWildcard : String := "<?CTX?>"

/-- Wildcard for the custom-context parameter name inside the custom
extraction expression. -/
def ctxCustomWildcard : String := "<?CTX_CUSTOM?>"

/-- Wildcard for the context-package qualifier, resolved per file. -/
def ctxPrefWildcard : String := "<?CTX_PREF?>"

/-- Wildcard for the alias of an extra import used by a context
expression. -/
def aliasWildCard : String := "<?ALIAS1?>"

/-- Function classifications stored in `fnVisited` (the `iota` constants
`regularFn`, `freshCtxFn`, `containerSig`, `extFn`, `extPkg`, `extRecv`). -/
inductive FnClass where
  | regularFn
  | freshCtxFn
  | containerSig
  | extFn
  | extPkg
  | extRecv
deriving DecidableEq, Repr

/-- `replacementInfo` (types.go): data needed to rewrite one call site. -/
structure ReplacementInfo where
  newName : String
  argPos : Int
  ctxImports : List (String × String)
  ctxRegExpr : String
  ctxExpr : String
deriving DecidableEq, Repr

/-- Is the first list a prefix of the second? -/
def listPrefixOf : List Char → List Char → Bool
  | [], _ => true
  | _ :: _, [] => false
  | p :: ps, c :: cs => p = c && listPrefixOf ps cs

/-- Does the second list contain the first as a contiguous sublist? -/
def listContainsSub (pat : List Char) : List Char → Bool
  | [] => listPrefixOf pat []
  | c :: cs => listPrefixOf pat (c :: cs) || listContainsSub pat cs

/-- `strings.Contains` (the patterns the engine searches for are the
nonempty wildcard constants and package qualifiers). -/
def strContains (s pat : String) : Bool := listContainsSub pat.data s.data

/-- Left-to-right non-overlapping replacement over character lists, with
enough fuel to scan the whole input. -/
def replaceFuel (pat rep : List Char) : Nat → List Char → List Char
  | 0, s => s
  | _ + 1, [] => []
  | fuel + 1, c :: cs =>
    if listPrefixOf pat (c :: cs) then
      rep ++ replaceFuel pat rep fuel (List.drop pat.length (c :: cs))
    else c :: replaceFuel pat rep fuel cs

/-- `strings.ReplaceAll`: replace every (non-overlapping, leftmost-first)
occurrence of `pat` in `s` by `rep`. -/
def strReplace (s pat rep : String) : String :=
  if pat.data.isEmpty then s
  else ⟨replaceFuel pat.data rep.data s.data.length s.data⟩

/-- `replaceCtxExprWildcard` (transform.go, analysis part): computes the
context expression from the config by replacing the optional wildcard with
the context literal. -/
def replaceCtxExprWildcard (wildcard ctxRegExpr ctxLit : String) : String :=
  if ctxRegExpr = "" then ctxLit
  else if strContains ctxRegExpr wildcard then strReplace ctxRegExpr wildcard ctxLit
  else ctxRegExpr

/-! ## Fatal errors (`log.Fatalf` sites of the transformation phase) -/

/-- The distinct `log.Fatalf` abort sites reachable from the transformation
phase. -/
inductive TFatal where
  /-- "currently only supporting one custom import per library call". -/
  | multiImport
  /-- "alias placeholder for library call ... without alias itself being defined". -/
  | missingAlias
  /-- "error requesting to put a context argument in a position beyond the
  last function parameter". -/
  | posBeyondEnd
  /-- "unrecognized call expression when rewriting AST". -/
  | renameBadFun
deriving DecidableEq, Repr

/-- The argument-list surgery of `rewriteCallSite` for a call expression
with a non-`nil` argument list (transform.go lines 328-344): a position
`< 1` appends the context argument last; otherwise the context argument is
inserted at 0-based index `argPos - 1`, and the run aborts when that index
exceeds the number of existing arguments. -/
def callSiteInsert (argPos : Int) (ctx : α) (args : List α) : Except TFatal (List α) :=
  if argPos < 1 then .ok (args ++ [ctx])
  else if (args.length : Int) < argPos - 1 then .error .posBeyondEnd
  else .ok (args.take (argPos - 1).toNat ++ ctx :: args.drop (argPos - 1).toNat)

/-- `getCtxExprAndAddImports` (transform.go lines 419-471): fills the
wildcards of the recorded context expression and records which imports the
rewritten file will need.  Returns the finished context expression together
with the updated `newImports` map. -/
def getCtxExprAndAddImports (ctxParamName : String)
    (existingImports newImports : List (String × String))
    (r : ReplacementInfo) : Except TFatal (String × List (String × String)) :=
  if 1 < r.ctxImports.length then .error .multiImport
  else
    let ctxExpr :=
      if r.ctxExpr = "" then replaceCtxExprWildcard ctxWildcard r.ctxRegExpr ctxParamName
      else r.ctxExpr
    match r.ctxImports with
    | [] => .ok (ctxExpr, newImports)
    | (newImp, newAlias) :: _ =>
      match alookup existingImports newImp with
      | some exAlias =>
        if strContains ctxExpr aliasWildCard then
          if exAlias = "" then
            if newAlias = "" then .error .missingAlias
            else .ok (replaceCtxExprWildcard aliasWildCard ctxExpr newAlias,
                      mset newImports newImp newAlias)
          else .ok (replaceCtxExprWildcard aliasWildCard ctxExpr exAlias,
                    mset newImports newImp exAlias)
        else if ¬ newAlias = "" then .ok (ctxExpr, mset newImports newImp newAlias)
        else .ok (ctxExpr, newImports)
      | none =>
        if strContains ctxExpr aliasWildCard then
          if newAlias = "" then .error .missingAlias
          else .ok (replaceCtxExprWildcard aliasWildCard ctxExpr newAlias,
                    mset newImports newImp newAlias)
        else .ok (ctxExpr, mset newImports newImp newAlias)

/-! ## Miniature Go AST and the AST rewrite of the transformation phase

The engine walks each file's AST with `astutil.Apply(f, nil, cfg.astRewrite)`
(post-order: children first).  We embed the expression fragment the call-site
rules operate on: identifiers, selector expressions `q.s`, and call
expressions keyed by the unique position of their left parenthesis.  A Go
`nil` argument slice is the empty list. -/

/-- Miniature Go expression. -/
inductive GoExpr where
  | ident (s : String)
  | sel (q : String) (s : String)
  | call (pos : Nat) (fn : GoExpr) (args : List GoExpr)
deriving Repr

/-- Mutable per-file scratch state of the transformer (`newImports`,
`modified`, and the warning sink size). -/
structure RWState where
  newImports : List (String × String)
  modified : Bool
  warnings : Nat
deriving DecidableEq, Repr

/-- Read-only data consulted while rewriting one file: the relevant
configuration strings, the file's pre-rewrite imports, and the decision
tables `callSites` / `callSitesRenamed` (already dereferenced to
`ReplacementInfo` values for the file being processed). -/
structure RWEnv where
  ctxParamName : String
  ctxPkgPath : String
  ctxPkgName : String
  ctxPkgAlias : String
  existingImports : List (String × String)
  callSites : List (Nat × ReplacementInfo)
  callSitesRenamed : List (Nat × String)
deriving DecidableEq, Repr

/-- `resolveCtxExprPackageWildcard` (transform.go lines 476-497): resolves
the package-qualifier wildcard of a context expression from the current
file's import list. -/
def resolveCtxExprPackageWildcard (env : RWEnv) (expr : String) : String :=
  let found := alookup env.existingImports env.ctxPkgPath
  let replacementName :=
    match found with
    | some pkgAlias =>
      if ¬ pkgAlias = "" then pkgAlias else env.ctxPkgName
    | none =>
      if ¬ env.ctxPkgAlias = "" then env.ctxPkgAlias else env.ctxPkgName
  replaceCtxExprWildcard ctxPrefWildcard expr replacementName

/-- The finished context-argument text injected at a call site whose record
carries no extra imports: the recorded (or default) context expression with
its package wildcard resolved for the current file. -/
def ctxArgText (env : RWEnv) (r : ReplacementInfo) : String :=
  resolveCtxExprPackageWildcard env
    (if r.ctxExpr = "" then replaceCtxExprWildcard ctxWildcard r.ctxRegExpr env.ctxParamName
     else r.ctxExpr)

/-- `renameCallSite` (transform.go lines 259-281), the function-name
replacement part: a selector keeps its receiver and gets a new selected
name, a plain identifier is replaced wholesale, anything else is a fatal
error.  (`go`/`defer` statement positions are not modelled; the call sites
of interest are keyed by their `Lparen`.) -/
def renameFun (newName : String) : GoExpr → Except TFatal GoExpr
  | .sel q _ => .ok (.sel q newName)
  | .ident _ => .ok (.ident newName)
  | _ => .error .renameBadFun

/-- The zero-argument sub-case of `rewriteCallSite` (transform.go lines
305-327): when the node being visited has arguments, every argument that is
itself a recorded call expression with a `nil` argument list receives the
context expression as its sole argument (with a warning when the configured
position is not 1). -/
def nestedInject (env : RWEnv) :
    List GoExpr → RWState → Except TFatal (List GoExpr × RWState)
  | [], s => .ok ([], s)
  | a :: rest, s =>
    match a with
    | .call cpos cfn [] =>
      match alookup env.callSites cpos with
      | some r =>
        let s := if ¬ r.argPos = 1 then { s with warnings := s.warnings + 1 } else s
        match getCtxExprAndAddImports env.ctxParamName env.existingImports s.newImports r with
        | .error f => .error f
        | .ok (ce, ni) =>
          let s := { s with newImports := ni, modified := true }
          match nestedInject env rest s with
          | .error f => .error f
          | .ok (rest2, s2) =>
            .ok (.call cpos cfn [.ident (resolveCtxExprPackageWildcard env ce)] :: rest2, s2)
      | none =>
        match nestedInject env rest s with
        | .error f => .error f
        | .ok (rest2, s2) => .ok (a :: rest2, s2)
    | _ =>
      match nestedInject env rest s with
      | .error f => .error f
      | .ok (rest2, s2) => .ok (a :: rest2, s2)

/-- The per-node call handling of `astRewrite` (rename, then
`rewriteCallSite`), applied after the children have been rewritten.
`parentIsCall` records whether the cursor's parent is a `*ast.CallExpr`.
The source checks the argument-position bound before computing the context
expression; both failures abort the whole run, so performing the expression
computation first (as here) yields the same rewritten output on every
non-aborting run. -/
def astCallHandler (env : RWEnv) (parentIsCall : Bool) (pos : Nat) (fn : GoExpr)
    (args : List GoExpr) (s : RWState) : Except TFatal (GoExpr × RWState) :=
  let renamed : Except TFatal (GoExpr × RWState) :=
    match alookup env.callSitesRenamed pos with
    | some newName =>
      match renameFun newName fn with
      | .error f => .error f
      | .ok fn2 => .ok (fn2, { s with modified := true })
    | none => .ok (fn, s)
  match renamed with
  | .error f => .error f
  | .ok (fn1, s1) =>
    if ¬ parentIsCall ∧ args.isEmpty then
      match alookup env.callSites pos with
      | some r =>
        let s2 := if ¬ r.argPos = 1 then { s1 with warnings := s1.warnings + 1 } else s1
        match getCtxExprAndAddImports env.ctxParamName env.existingImports s2.newImports r with
        | .error f => .error f
        | .ok (ce, ni) =>
          .ok (.call pos fn1 [.ident (resolveCtxExprPackageWildcard env ce)],
               { s2 with newImports := ni, modified := true })
      | none => .ok (.call pos fn1 args, s1)
    else if ¬ args.isEmpty then
      match nestedInject env args s1 with
      | .error f => .error f
      | .ok (args2, s2) =>
        match alookup env.callSites pos with
        | some r =>
          match getCtxExprAndAddImports env.ctxParamName env.existingImports s2.newImports r with
          | .error f => .error f
          | .ok (ce, ni) =>
            match callSiteInsert r.argPos
                (GoExpr.ident (resolveCtxExprPackageWildcard env ce)) args2 with
            | .error f => .error f
            | .ok args3 =>
              .ok (.call pos fn1 args3, { s2 with newImports := ni, modified := true })
        | none => .ok (.call pos fn1 args2, s2)
    else .ok (.call pos fn1 args, s1)

mutual

/-- Post-order rewrite of one expression, mirroring the `*ast.CallExpr`
branch of `astRewrite` under `astutil.Apply`. -/
def rewriteExpr (env : RWEnv) (parentIsCall : Bool) :
    GoExpr → RWState → Except TFatal (GoExpr × RWState)
  | .ident n, s => .ok (.ident n, s)
  | .sel q n, s => .ok (.sel q n, s)
  | .call pos fn args, s =>
    match rewriteExpr env true fn s with
    | .error f => .error f
    | .ok (fn1, s1) =>
      match rewriteExprList env args s1 with
      | .error f => .error f
      | .ok (args1, s2) => astCallHandler env parentIsCall pos fn1 args1 s2

/-- Rewrite of a list of sibling expressions (a call's argument slice;
every element's parent is the call expression). -/
def rewriteExprList (env : RWEnv) :
    List GoExpr → RWState → Except TFatal (List GoExpr × RWState)
  | [], s => .ok ([], s)
  | e :: rest, s =>
    match rewriteExpr env true e s with
    | .error f => .error f
    | .ok (e1, s1) =>
      match rewriteExprList env rest s1 with
      | .error f => .error f
      | .ok (rest1, s2) => .ok (e1 :: rest1, s2)

end

/-! ## Files, function declarations, and the per-file transform driver

The driver `transform` (transform.go lines 24-82) processes files
sequentially: per file it computes the existing imports, calls
`initContextExpressions` (which updates the shared configuration fields
`CtxParamInvalid`, `ctxParamTypeWithPkgAlias` and `nilCallReplacement`),
resets the scratch fields, applies the AST rewrite, and adds imports when
the file was modified.  We embed the declaration forms the studied claims
exercise: function declarations with parameter lists and statement bodies.
(Interface method lists, named type specs, higher-order parameter fields
and the anonymous-parameter rename are further branches of `astRewrite`
keyed by the same tables; they are not needed by the claims below.) -/

/-- One declared parameter (name `""` embeds an anonymous parameter). -/
structure GoParam where
  pos : Nat
  name : String
  typeQ : String
deriving DecidableEq, Repr

/-- Statement fragment of a function body. -/
inductive GoStmt where
  | assign (lhs : String) (rhs : GoExpr)
  | exprStmt (e : GoExpr)
deriving Repr

/-- A function declaration, keyed by the unique position of its name. -/
structure GoFunc where
  pos : Nat
  name : String
  recvType : String
  params : List GoParam
  body : List GoStmt
deriving Repr

/-- A source file: its name, import list (path, alias; `""` = an unnamed
one) and declarations. -/
structure GoFile where
  fname : String
  imports : List (String × String)
  funcs : List GoFunc
deriving Repr

/-- The static (JSON) configuration fields consumed by the transform. -/
structure StaticCfg where
  ctxPkgPath : String
  ctxPkgName : String
  ctxPkgAlias : String
  ctxParamType : String
  ctxParamName : String
deriving DecidableEq, Repr

/-- The configuration fields that `initContextExpressions` reassigns while
files are being processed: `cfg.CtxParamInvalid` and
`cfg.ctxParamTypeWithPkgAlias` (`cfg.nilCallReplacement` is rebuilt from
the former). -/
structure DynCfg where
  ctxParamInvalid : String
  ctxParamTypeWithPkgAlias : String
deriving DecidableEq, Repr

/-- `initContextExpressions` (transform.go lines 106-126).  Note that the
source assigns `cfg.CtxParamInvalid = qualifier + "." + cfg.CtxParamInvalid`,
reading the field it is updating, so the qualifier accumulates across the
files of one run; `ctxParamTypeWithPkgAlias` is instead rebuilt from the
static `CtxParamType` each time. -/
def initContextExpressions (c : StaticCfg) (existingImports : List (String × String))
    (d : DynCfg) : DynCfg :=
  match alookup existingImports c.ctxPkgPath with
  | some pkgAlias =>
    if ¬ pkgAlias = "" then
      { ctxParamInvalid := pkgAlias ++ "." ++ d.ctxParamInvalid,
        ctxParamTypeWithPkgAlias := pkgAlias ++ "." ++ c.ctxParamType }
    else
      { ctxParamInvalid := c.ctxPkgName ++ "." ++ d.ctxParamInvalid,
        ctxParamTypeWithPkgAlias := c.ctxPkgName ++ "." ++ c.ctxParamType }
  | none =>
    if c.ctxPkgAlias = "" then
      { ctxParamInvalid := c.ctxPkgName ++ "." ++ d.ctxParamInvalid,
        ctxParamTypeWithPkgAlias := c.ctxPkgName ++ "." ++ c.ctxParamType }
    else
      { ctxParamInvalid := c.ctxPkgAlias ++ "." ++ d.ctxParamInvalid,
        ctxParamTypeWithPkgAlias := c.ctxPkgAlias ++ "." ++ c.ctxParamType }

/-- A call-site table entry as produced by the analysis: either a pointer
to the shared `commonCallReplacement`, a pointer to the shared
`nilCallReplacement` (whose context expression is the per-file
`CtxParamInvalid` value), or an owned `replacementInfo` value. -/
inductive SiteRef where
  | common
  | nilRepl
  | record (r : ReplacementInfo)
deriving DecidableEq, Repr

/-- Dereference a call-site table entry against the configuration state of
the file being rewritten (the source stores pointers into `cfg`, so the
shared entries see the per-file values assigned by
`initContextExpressions`). -/
def derefSite (c : StaticCfg) (d : DynCfg) : SiteRef → ReplacementInfo
  | .common => ⟨"", 1, [], "", c.ctxParamName⟩
  | .nilRepl => ⟨"", 1, [], "", d.ctxParamInvalid⟩
  | .record r => r

/-- The decision tables shared between analysis and transformation. -/
structure TTables where
  fnVisited : List (Nat × FnClass)
  callSites : List (Nat × SiteRef)
  callSitesRenamed : List (Nat × String)
deriving DecidableEq, Repr

/-- `addContextParam` (transform.go lines 352-389): insert the new first
parameter; an empty parameter list receives a named field, a non-empty one
receives a named or anonymous field matching the style of the existing
first entry. -/
def addContextParam (ctxParamName ctxTypeAlias : String) (params : List GoParam) :
    List GoParam :=
  match params with
  | [] => [⟨0, ctxParamName, ctxTypeAlias⟩]
  | p :: _ =>
    if p.name = "" then ⟨0, "", ctxTypeAlias⟩ :: params
    else ⟨0, ctxParamName, ctxTypeAlias⟩ :: params

/-- `addContextInitStmt` (transform.go lines 403-413): prepend
`ctx := <CtxParamInvalid>` to a statement list. -/
def addContextInitStmt (ctxParamName ctxParamInvalid : String) (body : List GoStmt) :
    List GoStmt :=
  .assign ctxParamName (.ident ctxParamInvalid) :: body

/-- Rewrite the statements of a function body. -/
def rewriteStmts (env : RWEnv) :
    List GoStmt → RWState → Except TFatal (List GoStmt × RWState)
  | [], s => .ok ([], s)
  | .assign lhs e :: rest, s =>
    match rewriteExpr env false e s with
    | .error f => .error f
    | .ok (e1, s1) =>
      match rewriteStmts env rest s1 with
      | .error f => .error f
      | .ok (rest1, s2) => .ok (.assign lhs e1 :: rest1, s2)
  | .exprStmt e :: rest, s =>
    match rewriteExpr env false e s with
    | .error f => .error f
    | .ok (e1, s1) =>
      match rewriteStmts env rest s1 with
      | .error f => .error f
      | .ok (rest1, s2) => .ok (.exprStmt e1 :: rest1, s2)

/-- The function-declaration branches of `astRewrite` (transform.go lines
134-141 and 178-188) followed by the rewrite of the body's expressions: a
`regularFn` declaration gains the context parameter, a `freshCtxFn`
declaration gains the artificial-context binding. -/
def rewriteFunc (c : StaticCfg) (d : DynCfg) (tabs : TTables) (env : RWEnv)
    (f : GoFunc) (s : RWState) : Except TFatal (GoFunc × RWState) :=
  let (params1, s1) :=
    if alookup tabs.fnVisited f.pos = some .regularFn then
      (addContextParam c.ctxParamName d.ctxParamTypeWithPkgAlias f.params,
       { s with modified := true })
    else (f.params, s)
  let (body1, s2) :=
    if alookup tabs.fnVisited f.pos = some .freshCtxFn then
      (addContextInitStmt c.ctxParamName d.ctxParamInvalid f.body,
       { s1 with modified := true })
    else (f.body, s1)
  match rewriteStmts env body1 s2 with
  | .error fe => .error fe
  | .ok (body2, s3) => .ok ({ f with params := params1, body := body2 }, s3)

/-- Rewrite of a file's function declarations in order. -/
def rewriteFuncs (c : StaticCfg) (d : DynCfg) (tabs : TTables) (env : RWEnv) :
    List GoFunc → RWState → Except TFatal (List GoFunc × RWState)
  | [], s => .ok ([], s)
  | f :: rest, s =>
    match rewriteFunc c d tabs env f s with
    | .error fe => .error fe
    | .ok (f1, s1) =>
      match rewriteFuncs c d tabs env rest s1 with
      | .error fe => .error fe
      | .ok (rest1, s2) => .ok (f1 :: rest1, s2)

/-- `astutil.AddNamedImport`: add the import with the given path and name
unless the file already has an import with that same name and path
(`astutil.AddImport` is the `name = ""` case). -/
def addNamedImport (imps : List (String × String)) (path name : String) :
    List (String × String) × Bool :=
  if (path, name) ∈ imps then (imps, false) else (imps ++ [(path, name)], true)

/-- `addImports` (transform.go lines 235-255): add the context package's
entry when its path is not among the pre-rewrite imports, then add every
entry of `newImports`; returns the updated import list and whether anything
was added. -/
def addImports (c : StaticCfg) (existingImports : List (String × String))
    (newImports : List (String × String)) (fileImports : List (String × String)) :
    List (String × String) × Bool :=
  let (imps1, added1) :=
    if (alookup existingImports c.ctxPkgPath).isNone then
      addNamedImport fileImports c.ctxPkgPath c.ctxPkgAlias
    else (fileImports, false)
  newImports.foldl
    (fun (acc : List (String × String) × Bool) (pa : String × String) =>
      let (imps2, added2) := addNamedImport acc.1 pa.1 pa.2
      (imps2, added2 || acc.2))
    (imps1, added1)

/-- The per-file body of the `transform` driver (transform.go lines 48-68):
compute the existing imports, re-initialise the context expressions, reset
the scratch state, rewrite the AST, and (when the file was modified) add
the needed imports.  Returns the updated shared configuration state, the
rewritten file, the `modified` flag, and the per-file scratch state. -/
def transformFile (c : StaticCfg) (tabs : TTables) (d : DynCfg) (file : GoFile) :
    Except TFatal (DynCfg × GoFile × Bool × RWState) :=
  let existingImports := file.imports
  let d1 := initContextExpressions c existingImports d
  let env : RWEnv :=
    { ctxParamName := c.ctxParamName
      ctxPkgPath := c.ctxPkgPath
      ctxPkgName := c.ctxPkgName
      ctxPkgAlias := c.ctxPkgAlias
      existingImports := existingImports
      callSites := tabs.callSites.map (fun psr => (psr.1, derefSite c d1 psr.2))
      callSitesRenamed := tabs.callSitesRenamed }
  let s0 : RWState := { newImports := [], modified := false, warnings := 0 }
  match rewriteFuncs c d1 tabs env file.funcs s0 with
  | .error fe => .error fe
  | .ok (funcs1, s1) =>
    if s1.modified then
      let (imps1, _) := addImports c existingImports s1.newImports file.imports
      .ok (d1, { file with funcs := funcs1, imports := imps1 }, true, s1)
    else .ok (d1, { file with funcs := funcs1 }, false, s1)

/-- The file loop of the `transform` driver: files are processed
sequentially, threading the shared configuration state; the names of the
modified files are collected as the result set. -/
def transformAll (c : StaticCfg) (tabs : TTables) (d : DynCfg) :
    List GoFile → Except TFatal (DynCfg × List GoFile × List String)
  | [] => .ok (d, [], [])
  | file :: rest =>
    match transformFile c tabs d file with
    | .error fe => .error fe
    | .ok (d1, file1, modified, _) =>
      match transformAll c tabs d1 rest with
      | .error fe => .error fe
      | .ok (d2, rest1, mods) =>
        .ok (d2, file1 :: rest1, if modified then file1.fname :: mods else mods)

mutual

/-- Does an expression mention the package imported at qualifier `q`
(either through a selector `q.x` or inside an opaque expression text)? -/
def exprMentions (q : String) : GoExpr → Bool
  | .ident s => strContains s (q ++ ".")
  | .sel a _ => a = q
  | .call _ fn args => exprMentions q fn || exprListMentions q args

/-- List version of `exprMentions`. -/
def exprListMentions (q : String) : List GoExpr → Bool
  | [] => false
  | e :: rest => exprMentions q e || exprListMentions q rest

end

/-- Does any declaration of the file mention package qualifier `q` (in a
parameter type or in an expression)? -/
def fileMentions (q : String) (file : GoFile) : Bool :=
  file.funcs.any (fun f =>
    f.params.any (fun p => strContains p.typeQ (q ++ ".")) ||
    f.body.any (fun st =>
      match st with
      | .assign _ e => exprMentions q e
      | .exprStmt e => exprMentions q e))

/-! ## The analysis phase: upward propagation over the call graph

`collect` (transform.go, analysis part, lines 847-930) is a worklist
recursion over call-graph nodes; `collectFnDef` (lines 988-1053) classifies
a caller and recursively continues the traversal; `collectFnParam` (lines
936-983) handles calls performed through function-typed parameters.  The
call graph, the signatures, and the predicates fixed by the pre-scan
(`isMapOrSliceSig`, `isExtReceiver`, `isTestingInitOrMainFunction`,
interface implementation) are supplied as an environment.  The recursion is
made total by a fuel parameter; every recursive call consumes one unit, and
each function returns its inputs unchanged on fuel 0, so any terminating
source execution is reproduced by a sufficiently large fuel. -/

/-- The analyzer-configuration strings consumed by upward propagation. -/
structure ACfg where
  ctxParamName : String
  ctxParamTypeQ : String
  ctxCustomTypeQ : String
  ctxCustomExprExtract : String
  propagationStops : List (String × String × String × String)
deriving DecidableEq, Repr

/-- A function signature as the analysis reads it: parameter list (with
per-parameter unique position, name and package-qualified type string) and
the qualified receiver type (`""` for none). -/
structure SigInfo where
  params : List GoParam
  recvTypeQ : String
deriving DecidableEq, Repr

/-- `isFirstParamContext` (lines 1184-1211): does the signature start with
a context-typed parameter?  Returns (answer, position of that parameter,
name to use at call sites inside the function, whether it is the custom
context type).  The `typeName` component of the source is only used in
debug-level warnings and is omitted. -/
def isFirstParamContext (a : ACfg) (sig : SigInfo) : Bool × Option Nat × String × Bool :=
  match sig.params with
  | [] => (false, none, a.ctxParamName, false)
  | v :: _ =>
    if v.typeQ = a.ctxParamTypeQ then (true, some v.pos, v.name, false)
    else if v.typeQ = a.ctxCustomTypeQ then
      (true, some v.pos,
       replaceCtxExprWildcard ctxCustomWildcard a.ctxCustomExprExtract v.name, true)
    else (false, none, a.ctxParamName, false)

/-- The compatibility test applied to a signature whose first parameter is
a context parameter: propagation stops when the parameter is the custom
context or carries the canonical, underscore or empty name. -/
def skipCtxParam (a : ACfg) (sig : SigInfo) : Bool :=
  let (isPC, _, pname, custom) := isFirstParamContext a sig
  isPC ∧ (custom ∨ pname = "_" ∨ pname = "" ∨ pname = a.ctxParamName)

/-- An inbound call-graph edge, as read by `collect`: the caller node, the
validity and value of the call position, the identity of the function
containing the call instruction, the signature of the call, and — when the
call is performed through an `*ssa.Parameter` — that parameter and its type
as a function signature. -/
structure CEdge where
  callerNid : Nat
  posValid : Bool
  pos : Nat
  siteFid : Nat
  siteSig : SigInfo
  viaParam : Option GoParam
  viaParamSig : Option SigInfo
deriving DecidableEq, Repr

/-- An interface method: owning interface, method name, and the unique
position of the method declaration inside the interface. -/
structure IfaceMeth where
  ifaceId : Nat
  mname : String
  mpos : Nat
deriving DecidableEq, Repr

/-- A call-graph node together with the per-function facts the analysis
consults.  `containerSig`, `extRecv` and `mainTest` embed the pure
predicates `isMapOrSliceSig`, `isExtReceiver` and
`isTestingInitOrMainFunction`, all of which depend only on data fixed
before propagation starts. -/
structure CNode where
  nid : Nat
  fpos : Nat
  fname : String
  pkgPath : Option String
  pkgName : String
  sig : SigInfo
  parentNid : Option Nat
  parentFid : Option Nat
  isAnon : Bool
  containerSig : Bool
  extRecv : Bool
  mainTest : Bool
  ins : List CEdge
  outs : List (Nat × Nat)
deriving DecidableEq, Repr

/-- The analysis environment: configuration, call graph, interfaces, and
the data consulted by the interface/named-type closure. -/
structure AEnv where
  acfg : ACfg
  nodes : List CNode
  nodeOrder : List Nat
  ifaceMeths : List IfaceMeth
  implements : String → Nat → Bool
  ifaceExternal : Nat → Bool
  paramIface : Nat → Option Nat
  argTypeAt : Nat → Nat → Nat
  typeMethods : Nat → List (String × Option Nat)
  paramNamed : Nat → Option Nat
  namedSig : Nat → SigInfo
  namedPos : Nat → Nat
  argFunAt : Nat → Nat → Option Nat
  siteValueNamed : Nat → Option Nat

/-- Node lookup by call-graph node id. -/
def AEnv.findNode (env : AEnv) (nid : Nat) : Option CNode :=
  env.nodes.find? (fun nd => nd.nid = nid)

/-- The mutable analysis state: the decision tables that the transformation
phase will later read. -/
structure AState where
  fnVisited : List (Nat × FnClass)
  callSites : List (Nat × SiteRef)
  callSitesRenamed : List (Nat × String)
  fnParamsVisited : List Nat
  renameParamsVisited : List Nat
  ifaceModified : List (Nat × String)
deriving DecidableEq, Repr

/-- `markFnAsFreshCtx` (lines 1274-1297) at debug level 0: record the
`freshCtxFn` classification (the `fnType` argument of the source only
selects a warning message; at a positive debug level the source can also
skip the write for external packages, a debug-only path not modelled). -/
def markFnAsFreshCtx (st : AState) (pos : Nat) : AState :=
  { st with fnVisited := mset st.fnVisited pos .freshCtxFn }

/-- `addIfacesModified` (lines 1337-1384): for a method (`fnRecv ≠ ""`),
find every known interface the receiver implements that declares a method
of this name; if any of them is externally defined, report `false` without
modifying anything; otherwise mark each interface-method declaration
`regularFn`, record the (interface, method-name) pairs in `ifaceModified`,
and report `true`.  A plain function (`fnRecv = ""`) reports `true` with no
interface to modify.  (Interface embedding is resolved by
`getMethodAndInterface` in the source; the environment lists each method
under the interface that actually declares it.) -/
def addIfacesModified (env : AEnv) (st : AState) (sig : SigInfo)
    (fname : String) (fnRecv : String) : Bool × AState :=
  if fnRecv = "" then (true, st)
  else
    let hits := env.ifaceMeths.filter
      (fun im => env.implements sig.recvTypeQ im.ifaceId ∧ im.mname = fname)
    if hits.any (fun im => env.ifaceExternal im.ifaceId) then (false, st)
    else
      (true,
       hits.foldl
         (fun acc im =>
           { acc with
             fnVisited := mset acc.fnVisited im.mpos .regularFn
             ifaceModified :=
               if (im.ifaceId, fname) ∈ acc.ifaceModified then acc.ifaceModified
               else (im.ifaceId, fname) :: acc.ifaceModified })
         st)

/-- The `PropagationStops` lookup of `collect` (lines 906-915): the caller
matches a configured stop by name, receiver type, package path and package
name. -/
def propStopHit (a : ACfg) (fname recvType pkgPath pkgName : String) : Bool :=
  a.propagationStops.any
    (fun q => q.1 = fname ∧ q.2.1 = recvType ∧ q.2.2.1 = pkgPath ∧ q.2.2.2 = pkgName)

/-- The specialised call replacement built when the caller exposes the
context under a non-canonical name (lines 917-924): the common replacement
with its context expression re-instantiated at that name. -/
def specializedReplacement (pname : String) : SiteRef :=
  .record ⟨"", 1, [], "", replaceCtxExprWildcard ctxWildcard "" pname⟩

mutual

/-- `collect` (lines 847-930): pop the most recently pushed node and
process its inbound edges.  (The source appends to and pops from the tail
of a slice; the worklist is embedded as a stack with push/pop at the
head.) -/
def collect (env : AEnv) : Nat → List Nat → List Nat → AState → List Nat × AState
  | 0, _, vis, st => (vis, st)
  | _ + 1, [], vis, st => (vis, st)
  | fuel + 1, n :: wl, vis, st =>
    match env.findNode n with
    | none => (vis, st)
    | some nd => edgeLoop env fuel nd nd.ins wl vis st

/-- The inbound-edge loop of `collect`.  An edge with an invalid position
makes the source recursively process the remaining worklist and `return`,
abandoning the remaining inbound edges of the popped node; an
anonymous-function edge from a different lexical scope is skipped with
`continue`. -/
def edgeLoop (env : AEnv) :
    Nat → CNode → List CEdge → List Nat → List Nat → AState → List Nat × AState
  | 0, _, _, _, vis, st => (vis, st)
  | fuel + 1, _, [], wl, vis, st => collect env fuel wl vis st
  | fuel + 1, nd, e :: es, wl, vis, st =>
    if ¬ e.posValid then collect env fuel wl vis st
    else if nd.isAnon ∧ ¬ nd.parentFid = some e.siteFid then
      edgeLoop env fuel nd es wl vis st
    else if skipCtxParam env.acfg e.siteSig then
      edgeLoop env fuel nd es wl vis st
    else
      match env.findNode e.callerNid with
      | none => edgeLoop env fuel nd es wl vis st
      | some caller =>
        if caller.fname = "init" then
          edgeLoop env fuel nd es wl vis
            { st with callSites := mset st.callSites e.pos .nilRepl }
        else
          let r1 := collectFnParam env fuel e caller wl vis st
          let st2 := { r1.2 with callSites := mset r1.2.callSites e.pos .common }
          match caller.pkgPath with
          | none => edgeLoop env fuel nd es wl r1.1 st2
          | some pkgPath =>
            if propStopHit env.acfg caller.fname caller.sig.recvTypeQ pkgPath caller.pkgName then
              edgeLoop env fuel nd es wl r1.1 st2
            else
              let r2 := collectFnDef env fuel wl r1.1 st2 caller
              let st4 :=
                if ¬ r2.2.2 = env.acfg.ctxParamName then
                  { r2.2.1 with
                    callSites := mset r2.2.1.callSites e.pos (specializedReplacement r2.2.2) }
                else r2.2.1
              edgeLoop env fuel nd es wl r2.1 st4

/-- `collectFnParam` (lines 936-983): when the call at the edge is
performed through a function-typed parameter of the caller, mark that
parameter position for rewriting (unless its own signature already starts
with a compatible context parameter), then classify every callee reachable
through the same call-site position among the caller's outgoing edges. -/
def collectFnParam (env : AEnv) :
    Nat → CEdge → CNode → List Nat → List Nat → AState → List Nat × AState
  | 0, _, _, _, vis, st => (vis, st)
  | fuel + 1, e, caller, wl, vis, st =>
    match e.viaParam with
    | none => (vis, st)
    | some p =>
      if p.pos ∈ st.fnParamsVisited then (vis, st)
      else
        match e.viaParamSig with
        | none => (vis, st)
        | some psig =>
          if skipCtxParam env.acfg psig then (vis, st)
          else
            let st1 := { st with fnParamsVisited := p.pos :: st.fnParamsVisited }
            outLoop env fuel caller.outs e.pos wl vis st1

/-- The loop over the caller's outgoing edges inside `collectFnParam`
(lines 973-981): classify every callee called from the same source
position. -/
def outLoop (env : AEnv) :
    Nat → List (Nat × Nat) → Nat → List Nat → List Nat → AState → List Nat × AState
  | 0, _, _, _, vis, st => (vis, st)
  | _ + 1, [], _, _, vis, st => (vis, st)
  | fuel + 1, o :: os, epos, wl, vis, st =>
    if o.1 = epos then
      match env.findNode o.2 with
      | none => outLoop env fuel os epos wl vis st
      | some cal =>
        let r := collectFnDef env fuel wl vis st cal
        outLoop env fuel os epos wl r.1 r.2.1
    else outLoop env fuel os epos wl vis st

/-- `collectFnDef` (lines 988-1053), part 1: if the caller's first
parameter is already a context parameter, stop (renaming an anonymous or
underscore parameter to the canonical name); for a nested function, defer
to the enclosing function's node; otherwise classify via
`collectFnDefCore`.  Returns the context parameter name visible inside the
caller. -/
def collectFnDef (env : AEnv) :
    Nat → List Nat → List Nat → AState → CNode → List Nat × AState × String
  | 0, _, vis, st, _ => (vis, st, env.acfg.ctxParamName)
  | fuel + 1, wl, vis, st, caller =>
    let fp := isFirstParamContext env.acfg caller.sig
    if fp.1 then
      if fp.2.2.1 = "_" ∨ fp.2.2.1 = "" then
        (vis,
         { st with
           renameParamsVisited :=
             match fp.2.1 with
             | some rp => rp :: st.renameParamsVisited
             | none => st.renameParamsVisited },
         env.acfg.ctxParamName)
      else (vis, st, fp.2.2.1)
    else
      match caller.parentNid with
      | some pn =>
        match env.findNode pn with
        | some parent => collectFnDef env fuel wl vis st parent
        | none => collectFnDefCore env fuel wl vis st caller
      | none => collectFnDefCore env fuel wl vis st caller

/-- `collectFnDef`, part 2 (lines 1022-1053): the classification chain.  A
node already visited is skipped; otherwise the caller is classified
`freshCtxFn` (already non-`regularFn`, or a `main`/test/`init` function, or
a container-stored signature, or an externally-embedding receiver, or a
method of an externally-defined interface) or `regularFn`, in which case it
is pushed and the worklist recursion continues. -/
def collectFnDefCore (env : AEnv) :
    Nat → List Nat → List Nat → AState → CNode → List Nat × AState × String
  | 0, _, vis, st, _ => (vis, st, env.acfg.ctxParamName)
  | fuel + 1, wl, vis, st, caller =>
    if caller.nid ∈ vis then (vis, st, env.acfg.ctxParamName)
    else
      let vis1 := caller.nid :: vis
      let old := alookup st.fnVisited caller.fpos
      if (old.isSome ∧ ¬ old = some .regularFn) ∨ caller.mainTest then
        (vis1, markFnAsFreshCtx st caller.fpos, env.acfg.ctxParamName)
      else if caller.containerSig then
        (vis1, markFnAsFreshCtx st caller.fpos, env.acfg.ctxParamName)
      else if caller.extRecv then
        (vis1, markFnAsFreshCtx st caller.fpos, env.acfg.ctxParamName)
      else
        let am := addIfacesModified env st caller.sig caller.fname caller.sig.recvTypeQ
        if am.1 then
          let st2 := { am.2 with fnVisited := mset am.2.fnVisited caller.fpos .regularFn }
          let r := collect env fuel (caller.nid :: wl) vis1 st2
          (r.1, r.2, env.acfg.ctxParamName)
        else (vis1, markFnAsFreshCtx am.2 caller.fpos, env.acfg.ctxParamName)

end

/-! ## The interface / named-type closure of the analysis phase

`analyze` (lines 536-542) runs `collectIfaces` and `collectNamedTypes` in a
loop guarded by the boolean returned from `collectIfaces`.  `namedModified`
is a map local to `analyze`, threaded through both functions. -/

/-- `insertArtificialCtxCallsites` (lines 1692-1738): record every not yet
processed call site of a freshly `regularFn`-classified function: reusing
the caller's compatible context parameter where one exists (renaming an
anonymous one), specialising the context expression to a non-canonical
name, and otherwise injecting the artificial (`nil`) context — unless the
call goes through a named function type that has not been modified. -/
def insertArtificialCtxCallsites (env : AEnv) (namedModified : List Nat)
    (st : AState) (nd : CNode) : AState :=
  nd.ins.foldl
    (fun st e =>
      if (alookup st.callSites e.pos).isSome then st
      else if (isFirstParamContext env.acfg e.siteSig).1 then st
      else
        match env.findNode e.callerNid with
        | none => st
        | some caller =>
          let fp := isFirstParamContext env.acfg caller.sig
          if fp.1 then
            if fp.2.2.1 = "_" ∨ fp.2.2.1 = "" then
              { st with
                callSites := mset st.callSites e.pos SiteRef.common
                renameParamsVisited :=
                  match fp.2.1 with
                  | some rp => rp :: st.renameParamsVisited
                  | none => st.renameParamsVisited }
            else if ¬ fp.2.2.1 = env.acfg.ctxParamName then
              { st with callSites := mset st.callSites e.pos (specializedReplacement fp.2.2.1) }
            else { st with callSites := mset st.callSites e.pos SiteRef.common }
          else
            match env.siteValueNamed e.pos with
            | none => { st with callSites := mset st.callSites e.pos .nilRepl }
            | some nm =>
              if nm ∈ namedModified then
                { st with callSites := mset st.callSites e.pos .nilRepl }
              else st)
    st

/-- `insertArtificialCtx` (lines 1644-1688): classify one more function
discovered by the closure (same chain as `collectFnDefCore`), renaming an
anonymous existing context parameter, and — when the function becomes
`regularFn` — recording all its call sites. -/
def insertArtificialCtx (env : AEnv) (namedModified : List Nat)
    (st : AState) (nd : CNode) : AState :=
  let fp := isFirstParamContext env.acfg nd.sig
  if fp.1 ∧ (fp.2.2.1 = "_" ∨ fp.2.2.1 = "") then
    { st with
      renameParamsVisited :=
        match fp.2.1 with
        | some rp => rp :: st.renameParamsVisited
        | none => st.renameParamsVisited }
  else if skipCtxParam env.acfg nd.sig then st
  else
    let old := alookup st.fnVisited nd.fpos
    if (old.isSome ∧ ¬ old = some .regularFn) ∨ nd.mainTest then markFnAsFreshCtx st nd.fpos
    else if nd.containerSig then markFnAsFreshCtx st nd.fpos
    else if nd.extRecv then markFnAsFreshCtx st nd.fpos
    else
      let am := addIfacesModified env st nd.sig nd.fname nd.sig.recvTypeQ
      if am.1 then
        let st2 := { am.2 with fnVisited := mset am.2.fnVisited nd.fpos .regularFn }
        insertArtificialCtxCallsites env namedModified st2 nd
      else markFnAsFreshCtx am.2 nd.fpos

/-- The per-node body of `collectIfaces` (lines 1456-1539): first the
receiver check against the already modified interfaces (the source ranges
over the live `cfg.ifaceModified` map while `insertArtificialCtx` may add
to it; the model iterates the entries present when the node's processing
starts), then the interface-typed-parameter check that resolves the
dynamic type of each actual argument and marks its matching methods. -/
def collectIfacesScanNode (env : AEnv) (namedModified : List Nat)
    (st : AState) (nd : CNode) : AState :=
  let stA :=
    if ¬ nd.sig.recvTypeQ = "" then
      st.ifaceModified.foldl
        (fun st im =>
          if env.implements nd.sig.recvTypeQ im.1 ∧ im.2 = nd.fname then
            insertArtificialCtx env namedModified st nd
          else st)
        st
    else st
  nd.sig.params.enum.foldl
    (fun st ip =>
      match env.paramIface ip.2.pos with
      | none => st
      | some ifId =>
        if ¬ st.ifaceModified.any (fun im => im.1 = ifId) then st
        else
          nd.ins.foldl
            (fun st e =>
              let argTy := env.argTypeAt e.pos ip.1
              (env.typeMethods argTy).foldl
                (fun st mn =>
                  if (ifId, mn.1) ∈ st.ifaceModified then
                    match mn.2 with
                    | some fnid =>
                      match env.findNode fnid with
                      | some fnode => insertArtificialCtx env namedModified st fnode
                      | none => st
                    | none => st
                  else st)
                st)
            st)
    stA

/-- `collectIfaces` (lines 1452-1559).  The source allocates
`ifaceModifiedNew` at entry and merges it into `cfg.ifaceModified` at the
end to compute the `added` flag — but no statement of the function ever
inserts into `ifaceModifiedNew` (all discovered modifications go directly
into `cfg.ifaceModified` through `insertArtificialCtx`), so the merge runs
over the empty map. -/
def collectIfaces (env : AEnv) (namedModified : List Nat) (st : AState) :
    AState × Bool :=
  let ifaceModifiedNew : List (Nat × String) := []
  let st1 := env.nodeOrder.foldl
    (fun st n =>
      match env.findNode n with
      | none => st
      | some nd => collectIfacesScanNode env namedModified st nd)
    st
  ifaceModifiedNew.foldl
    (fun acc im =>
      if im ∈ acc.1.ifaceModified then acc
      else ({ acc.1 with ifaceModified := im :: acc.1.ifaceModified }, true))
    (st1, false)

/-- The discovery loop of `collectNamedTypes` (lines 1567-1599): find named
function types that are used to pass an already modified concrete function,
mark the named type declaration `regularFn`, and collect it in
`namedModifiedNew`. -/
def namedDiscover (env : AEnv) (namedModified : List Nat)
    (st : AState) : AState × List Nat :=
  env.nodeOrder.foldl
    (fun acc n =>
      match env.findNode n with
      | none => acc
      | some nd =>
        nd.sig.params.enum.foldl
          (fun acc ip =>
            match env.paramNamed ip.2.pos with
            | none => acc
            | some nm =>
              if nm ∈ namedModified then acc
              else if (isFirstParamContext env.acfg (env.namedSig nm)).1 then acc
              else
                nd.ins.foldl
                  (fun acc e =>
                    match env.argFunAt e.pos ip.1 with
                    | none => acc
                    | some fnid =>
                      match env.findNode fnid with
                      | none => acc
                      | some fnode =>
                        match alookup acc.1.fnVisited fnode.fpos with
                        | some v =>
                          if ¬ v = .extFn then
                            ({ acc.1 with
                               fnVisited := mset acc.1.fnVisited (env.namedPos nm) .regularFn },
                             if nm ∈ acc.2 then acc.2 else nm :: acc.2)
                          else acc
                        | none => acc)
                  acc)
          acc)
    (st, [])

/-- The propagation loop of `collectNamedTypes` (lines 1605-1631): every
function passed through a parameter of a named type discovered in this
round is itself classified. -/
def namedPropagate (env : AEnv) (namedModified namedNew : List Nat)
    (st : AState) : AState :=
  env.nodeOrder.foldl
    (fun st n =>
      match env.findNode n with
      | none => st
      | some nd =>
        nd.sig.params.enum.foldl
          (fun st ip =>
            match env.paramNamed ip.2.pos with
            | none => st
            | some nm =>
              if nm ∈ namedNew then
                nd.ins.foldl
                  (fun st e =>
                    match env.argFunAt e.pos ip.1 with
                    | none => st
                    | some fnid =>
                      match env.findNode fnid with
                      | none => st
                      | some fnode => insertArtificialCtx env namedModified st fnode)
                  st
              else st)
          st)
    st

/-- `collectNamedTypes` (lines 1564-1638): iterate discovery and
propagation until no new named type is found, merging each round's
discoveries into `namedModified`. -/
def collectNamedTypes (env : AEnv) :
    Nat → List Nat → AState → List Nat × AState
  | 0, namedModified, st => (namedModified, st)
  | fuel + 1, namedModified, st =>
    let d := namedDiscover env namedModified st
    if d.2.isEmpty then (namedModified, d.1)
    else
      let st2 := namedPropagate env namedModified d.2 d.1
      collectNamedTypes env fuel (namedModified ++ d.2) st2

/-- The fixed-point loop of `analyze` (lines 536-542): run `collectIfaces`
then `collectNamedTypes`, repeating while `collectIfaces` reports an
addition. -/
def analyzeFixpoint (env : AEnv) :
    Nat → List Nat → AState → List Nat × AState
  | 0, namedModified, st => (namedModified, st)
  | fuel + 1, namedModified, st =>
    let ci := collectIfaces env namedModified st
    let cn := collectNamedTypes env fuel namedModified ci.1
    if ci.2 then analyzeFixpoint env fuel cn.1 cn.2 else (cn.1, cn.2)

/-! ## The full pipeline over a miniature program

`propagate` (part 006 of the source) loads the program, runs the analysis
(`analyze`: pre-scan, `processLeafCalls`, `collect`, the closure loop) and
then the transformation (`transform`), returning the set of modified files.
We compose the embedded phases over a miniature program consisting of
top-level functions in one user package that call each other by plain
identifiers and call leaf library functions through `lib.Name` selectors.
The pre-scan contributes nothing on such programs (no collections, no
external interfaces), and `processLeafCalls` matches a leaf call by the
selector's package qualifier and name (the source checks the callee's
package path and name against `LibPkgPath`/`LibPkgName`). -/

mutual

/-- All call subexpressions of an expression: (position, callee). -/
def callsOfExpr : GoExpr → List (Nat × GoExpr)
  | .ident _ => []
  | .sel _ _ => []
  | .call pos fn args => (pos, fn) :: (callsOfExpr fn ++ callsOfExprList args)

/-- All call subexpressions of a list of expressions. -/
def callsOfExprList : List GoExpr → List (Nat × GoExpr)
  | [] => []
  | e :: rest => callsOfExpr e ++ callsOfExprList rest

end

/-- All call subexpressions of a statement. -/
def callsOfStmt : GoStmt → List (Nat × GoExpr)
  | .assign _ e => callsOfExpr e
  | .exprStmt e => callsOfExpr e

/-- All call subexpressions of a function body. -/
def callsOfFunc (f : GoFunc) : List (Nat × GoExpr) :=
  f.body.foldr (fun st acc => callsOfStmt st ++ acc) []

/-- The configuration of a miniature pipeline run. -/
structure PipeCfg where
  static : StaticCfg
  acfg : ACfg
  libPkgName : String
  libFns : List (String × ReplacementInfo)
  ctxParamInvalidInit : String
deriving Repr

/-- The call edges from user functions to a given leaf function: (caller
function position, call position). -/
def leafCallsOf (libPkg lname : String) (files : List GoFile) : List (Nat × Nat) :=
  files.foldr
    (fun file acc =>
      file.funcs.foldr
        (fun g acc2 =>
          (callsOfFunc g).foldr
            (fun c acc3 =>
              match c.2 with
              | .sel q s => if q = libPkg ∧ s = lname then (g.pos, c.1) :: acc3 else acc3
              | _ => acc3)
            acc2)
        acc)
    []

/-- The user-package call-graph node of one miniature function: calls to it
are the calls whose callee is the plain identifier of its name. -/
def toyNode (files : List GoFile) (f : GoFunc) : CNode :=
  { nid := f.pos
    fpos := f.pos
    fname := f.name
    pkgPath := some "user"
    pkgName := "user"
    sig := { params := f.params, recvTypeQ := f.recvType }
    parentNid := none
    parentFid := none
    isAnon := strContains f.name "$"
    containerSig := false
    extRecv := false
    mainTest := f.name = "main" ∧ f.params.isEmpty
    ins :=
      files.foldr
        (fun file acc =>
          file.funcs.foldr
            (fun g acc2 =>
              (callsOfFunc g).foldr
                (fun c acc3 =>
                  match c.2 with
                  | .ident s =>
                    if s = f.name then
                      { callerNid := g.pos
                        posValid := true
                        pos := c.1
                        siteFid := g.pos
                        siteSig := { params := f.params, recvTypeQ := f.recvType }
                        viaParam := none
                        viaParamSig := none } :: acc3
                    else acc3
                  | _ => acc3)
                acc2)
            acc)
        []
    outs := [] }

/-- The analysis environment of a miniature program: its call graph and
trivially empty interface / container / named-type data. -/
def buildAEnv (cfg : PipeCfg) (files : List GoFile) : AEnv :=
  { acfg := cfg.acfg
    nodes := files.foldr (fun file acc => file.funcs.map (toyNode files) ++ acc) []
    nodeOrder := files.foldr (fun file acc => file.funcs.map (·.pos) ++ acc) []
    ifaceMeths := []
    implements := fun _ _ => false
    ifaceExternal := fun _ => false
    paramIface := fun _ => none
    argTypeAt := fun _ _ => 0
    typeMethods := fun _ => []
    paramNamed := fun _ => none
    namedSig := fun _ => ⟨[], ""⟩
    namedPos := fun _ => 0
    argFunAt := fun _ _ => none
    siteValueNamed := fun _ => none }

/-- `processLeafCalls` (analysis part, lines 754-843) on a miniature
program: for every configured leaf function and every literal call to it,
record the rename (when a new name is configured), classify the enclosing
caller, and record the call-site rewrite, specialising the context
expression when the caller exposes the context under a non-canonical
name. -/
def seedStepInner (cfg : PipeCfg) (env : AEnv) (fuel : Nat)
    (lr : String × ReplacementInfo) (acc : List Nat × AState) (gc : Nat × Nat) :
    List Nat × AState :=
  let st1 :=
    if ¬ lr.2.newName = "" then
      { acc.2 with callSitesRenamed := mset acc.2.callSitesRenamed gc.2 lr.2.newName }
    else acc.2
  match env.findNode gc.1 with
  | none => (acc.1, st1)
  | some gnode =>
    let r := collectFnDef env fuel [] acc.1 st1 gnode
    let rep :=
      if r.2.2 = env.acfg.ctxParamName then SiteRef.record lr.2
      else
        SiteRef.record
          ⟨lr.2.newName, lr.2.argPos, lr.2.ctxImports, lr.2.ctxRegExpr,
           replaceCtxExprWildcard ctxWildcard lr.2.ctxRegExpr r.2.2⟩
    (r.1, { r.2.1 with callSites := mset r.2.1.callSites gc.2 rep })

def seedLeafCalls (cfg : PipeCfg) (env : AEnv) (fuel : Nat) (files : List GoFile) :
    List Nat × AState :=
  cfg.libFns.foldl
    (fun acc lr =>
      (leafCallsOf cfg.libPkgName lr.1 files).foldl (seedStepInner cfg env fuel lr) acc)
    ([], ⟨[], [], [], [], [], []⟩)

/-- The analysis phase (`analyze`, lines 521-543) of a miniature run: leaf
seeding, the worklist recursion (whose work the source performs inside
`collectFnDef`, the worklist returned by `processLeafCalls` staying empty),
and the closure loop. -/
def analyzeToy (cfg : PipeCfg) (fuel : Nat) (files : List GoFile) : AState :=
  let env := buildAEnv cfg files
  let s := seedLeafCalls cfg env fuel files
  let c := collect env fuel [] s.1 s.2
  (analyzeFixpoint env fuel [] c.2).2

/-- One full analysis-plus-transformation run over a miniature program:
returns the rewritten files and the names of the modified files. -/
def runOnce (cfg : PipeCfg) (fuel : Nat) (files : List GoFile) :
    Except TFatal (List GoFile × List String) :=
  let st := analyzeToy cfg fuel files
  let tabs : TTables :=
    { fnVisited := st.fnVisited
      callSites := st.callSites
      callSitesRenamed := st.callSitesRenamed }
  let d0 : DynCfg := { ctxParamInvalid := cfg.ctxParamInvalidInit, ctxParamTypeWithPkgAlias := "" }
  match transformAll cfg.static tabs d0 files with
  | .error fe => .error fe
  | .ok (_, files1, mods) => .ok (files1, mods)

/-! ## Predicates used by the theorem statements -/

/-- One admissible classification update: the stored class is unchanged, or
the old class was `extFn`. -/
def ClassStep (v v2 : FnClass) : Prop := v2 = v ∨ v = .extFn

/-- Between two classification tables: any key bound in both evolved by an
admissible step. -/
def TransOK (m m2 : List (Nat × FnClass)) : Prop :=
  ∀ k v v2, alookup m k = some v → alookup m2 k = some v2 → ClassStep v v2

/-- Every stored classification is `extFn` — the only class the pre-scan
(`collectCollectionFnsAndMarkExternalInterfaceFns`,
`markExternalParamFns`) ever stores, so this describes every state the
pre-scan can hand to the propagation phase. -/
def InitExtOnly (st : AState) : Prop :=
  ∀ k v, alookup st.fnVisited k = some v → v = .extFn

/-- Well-formedness of an analysis environment, reflecting facts that hold
of real programs: two call-graph nodes keyed by the same unique function
position describe the same function (same name, signature and pre-scan
predicates), and function-declaration positions are distinct from
interface-method positions and from named-type positions. -/
def Consistent (env : AEnv) : Prop :=
  (∀ nd1 ∈ env.nodes, ∀ nd2 ∈ env.nodes, nd1.fpos = nd2.fpos →
     (nd1.fname = nd2.fname ∧ nd1.sig = nd2.sig ∧ nd1.containerSig = nd2.containerSig ∧
      nd1.extRecv = nd2.extRecv ∧ nd1.mainTest = nd2.mainTest)) ∧
  (∀ nd ∈ env.nodes, ∀ im ∈ env.ifaceMeths, ¬ nd.fpos = im.mpos) ∧
  (∀ nd ∈ env.nodes, ∀ nd2 ∈ env.nodes, ∀ ip ∈ nd2.sig.params,
     ∀ nm, env.paramNamed ip.pos = some nm → ¬ nd.fpos = env.namedPos nm)

mutual

/-- No call in the expression targets a leaf function (`lib.Name` selector
with a configured leaf name). -/
def exprLeafFree (libPkg : String) (leaf : List String) : GoExpr → Bool
  | .ident _ => true
  | .sel _ _ => true
  | .call _ fn args =>
    (match fn with
     | .sel q l => ¬ (q = libPkg ∧ l ∈ leaf)
     | _ => true) && exprLeafFree libPkg leaf fn && exprListLeafFree libPkg leaf args

/-- List version of `exprLeafFree`. -/
def exprListLeafFree (libPkg : String) (leaf : List String) : List GoExpr → Bool
  | [] => true
  | e :: rest => exprLeafFree libPkg leaf e && exprListLeafFree libPkg leaf rest

end

/-- No call in the statement targets a leaf function. -/
def stmtLeafFree (libPkg : String) (leaf : List String) : GoStmt → Bool
  | .assign _ e => exprLeafFree libPkg leaf e
  | .exprStmt e => exprLeafFree libPkg leaf e

/-- No call in any of the files targets a leaf function. -/
def filesLeafFree (libPkg : String) (leaf : List String) (files : List GoFile) : Bool :=
  files.all (fun file => file.funcs.all (fun f => f.body.all (stmtLeafFree libPkg leaf)))

mutual

/-- Every leaf call in the expression carries a rename entry. -/
def exprRenamedCovered (libPkg : String) (leaf : List String)
    (renames : List (Nat × String)) : GoExpr → Bool
  | .ident _ => true
  | .sel _ _ => true
  | .call pos fn args =>
    (match fn with
     | .sel q l =>
       if q = libPkg ∧ l ∈ leaf then (alookup renames pos).isSome else true
     | _ => true) &&
    exprRenamedCovered libPkg leaf renames fn &&
    exprListRenamedCovered libPkg leaf renames args

/-- List version of `exprRenamedCovered`. -/
def exprListRenamedCovered (libPkg : String) (leaf : List String)
    (renames : List (Nat × String)) : List GoExpr → Bool
  | [] => true
  | e :: rest =>
    exprRenamedCovered libPkg leaf renames e &&
    exprListRenamedCovered libPkg leaf renames rest

end

/-- `exprRenamedCovered` over a statement. -/
def stmtRenamedCovered (libPkg : String) (leaf : List String)
    (renames : List (Nat × String)) : GoStmt → Bool
  | .assign _ e => exprRenamedCovered libPkg leaf renames e
  | .exprStmt e => exprRenamedCovered libPkg leaf renames e

/-- Every rename-table value is the configured new name of some leaf. -/
def RenamesFromCfg (cfg : PipeCfg) (renames : List (Nat × String)) : Prop :=
  ∀ pos nn, alookup renames pos = some nn → ∃ lr, lr ∈ cfg.libFns ∧ nn = lr.2.newName

/-- The classification-guard data of a node that is needed for it to be
(and to remain) classified `regularFn` by the chain of `collectFnDef` /
`insertArtificialCtx`: not a `main`/test/`init` function, not a
container-stored signature, not an externally-embedding receiver, and
`addIfacesModified` reports success.  All components depend only on the
environment (fixed after the pre-scan), never on the evolving state. -/
def addIfacesOk (env : AEnv) (sig : SigInfo) (fname fnRecv : String) : Bool :=
  if fnRecv = "" then true
  else
    ¬ (env.ifaceMeths.filter
        (fun im => env.implements sig.recvTypeQ im.ifaceId ∧ im.mname = fname)).any
      (fun im => env.ifaceExternal im.ifaceId)

/-- A node whose classification chain resolves to `regularFn` (given that
its stored class is absent or already `regularFn`). -/
def NodeRegularOK (env : AEnv) (nd : CNode) : Prop :=
  nd.mainTest = false ∧ nd.containerSig = false ∧ nd.extRecv = false ∧
  addIfacesOk env nd.sig nd.fname nd.sig.recvTypeQ = true

/-- The classification invariant maintained by the analysis: only the
classes `regularFn`, `freshCtxFn` and `extFn` are ever stored (the
container/external constants of the source select warning messages only);
a key stored as `regularFn` admits only nodes whose chain re-derives
`regularFn`; and a key stored as `freshCtxFn` is the position of some
call-graph node (so it is distinct from every interface-method and
named-type position in a `Consistent` environment). -/
def AInv (env : AEnv) (st : AState) : Prop :=
  (∀ k v, alookup st.fnVisited k = some v →
     v = .regularFn ∨ v = .freshCtxFn ∨ v = .extFn) ∧
  (∀ k, alookup st.fnVisited k = some .regularFn →
     ∀ nd, nd ∈ env.nodes → nd.fpos = k → NodeRegularOK env nd) ∧
  (∀ k, alookup st.fnVisited k = some .freshCtxFn →
     ∃ nd, nd ∈ env.nodes ∧ nd.fpos = k)

/-- Classification evolution: assuming the invariant at the start, it still
holds at the end, every commonly-bound key evolved by an admissible step,
and no binding was dropped. -/
def AEvolve (env : AEnv) (st st2 : AState) : Prop :=
  AInv env st →
    (AInv env st2 ∧ TransOK st.fnVisited st2.fnVisited ∧
     ∀ k, (alookup st.fnVisited k).isSome → (alookup st2.fnVisited k).isSome)

/-- The classifying part of the analysis after the pre-scan, as `analyze`
(lines 521-543) drives it: `processLeafCalls` classifies the caller of each
leaf call via `collectFnDef` (the worklist it returns stays empty, all
propagation happening inside `collectFnDef`), then `collect` runs on that
empty worklist, then the closure loop runs. -/
def analysisDriver (env : AEnv) (fuel : Nat) (seeds : List Nat) (st : AState) :
    AState :=
  let s := seeds.foldl
    (fun (acc : List Nat × AState) nid =>
      match env.findNode nid with
      | none => acc
      | some nd =>
        let r := collectFnDef env fuel [] acc.1 acc.2 nd
        (r.1, r.2.1))
    ([], st)
  let c := collect env fuel [] s.1 s.2
  (analyzeFixpoint env fuel [] c.2).2

/-- The empty analysis state. -/
def emptyAState : AState := ⟨[], [], [], [], [], []⟩

/-- An analysis environment whose interface, container and named-type data
are all empty (as `buildAEnv` produces for miniature programs). -/
def plainEnv (acfg : ACfg) (nodes : List CNode) (nodeOrder : List Nat)
    (ifaceMeths : List IfaceMeth) (impls : String → Nat → Bool) : AEnv :=
  { acfg := acfg
    nodes := nodes
    nodeOrder := nodeOrder
    ifaceMeths := ifaceMeths
    implements := impls
    ifaceExternal := fun _ => false
    paramIface := fun _ => none
    argTypeAt := fun _ _ => 0
    typeMethods := fun _ => []
    paramNamed := fun _ => none
    namedSig := fun _ => ⟨[], ""⟩
    namedPos := fun _ => 0
    argFunAt := fun _ _ => none
    siteValueNamed := fun _ => none }

/-! ## Concrete inputs used by the witnesses and counterexamples -/

/-- A configuration with no custom context and no propagation stops; the
canonical parameter name is `ctx` and the canonical context type is the
qualified string `ctxT`. -/
def acfgW : ACfg := ⟨"ctx", "ctxT", "", "", []⟩

/-- C2 witness: the inbound edge from `fooCaller` (which already starts
with `(ctx ctxT)`) to the popped node `h`. -/
def eC2 : CEdge :=
  { callerNid := 2, posValid := true, pos := 50, siteFid := 2,
    siteSig := ⟨[], ""⟩, viaParam := none, viaParamSig := none }

/-- C2 witness: the popped callee node. -/
def ndC2 : CNode :=
  { nid := 1, fpos := 1, fname := "h", pkgPath := some "user", pkgName := "user",
    sig := ⟨[], ""⟩, parentNid := none, parentFid := none, isAnon := false,
    containerSig := false, extRecv := false, mainTest := false,
    ins := [eC2], outs := [] }

/-- C2 witness: the caller, whose signature already begins with a
context-typed parameter carrying the canonical name. -/
def callerC2 : CNode :=
  { nid := 2, fpos := 2, fname := "fooCaller", pkgPath := some "user",
    pkgName := "user", sig := ⟨[⟨7, "ctx", "ctxT"⟩], ""⟩, parentNid := none,
    parentFid := none, isAnon := false, containerSig := false, extRecv := false,
    mainTest := false, ins := [], outs := [] }

/-- C2 witness environment. -/
def envC2 : AEnv := plainEnv acfgW [ndC2, callerC2] [1, 2] [] (fun _ _ => false)

/-- C4 witness environment: the same two-node call graph, under which the
consistency conditions hold (distinct function positions, no interfaces, no
named types). -/
def envC4 : AEnv := plainEnv acfgW [ndC2, callerC2] [1, 2] [] (fun _ _ => false)

/-- C8: an inbound edge with an invalid position. -/
def e8a : CEdge :=
  { callerNid := 2, posValid := false, pos := 59, siteFid := 2,
    siteSig := ⟨[], ""⟩, viaParam := none, viaParamSig := none }

/-- C8: a subsequent valid inbound edge of the same node. -/
def e8b : CEdge :=
  { callerNid := 2, posValid := true, pos := 60, siteFid := 2,
    siteSig := ⟨[], ""⟩, viaParam := none, viaParamSig := none }

/-- C8: the popped node with the invalid edge first. -/
def ndC8 : CNode :=
  { nid := 1, fpos := 1, fname := "h", pkgPath := some "user", pkgName := "user",
    sig := ⟨[], ""⟩, parentNid := none, parentFid := none, isAnon := false,
    containerSig := false, extRecv := false, mainTest := false,
    ins := [e8a, e8b], outs := [] }

/-- C8: the same node with only the valid edge. -/
def ndC8b : CNode :=
  { ndC8 with ins := [e8b] }

/-- C8: the caller of both edges. -/
def callerC8 : CNode :=
  { nid := 2, fpos := 2, fname := "g", pkgPath := some "user", pkgName := "user",
    sig := ⟨[], ""⟩, parentNid := none, parentFid := none, isAnon := false,
    containerSig := false, extRecv := false, mainTest := false,
    ins := [], outs := [] }

/-- C8 counterexample environment: invalid edge followed by a valid one. -/
def envC8 : AEnv := plainEnv acfgW [ndC8, callerC8] [1, 2] [] (fun _ _ => false)

/-- C8 control environment: the valid edge alone. -/
def envC8b : AEnv := plainEnv acfgW [ndC8b, callerC8] [1, 2] [] (fun _ _ => false)

/-- C3: concrete method node `R2.Foo`, processed first. -/
def nd3f2 : CNode :=
  { nid := 12, fpos := 12, fname := "Foo", pkgPath := some "user",
    pkgName := "user", sig := ⟨[], "R2"⟩, parentNid := none, parentFid := none,
    isAnon := false, containerSig := false, extRecv := false, mainTest := false,
    ins := [], outs := [] }

/-- C3: concrete method node `R1.Foo`, processed second. -/
def nd3f1 : CNode :=
  { nid := 11, fpos := 11, fname := "Foo", pkgPath := some "user",
    pkgName := "user", sig := ⟨[], "R1"⟩, parentNid := none, parentFid := none,
    isAnon := false, containerSig := false, extRecv := false, mainTest := false,
    ins := [], outs := [] }

/-- C3 failing input: interfaces 1, 2 and 3 each declare a method `Foo`;
receiver `R1` implements interfaces 1 and 2, receiver `R2` implements 2 and
3; `R2.Foo` is visited before `R1.Foo`. -/
def envC3 : AEnv :=
  plainEnv acfgW [nd3f2, nd3f1] [12, 11]
    [⟨1, "Foo", 101⟩, ⟨2, "Foo", 102⟩, ⟨3, "Foo", 103⟩]
    (fun r i =>
      (r = "R1" ∧ (i = 1 ∨ i = 2)) ∨ (r = "R2" ∧ (i = 2 ∨ i = 3)))

/-- C3 failing input: the analysis state entering the closure loop, with
interface 1's `Foo` already in the interface-modification set. -/
def st0C3 : AState := { emptyAState with ifaceModified := [(1, "Foo")] }

/-- C9 counterexample: the recorded zero-argument call `lib.A()` keyed by
position 5, with the plain context expression `ctx`. -/
def envC9 : RWEnv :=
  { ctxParamName := "ctx", ctxPkgPath := "context", ctxPkgName := "context",
    ctxPkgAlias := "", existingImports := [],
    callSites := [(5, ⟨"", 1, [], "", "ctx"⟩)], callSitesRenamed := [] }

/-- C9 counterexample: the recorded zero-argument call in function-operand
position of an enclosing call, `(lib.A())()`. -/
def exprC9 : GoExpr := .call 9 (.call 5 (.sel "lib" "A") []) []

/-- The empty per-file scratch state. -/
def rwState0 : RWState := ⟨[], false, 0⟩

/-- The static configuration of the concrete transform runs: context
package `context` (no alias), type `Context`, parameter name `ctx`. -/
def staticW : StaticCfg := ⟨"context", "context", "", "Context", "ctx"⟩

/-- C6 counterexample tables: one recorded call site whose context
expression `cc.Get()` extracts the context from a custom-context parameter
and references no package. -/
def tabsC6 : TTables :=
  { fnVisited := [], callSites := [(21, .record ⟨"", 1, [], "", "cc.Get()"⟩)],
    callSitesRenamed := [] }

/-- C6 counterexample file: imports only the custom-context package and
contains the recorded zero-argument call. -/
def fileC6 : GoFile :=
  { fname := "c.go", imports := [("custom", "")],
    funcs := [⟨90, "FooC", "", [⟨91, "cc", "custom.Ctx"⟩],
               [.exprStmt (.call 21 (.ident "FooA") [])]⟩] }

/-- C5 failing input: two files, each containing one `freshCtxFn` function
and no imports. -/
def fileC5a : GoFile :=
  { fname := "a.go", imports := [],
    funcs := [⟨30, "fa", "", [], [.exprStmt (.ident "x")]⟩] }

/-- Second file of the C5 failing input. -/
def fileC5b : GoFile :=
  { fname := "b.go", imports := [],
    funcs := [⟨40, "fb", "", [], [.exprStmt (.ident "y")]⟩] }

/-- C5 failing input tables: both functions are classified `freshCtxFn`. -/
def tabsC5 : TTables :=
  { fnVisited := [(30, .freshCtxFn), (40, .freshCtxFn)], callSites := [],
    callSitesRenamed := [] }

/-- The artificial-context expression injected at the head of the first
function of a file, as text (used to observe the C5 accumulation). -/
def firstInjectedExpr (file : GoFile) : String :=
  match file.funcs with
  | f :: _ =>
    match f.body with
    | .assign _ (.ident s) :: _ => s
    | _ => ""
  | [] => ""

/-- C7: the miniature program `func foo(p bool) { lib.A(p) }`. -/
def fileC7 : GoFile :=
  { fname := "a.go", imports := [],
    funcs := [⟨10, "foo", "", [⟨11, "p", "bool"⟩],
               [.exprStmt (.call 20 (.sel "lib" "A") [.ident "p"])]⟩] }

/-- C7 counterexample configuration: leaf `lib.A`, position 1, no rename. -/
def cfgC7 : PipeCfg :=
  { static := staticW
    acfg := ⟨"ctx", "context.Context", "", "", []⟩
    libPkgName := "lib"
    libFns := [("A", ⟨"", 1, [], "", ""⟩)]
    ctxParamInvalidInit := "TODO()" }

/-- C7 witness configuration: the same run with the leaf renamed to
`CtxA`. -/
def cfgC7R : PipeCfg :=
  { cfgC7 with libFns := [("A", ⟨"CtxA", 1, [], "", ""⟩)] }

/-- The output files of the first (renaming) C7 run. -/
def filesC7R : List GoFile :=
  match runOnce cfgC7R 50 [fileC7] with
  | .ok (fs, _) => fs
  | .error _ => []

/-- The modified-file set of the first (renaming) C7 run. -/
def modsC7R : List String :=
  match runOnce cfgC7R 50 [fileC7] with
  | .ok (_, ms) => ms
  | .error _ => []

/-- The output files of the first (rename-free) C7 run. -/
def filesC7a : List GoFile :=
  match runOnce cfgC7 50 [fileC7] with
  | .ok (fs, _) => fs
  | .error _ => []

/-- The modified-file set of the first (rename-free) C7 run. -/
def modsC7a : List String :=
  match runOnce cfgC7 50 [fileC7] with
  | .ok (_, ms) => ms
  | .error _ => []

/-- The output files of the second (rename-free) C7 run. -/
def filesC7b : List GoFile :=
  match runOnce cfgC7 50 filesC7a with
  | .ok (fs, _) => fs
  | .error _ => []

/-- The modified-file set of the second (rename-free) C7 run. -/
def modsC7b : List String :=
  match runOnce cfgC7 50 filesC7a with
  | .ok (_, ms) => ms
  | .error _ => []

/-- Projection observing a pipeline run's output: the identifier arguments
of the top-level call at a given position. -/
def argNamesAt (pos : Nat) (files : List GoFile) : List String :=
  files.foldr
    (fun file acc =>
      file.funcs.foldr
        (fun g acc2 =>
          g.body.foldr
            (fun st acc3 =>
              match st with
              | .exprStmt (.call p _ args) =>
                if p = pos then
                  args.foldr
                    (fun a acc4 =>
                      match a with
                      | .ident s => s :: acc4
                      | _ => "?" :: acc4)
                    acc3
                else acc3
              | _ => acc3)
            acc2)
        acc)
    []

/-! # Theorems -/

/-! ## Association-list helper lemmas -/

theorem alookup_mset_self [DecidableEq κ] (m : List (κ × α)) (k : κ) (v : α) :
    alookup (mset m k v) k = some v := by
  simp [mset, alookup]

theorem alookup_mset_ne [DecidableEq κ] (m : List (κ × α)) (k q : κ) (v : α)
    (h : ¬ q = k) : alookup (mset m k v) q = alookup m q := by
  induction m with
  | nil => simp [mset, alookup, h]
  | cons kv rest ih =>
    by_cases hk : kv.1 = k
    · by_cases hq : q = kv.1
      · exact absurd (hq.trans hk) h
      · simpa [mset, alookup, h, hk, hq] using by simpa [mset, alookup, h, hk] using ih
    · simp only [mset, List.filter] at ih ⊢
      by_cases hq : q = kv.1 <;> simp [alookup, hk, hq, h] at ih ⊢ <;> simpa [alookup, h, hq] using ih

/-- `getCtxExprAndAddImports` with no extra imports just resolves the
context-name wildcard. -/
theorem getCtx_imports_nil (cp : String) (ex ni : List (String × String))
    (r : ReplacementInfo) (h : r.ctxImports = []) :
    getCtxExprAndAddImports cp ex ni r =
      .ok (if r.ctxExpr = "" then replaceCtxExprWildcard ctxWildcard r.ctxRegExpr cp
           else r.ctxExpr, ni) := by
  simp [getCtxExprAndAddImports, h]

/-! ## C1 — argument position semantics of `rewriteCallSite` -/

/-- C1: for a call expression with at least one existing argument, a
configured position `≤ 0` appends the context argument after all existing
arguments; a position `p ≥ 1` inserts the context argument immediately
before the `p`-th existing argument (0-based index `p - 1`), the run
aborting exactly when `p - 1` exceeds the number of existing arguments, so
`p` equal to the argument count plus one still succeeds by appending at the
end. -/
theorem rewriteCallSite_position_semantics (p : Int) (c : α) (args : List α)
    (hne : args ≠ []) :
    (p ≤ 0 → callSiteInsert p c args = .ok (args ++ [c])) ∧
    (1 ≤ p →
      ((callSiteInsert p c args = .error .posBeyondEnd ↔ (args.length : Int) < p - 1) ∧
       (p - 1 ≤ (args.length : Int) →
          callSiteInsert p c args =
            .ok (args.take (p - 1).toNat ++ c :: args.drop (p - 1).toNat)) ∧
       (p = (args.length : Int) + 1 → callSiteInsert p c args = .ok (args ++ [c])))) := by
  refine ⟨fun hp => ?_, fun hp => ⟨?_, fun hle => ?_, fun heq => ?_⟩⟩
  · simp [callSiteInsert, show p < 1 by omega]
  · by_cases hlt : (args.length : Int) < p - 1
    · simp [callSiteInsert, show ¬ p < 1 by omega, hlt]
    · simp [callSiteInsert, show ¬ p < 1 by omega, hlt]
  · simp [callSiteInsert, show ¬ p < 1 by omega, show ¬ (args.length : Int) < p - 1 by omega]
  · have h3 : (p - 1).toNat = args.length := by omega
    simp [callSiteInsert, show ¬ p < 1 by omega,
          show ¬ (args.length : Int) < p - 1 by omega, h3]

theorem rewriteCallSite_position_semantics_witness :
    (["a"] : List String) ≠ [] ∧
    (((2 : Int) ≤ 0 → callSiteInsert 2 "c" ["a"] = .ok (["a"] ++ ["c"])) ∧
     ((1 : Int) ≤ 2 →
       ((callSiteInsert 2 "c" ["a"] = .error .posBeyondEnd ↔
           ((["a"] : List String).length : Int) < 2 - 1) ∧
        ((2 : Int) - 1 ≤ ((["a"] : List String).length : Int) →
           callSiteInsert 2 "c" ["a"] =
             .ok ((["a"] : List String).take ((2 : Int) - 1).toNat ++
                  "c" :: (["a"] : List String).drop ((2 : Int) - 1).toNat)) ∧
        ((2 : Int) = ((["a"] : List String).length : Int) + 1 →
           callSiteInsert 2 "c" ["a"] = .ok (["a"] ++ ["c"]))))) :=
  ⟨by decide, rewriteCallSite_position_semantics 2 "c" ["a"] (by decide)⟩

/-! ## C10 — the one-extra-import restriction -/

/-- C10: injecting the context expression with a call-site record aborts
the run with the multiple-import fatal error exactly when the record
carries more than one extra entry; with zero or one this abort never
happens (though a missing alias can still abort for its own reason). -/
theorem multi_import_fatal_iff (cp : String) (ex ni : List (String × String))
    (r : ReplacementInfo) :
    (getCtxExprAndAddImports cp ex ni r = .error .multiImport ↔
      1 < r.ctxImports.length) := by
  match h : r.ctxImports with
  | [] => simp [getCtxExprAndAddImports, h]
  | [(imp, al)] =>
    refine iff_of_false ?_ (by simp)
    intro hEq
    simp only [getCtxExprAndAddImports, h, List.length_cons, List.length_nil,
               show ¬ (1 < 0 + 1) by omega, if_false] at hEq
    repeat' split at hEq
    all_goals simp_all
  | (a :: b :: rest) =>
    have hlen : 1 < r.ctxImports.length := by
      rw [h]; simp only [List.length_cons]; omega
    simp [getCtxExprAndAddImports, h, hlen]

/-! ## C3 — the interface/named-type closure loop never iterates -/

/-- C3 (code bug): `collectIfaces` always reports "nothing added" because
the `ifaceModifiedNew` map it merges at the end is never populated — all
discovered modifications go directly into `cfg.ifaceModified`.  Hence the
closure loop of `analyze` always exits after a single pass, even on the
concrete input `envC3`/`st0C3` where the pass grows the
interface-modification set (adding interface 2's `Foo`) and where one
further pass would grow it again (adding interface 3's `Foo`): no fixed
point has been reached when the loop exits. -/
theorem analyze_closure_single_pass_bug :
    (∀ (env : AEnv) (nm : List Nat) (st : AState), (collectIfaces env nm st).2 = false) ∧
    ((2, "Foo") ∈ (collectIfaces envC3 [] st0C3).1.ifaceModified ∧
     ¬ ((2, "Foo") ∈ st0C3.ifaceModified)) ∧
    (analyzeFixpoint envC3 5 [] st0C3).2.ifaceModified =
      (collectIfaces envC3 [] st0C3).1.ifaceModified ∧
    ((3, "Foo") ∈ (collectIfaces envC3 [] (collectIfaces envC3 [] st0C3).1).1.ifaceModified ∧
     ¬ ((3, "Foo") ∈ (collectIfaces envC3 [] st0C3).1.ifaceModified)) :=
  ⟨fun _ _ _ => rfl, by decide, by decide, by decide⟩

/-! ## C5 — the artificial-context expression is not read-only -/

/-- C5 (code bug): `initContextExpressions` prepends the package qualifier
to the shared `CtxParamInvalid` once per processed file, so the second file
of a run reads (and receives in its injected artificial-context binding) the
doubly-qualified expression `context.context.TODO()` while the first file
received `context.TODO()` — the shared configuration is mutated by the
rewrite of earlier files and is not identical across the files of a run. -/
theorem ctx_param_invalid_accumulates_bug :
    (match transformAll staticW tabsC5 ⟨"TODO()", ""⟩ [fileC5a, fileC5b] with
     | .ok (_, fs, mods) => (mods, fs.map firstInjectedExpr)
     | .error _ => ([], [])) =
      (["a.go", "b.go"], ["context.TODO()", "context.context.TODO()"]) ∧
    (initContextExpressions staticW [] ⟨"context.TODO()", "context.Context"⟩).ctxParamInvalid =
      "context.context.TODO()" ∧
    ¬ ("context.TODO()" = "context.context.TODO()") :=
  ⟨by decide, by decide, by decide⟩

/-! ## C8 — an invalid-position edge drops the node's remaining edges -/

/-- C8 counterexample: on the node whose inbound edges are the
invalid-position `e8a` followed by the processable `e8b`, the worklist pass
creates no record at all — in particular `e8b` is never processed — whereas
with `e8b` alone the same pass records it for rewrite. -/
theorem invalid_edge_drops_remaining_edges :
    (collect envC8 20 [1] [] emptyAState).2.callSites = [] ∧
    alookup (collect envC8 20 [1] [] emptyAState).2.callSites e8b.pos = none ∧
    alookup (collect envC8b 20 [1] [] emptyAState).2.callSites e8b.pos = some .common :=
  by decide

/-- C8 amended: when the first inbound edge of a popped node has an invalid
position, the edge is silently dropped without creating any record, the
node's remaining inbound edges are abandoned with it, and processing
continues with the rest of the worklist. -/
theorem invalid_edge_abandons_node_continues_worklist
    (env : AEnv) (fuel n : Nat) (nd : CNode) (e : CEdge) (es : List CEdge)
    (wl vis : List Nat) (st : AState)
    (hn : env.findNode n = some nd) (hins : nd.ins = e :: es)
    (hv : e.posValid = false) :
    collect env (fuel + 2) (n :: wl) vis st = collect env fuel wl vis st := by
  show collect env (fuel + 1 + 1) (n :: wl) vis st = collect env fuel wl vis st
  simp [collect, hn, hins, edgeLoop, hv]

theorem invalid_edge_abandons_node_continues_worklist_witness :
    envC8.findNode 1 = some ndC8 ∧ ndC8.ins = e8a :: [e8b] ∧ e8a.posValid = false ∧
    collect envC8 (18 + 2) (1 :: []) [] emptyAState = collect envC8 18 [] [] emptyAState :=
  ⟨by decide, by decide, by decide,
   invalid_edge_abandons_node_continues_worklist envC8 18 1 ndC8 e8a [e8b] [] []
     emptyAState (by decide) (by decide) (by decide)⟩

/-! ## C9 — zero-argument call sites -/

/-- C9 counterexample: the recorded zero-argument call at position 5 is the
function operand of an enclosing call, `(lib.A())()`; the rewrite leaves the
whole expression untouched (and unmarked), so the context argument does not
become its sole argument as the claim requires. -/
theorem nested_fun_operand_zero_arg_unrewritten :
    rewriteExpr envC9 false exprC9 rwState0 = .ok (exprC9, rwState0) ∧
    alookup envC9.callSites 5 =
      some ⟨"", 1, [], "", "ctx"⟩ ∧
    ¬ (exprC9 = .call 9 (.call 5 (.sel "lib" "A") [.ident "ctx"]) []) :=
  ⟨rfl, by decide, by simp [exprC9]⟩

/-- C9 amended: a recorded zero-argument call site receives the context
expression as its sole (first) argument regardless of the configured
argument position, with a warning accumulated (and no abort) when that
position is not 1 — both when the call stands on its own (i) and when it is
a direct argument of an enclosing call (ii); but a recorded zero-argument
call in the function-operand position of an enclosing call is left
unrewritten (iii). -/
theorem zero_arg_call_injection_semantics
    (env : RWEnv) (r : ReplacementInfo) (pos q0 p2 : Nat) (q m a b : String)
    (s : RWState)
    (hr : alookup env.callSites pos = some r)
    (hi : r.ctxImports = [])
    (hn : alookup env.callSitesRenamed pos = none)
    (ho1 : alookup env.callSites q0 = none)
    (ho2 : alookup env.callSitesRenamed q0 = none)
    (hf1 : alookup env.callSites p2 = none)
    (hf2 : alookup env.callSitesRenamed p2 = none) :
    (rewriteExpr env false (.call pos (.sel q m) []) s =
      .ok (.call pos (.sel q m) [.ident (ctxArgText env r)],
           ⟨s.newImports, true,
            if ¬ r.argPos = 1 then s.warnings + 1 else s.warnings⟩)) ∧
    (rewriteExpr env false (.call q0 (.sel a b) [.call pos (.sel q m) []]) s =
      .ok (.call q0 (.sel a b) [.call pos (.sel q m) [.ident (ctxArgText env r)]],
           ⟨s.newImports, true,
            if ¬ r.argPos = 1 then s.warnings + 1 else s.warnings⟩)) ∧
    (rewriteExpr env false (.call p2 (.call pos (.sel q m) []) []) s =
      .ok (.call p2 (.call pos (.sel q m) []) [], s)) := by
  refine ⟨?_, ?_, ?_⟩
  · simp [rewriteExpr, rewriteExprList, astCallHandler, hn, hr,
          getCtx_imports_nil env.ctxParamName env.existingImports _ r hi, ctxArgText]
    split <;> exact ⟨rfl, rfl⟩
  · simp [rewriteExpr, rewriteExprList, astCallHandler, nestedInject, hn, hr, ho1, ho2,
          getCtx_imports_nil env.ctxParamName env.existingImports _ r hi, ctxArgText]
    split <;> exact ⟨rfl, rfl⟩
  · simp [rewriteExpr, rewriteExprList, astCallHandler, hn, hf1, hf2]

theorem zero_arg_call_injection_semantics_witness :
    alookup envC9.callSites 5 = some ⟨"", 1, [], "", "ctx"⟩ ∧
    (⟨"", 1, [], "", "ctx"⟩ : ReplacementInfo).ctxImports = [] ∧
    alookup envC9.callSitesRenamed 5 = none ∧
    (rewriteExpr envC9 false (.call 5 (.sel "lib" "A") []) rwState0 =
      .ok (.call 5 (.sel "lib" "A")
             [.ident (ctxArgText envC9 ⟨"", 1, [], "", "ctx"⟩)],
           ⟨rwState0.newImports, true,
            if ¬ (⟨"", 1, [], "", "ctx"⟩ : ReplacementInfo).argPos = 1 then
              rwState0.warnings + 1
            else rwState0.warnings⟩)) ∧
    (rewriteExpr envC9 false (.call 9 (.sel "wrap" "W") [.call 5 (.sel "lib" "A") []])
        rwState0 =
      .ok (.call 9 (.sel "wrap" "W")
             [.call 5 (.sel "lib" "A") [.ident (ctxArgText envC9 ⟨"", 1, [], "", "ctx"⟩)]],
           ⟨rwState0.newImports, true,
            if ¬ (⟨"", 1, [], "", "ctx"⟩ : ReplacementInfo).argPos = 1 then
              rwState0.warnings + 1
            else rwState0.warnings⟩)) ∧
    (rewriteExpr envC9 false (.call 9 (.call 5 (.sel "lib" "A") []) []) rwState0 =
      .ok (.call 9 (.call 5 (.sel "lib" "A") []) [], rwState0)) := by
  have h := zero_arg_call_injection_semantics envC9 ⟨"", 1, [], "", "ctx"⟩ 5 9 9
    "lib" "A" "wrap" "W" rwState0 (by decide) (by decide) (by decide) (by decide)
    (by decide) (by decide) (by decide)
  exact ⟨by decide, by decide, by decide, h.1, h.2.1, h.2.2⟩

/-! ## C6 — import addition -/

/-- C6 counterexample: a modified file whose only new code is the injected
expression `cc.Get()` (extracting the context from a custom-context
parameter) receives the context-package import even though neither the old
nor the new code of the file references the `context` package. -/
theorem ctx_import_added_without_reference :
    fileC6.imports = [("custom", "")] ∧
    (match transformFile staticW tabsC6 ⟨"TODO()", ""⟩ fileC6 with
     | .ok (_, f, m, _) => (m, f.imports, fileMentions "context" f, fileMentions "context" fileC6)
     | .error _ => (false, [], true, true)) =
      (true, [("custom", ""), ("context", "")], false, false) :=
  ⟨by decide, by decide⟩

/-! ## C2 — propagation stops at callers that already take a context -/

theorem collectFnParam_none (env : AEnv) (fuel : Nat) (e : CEdge) (caller : CNode)
    (wl vis : List Nat) (st : AState) (h : e.viaParam = none) :
    collectFnParam env fuel e caller wl vis st = (vis, st) := by
  cases fuel with
  | zero => rfl
  | succ n => simp [collectFnParam, h]

/-- C2: during upward propagation, an inbound edge processed on the normal
path (valid position, no anonymous-scope mismatch, callee signature not
already context-compatible, caller not the synthetic initialiser, a direct
call, a real package, no configured propagation stop) whose caller's
signature already begins with a context-typed parameter that propagation
considers compatible — the custom context type, or the canonical context
type named canonically, `_`, or empty — records the call site for rewrite
but does not enqueue the caller: the visited set is returned unchanged, no
classification is written, and the loop proceeds to the next edge. -/
theorem collect_stops_at_context_caller
    (env : AEnv) (fuel : Nat) (nd caller : CNode) (e : CEdge) (es : List CEdge)
    (wl vis : List Nat) (st : AState) (pth : String)
    (hv : e.posValid = true)
    (ha : nd.isAnon = false)
    (hs : skipCtxParam env.acfg e.siteSig = false)
    (hc : env.findNode e.callerNid = some caller)
    (hi : ¬ caller.fname = "init")
    (hp : e.viaParam = none)
    (hpk : caller.pkgPath = some pth)
    (hstop : propStopHit env.acfg caller.fname caller.sig.recvTypeQ pth
      caller.pkgName = false)
    (hctx : (isFirstParamContext env.acfg caller.sig).1 = true)
    (hcompat : (isFirstParamContext env.acfg caller.sig).2.2.2 = true ∨
               (isFirstParamContext env.acfg caller.sig).2.2.1 = "_" ∨
               (isFirstParamContext env.acfg caller.sig).2.2.1 = "" ∨
               (isFirstParamContext env.acfg caller.sig).2.2.1 = env.acfg.ctxParamName) :
    ∃ st2, edgeLoop env (fuel + 1) nd (e :: es) wl vis st =
        edgeLoop env fuel nd es wl vis st2 ∧
      (alookup st2.callSites e.pos).isSome ∧
      st2.fnVisited = st.fnVisited := by
  have hfp := collectFnParam_none env fuel e caller wl vis st hp
  cases fuel with
  | zero =>
    exact ⟨{ st with callSites := mset st.callSites e.pos SiteRef.common },
      by simp [edgeLoop, hv, ha, hs, hc, hi, hpk, hstop, hfp, collectFnDef],
      by simp [alookup_mset_self], rfl⟩
  | succ n =>
    by_cases hnm : (isFirstParamContext env.acfg caller.sig).2.2.1 = "_" ∨
        (isFirstParamContext env.acfg caller.sig).2.2.1 = ""
    · have hcfd : collectFnDef env (n + 1) wl vis
          { st with callSites := mset st.callSites e.pos SiteRef.common } caller =
          (vis,
           { st with
             callSites := mset st.callSites e.pos SiteRef.common
             renameParamsVisited :=
               (match (isFirstParamContext env.acfg caller.sig).2.1 with
                | some rp => rp :: st.renameParamsVisited
                | none => st.renameParamsVisited) },
           env.acfg.ctxParamName) := by
        simp [collectFnDef, hctx, hnm]
      refine ⟨{ st with
                callSites := mset st.callSites e.pos SiteRef.common
                renameParamsVisited :=
                  (match (isFirstParamContext env.acfg caller.sig).2.1 with
                   | some rp => rp :: st.renameParamsVisited
                   | none => st.renameParamsVisited) },
        ?_, by simp [alookup_mset_self], rfl⟩
      simp [edgeLoop, hv, ha, hs, hc, hi, hpk, hstop, hfp, hcfd]
    · have hcfd : collectFnDef env (n + 1) wl vis
          { st with callSites := mset st.callSites e.pos SiteRef.common } caller =
          (vis, { st with callSites := mset st.callSites e.pos SiteRef.common },
           (isFirstParamContext env.acfg caller.sig).2.2.1) := by
        simp [collectFnDef, hctx, hnm]
      by_cases heq : (isFirstParamContext env.acfg caller.sig).2.2.1 =
          env.acfg.ctxParamName
      · refine ⟨{ st with callSites := mset st.callSites e.pos SiteRef.common },
          ?_, by simp [alookup_mset_self], rfl⟩
        simp [edgeLoop, hv, ha, hs, hc, hi, hpk, hstop, hfp, hcfd, heq]
      · refine ⟨{ st with
            callSites :=
              mset (mset st.callSites e.pos SiteRef.common) e.pos
                (specializedReplacement (isFirstParamContext env.acfg caller.sig).2.2.1) },
          ?_, by simp [alookup_mset_self], rfl⟩
        simp [edgeLoop, hv, ha, hs, hc, hi, hpk, hstop, hfp, hcfd, heq]

theorem collect_stops_at_context_caller_witness :
    eC2.posValid = true ∧ ndC2.isAnon = false ∧
    skipCtxParam envC2.acfg eC2.siteSig = false ∧
    envC2.findNode eC2.callerNid = some callerC2 ∧
    ¬ callerC2.fname = "init" ∧ eC2.viaParam = none ∧
    callerC2.pkgPath = some "user" ∧
    propStopHit envC2.acfg callerC2.fname callerC2.sig.recvTypeQ "user"
      callerC2.pkgName = false ∧
    (isFirstParamContext envC2.acfg callerC2.sig).1 = true ∧
    (isFirstParamContext envC2.acfg callerC2.sig).2.2.1 = envC2.acfg.ctxParamName ∧
    (∃ st2, edgeLoop envC2 (7 + 1) ndC2 (eC2 :: []) [] [] emptyAState =
        edgeLoop envC2 7 ndC2 [] [] [] st2 ∧
      (alookup st2.callSites eC2.pos).isSome ∧
      st2.fnVisited = emptyAState.fnVisited) :=
  ⟨by decide, by decide, by decide, by decide, by decide, by decide, by decide,
   by decide, by decide, by decide,
   collect_stops_at_context_caller envC2 7 ndC2 callerC2 eC2 [] [] [] emptyAState
     "user" (by decide) (by decide) (by decide) (by decide) (by decide) (by decide)
     (by decide) (by decide) (by decide) (by decide)⟩

/-! ## C6 amended — how `addImports` actually behaves -/

theorem addNamedImport_mem_self (imps : List (String × String)) (p n : String) :
    (p, n) ∈ (addNamedImport imps p n).1 := by
  by_cases h : (p, n) ∈ imps <;> simp [addNamedImport, h]

theorem addNamedImport_mem_mono (imps : List (String × String)) (p n : String)
    (pa : String × String) (h : pa ∈ imps) : pa ∈ (addNamedImport imps p n).1 := by
  by_cases hm : (p, n) ∈ imps <;> simp [addNamedImport, hm, h]

theorem addNamedImport_mem_inv (imps : List (String × String)) (p n : String)
    (pa : String × String) (h : pa ∈ (addNamedImport imps p n).1) :
    pa ∈ imps ∨ pa = (p, n) := by
  by_cases hm : (p, n) ∈ imps
  · simp [addNamedImport, hm] at h; exact .inl h
  · simp [addNamedImport, hm] at h
    rcases h with h | h
    · exact .inl h
    · exact .inr (by simp [h])

theorem addNamedImport_nodup (imps : List (String × String)) (p n : String)
    (h : imps.Nodup) : (addNamedImport imps p n).1.Nodup := by
  by_cases hm : (p, n) ∈ imps
  · simpa [addNamedImport, hm] using h
  · simp [addNamedImport, hm, List.nodup_append, h]

theorem addImports_foldl_props (nw : List (String × String)) :
    ∀ (acc : List (String × String) × Bool),
      (acc.1.Nodup →
        (nw.foldl
          (fun (a : List (String × String) × Bool) (pa : String × String) =>
            let r := addNamedImport a.1 pa.1 pa.2
            (r.1, r.2 || a.2)) acc).1.Nodup) ∧
      (∀ pa, pa ∈ acc.1 →
        pa ∈ (nw.foldl
          (fun (a : List (String × String) × Bool) (pa : String × String) =>
            let r := addNamedImport a.1 pa.1 pa.2
            (r.1, r.2 || a.2)) acc).1) ∧
      (∀ pa, pa ∈ nw →
        pa ∈ (nw.foldl
          (fun (a : List (String × String) × Bool) (pa : String × String) =>
            let r := addNamedImport a.1 pa.1 pa.2
            (r.1, r.2 || a.2)) acc).1) ∧
      (∀ pa, pa ∈ (nw.foldl
          (fun (a : List (String × String) × Bool) (pa : String × String) =>
            let r := addNamedImport a.1 pa.1 pa.2
            (r.1, r.2 || a.2)) acc).1 → pa ∈ acc.1 ∨ pa ∈ nw) := by
  induction nw with
  | nil => intro acc; exact ⟨fun h => h, fun _ h => h, fun _ h => by simp at h,
      fun _ h => .inl h⟩
  | cons x rest ih =>
    intro acc
    refine ⟨fun h => ?_, fun pa hpa => ?_, fun pa hpa => ?_, fun pa hpa => ?_⟩
    · exact (ih _).1 (addNamedImport_nodup _ _ _ h)
    · exact (ih _).2.1 pa (addNamedImport_mem_mono _ _ _ _ hpa)
    · rcases List.mem_cons.mp hpa with h | h
      · subst h; exact (ih _).2.1 pa (addNamedImport_mem_self _ _ _)
      · exact (ih _).2.2.1 pa h
    · rcases (ih _).2.2.2 pa hpa with h | h
      · rcases addNamedImport_mem_inv _ _ _ _ h with h2 | h2
        · exact .inl h2
        · exact .inr (by simp [h2])
      · exact .inr (by simp [h])

/-- C6 amended: `addImports` never duplicates an import (the rewritten
file's imports stay duplicate-free), adds every import recorded in
`newImports` (those the injected context expressions reference), and adds
the context-package import exactly when its path is not yet imported —
whether or not the newly added code references the context package (the
accompanying counterexample exhibits a modified file that receives that
entry without any reference to it); nothing else is ever added. -/
theorem addImports_membership_and_dedup (c : StaticCfg)
    (fi nw : List (String × String)) (hnd : fi.Nodup) :
    (addImports c fi nw fi).1.Nodup ∧
    ((alookup fi c.ctxPkgPath).isNone →
      (c.ctxPkgPath, c.ctxPkgAlias) ∈ (addImports c fi nw fi).1) ∧
    (∀ pa, pa ∈ nw → pa ∈ (addImports c fi nw fi).1) ∧
    (∀ pa, pa ∈ (addImports c fi nw fi).1 →
      pa ∈ fi ∨ pa = (c.ctxPkgPath, c.ctxPkgAlias) ∨ pa ∈ nw) := by
  unfold addImports
  by_cases hctx : (alookup fi c.ctxPkgPath).isNone
  · simp only [hctx, if_true]
    have hprops := addImports_foldl_props nw (addNamedImport fi c.ctxPkgPath c.ctxPkgAlias)
    refine ⟨hprops.1 (addNamedImport_nodup fi _ _ hnd), fun _ =>
        hprops.2.1 _ (addNamedImport_mem_self fi _ _), hprops.2.2.1, fun pa hpa => ?_⟩
    rcases hprops.2.2.2 pa hpa with h | h
    · rcases addNamedImport_mem_inv _ _ _ _ h with h2 | h2
      · exact .inl h2
      · exact .inr (.inl h2)
    · exact .inr (.inr h)
  · simp only [hctx, if_false]
    have hprops := addImports_foldl_props nw (fi, false)
    refine ⟨hprops.1 hnd, fun h => absurd h (by simp), hprops.2.2.1, fun pa hpa => ?_⟩
    rcases hprops.2.2.2 pa hpa with h | h
    · exact .inl h
    · exact .inr (.inr h)

/-- Witness for the amended C6 theorem: a file importing only `"custom"`,
with no new imports recorded. -/
theorem addImports_membership_and_dedup_witness :
    ([("custom", "")] : List (String × String)).Nodup ∧
    ((addImports staticW [("custom", "")] [] [("custom", "")]).1.Nodup ∧
     ((alookup [("custom", "")] staticW.ctxPkgPath).isNone →
       (staticW.ctxPkgPath, staticW.ctxPkgAlias) ∈
         (addImports staticW [("custom", "")] [] [("custom", "")]).1) ∧
     (∀ pa, pa ∈ ([] : List (String × String)) →
       pa ∈ (addImports staticW [("custom", "")] [] [("custom", "")]).1) ∧
     (∀ pa, pa ∈ (addImports staticW [("custom", "")] [] [("custom", "")]).1 →
       pa ∈ [("custom", "")] ∨ pa = (staticW.ctxPkgPath, staticW.ctxPkgAlias) ∨
       pa ∈ ([] : List (String × String)))) :=
  ⟨by decide, addImports_membership_and_dedup staticW [("custom", "")] [] (by decide)⟩

/-! ## C4: the classification table evolves by admissible steps only -/

theorem classStep_trans {a b c : FnClass} (h1 : ClassStep a b) (h2 : ClassStep b c) :
    ClassStep a c := by
  rcases h1 with h1 | h1
  · subst h1; exact h2
  · exact .inr h1

theorem transOK_refl (m : List (Nat × FnClass)) : TransOK m m := by
  intro k v v2 h1 h2
  rw [h1] at h2
  exact .inl (Option.some.inj h2).symm

theorem aevolve_refl (env : AEnv) (st : AState) : AEvolve env st st :=
  fun hinv => ⟨hinv, transOK_refl _, fun _ h => h⟩

theorem aevolve_trans (env : AEnv) {a b c : AState}
    (h1 : AEvolve env a b) (h2 : AEvolve env b c) : AEvolve env a c := by
  intro hinv
  obtain ⟨hib, t1, p1⟩ := h1 hinv
  obtain ⟨hic, t2, p2⟩ := h2 hib
  refine ⟨hic, ?_, fun k hk => p2 k (p1 k hk)⟩
  intro k v v2 hv hv2
  have hb : (alookup b.fnVisited k).isSome := p1 k (by simp [hv])
  obtain ⟨vb, hvb⟩ := Option.isSome_iff_exists.mp hb
  exact classStep_trans (t1 k v vb hv hvb) (t2 k vb v2 hvb hv2)

theorem aevolve_of_fnVisited_eq (env : AEnv) {a b : AState}
    (h : b.fnVisited = a.fnVisited) : AEvolve env a b := by
  intro hinv
  refine ⟨?_, ?_, ?_⟩
  · unfold AInv at hinv ⊢; rw [h]; exact hinv
  · unfold TransOK; rw [h]; exact transOK_refl _
  · rw [h]; exact fun _ hk => hk

theorem findNode_mem (env : AEnv) (n : Nat) (nd : CNode)
    (h : env.findNode n = some nd) : nd ∈ env.nodes :=
  List.mem_of_find?_eq_some h

theorem aevolve_set_callSites (env : AEnv) (st : AState) (cs : List (Nat × SiteRef)) :
    AEvolve env st { st with callSites := cs } :=
  aevolve_of_fnVisited_eq env rfl

theorem aevolve_set_fnParams (env : AEnv) (st : AState) (l : List Nat) :
    AEvolve env st { st with fnParamsVisited := l } :=
  aevolve_of_fnVisited_eq env rfl

theorem aevolve_set_renameParams (env : AEnv) (st : AState) (l : List Nat) :
    AEvolve env st { st with renameParamsVisited := l } :=
  aevolve_of_fnVisited_eq env rfl

theorem alookup_mset_cases [DecidableEq κ] (m : List (κ × α)) (k q : κ) (v w : α)
    (h : alookup (mset m k v) q = some w) : (q = k ∧ w = v) ∨ alookup m q = some w := by
  by_cases hqk : q = k
  · subst hqk
    rw [alookup_mset_self] at h
    exact .inl ⟨rfl, (Option.some.inj h).symm⟩
  · rw [alookup_mset_ne m k q v hqk] at h
    exact .inr h

theorem alookup_mset_isSome [DecidableEq κ] (m : List (κ × α)) (k q : κ) (v : α)
    (h : (alookup m q).isSome) : (alookup (mset m k v) q).isSome := by
  by_cases hqk : q = k
  · subst hqk; rw [alookup_mset_self]; rfl
  · rw [alookup_mset_ne m k q v hqk]; exact h

/-- Writing `regularFn` at a key admits the evolution relation, provided
every node at that key re-derives `regularFn` and the key cannot currently
hold `freshCtxFn`. -/
theorem aevolve_write_regular (env : AEnv) (st st2 : AState) (k : Nat)
    (h2 : st2.fnVisited = mset st.fnVisited k .regularFn)
    (hreg : ∀ nd ∈ env.nodes, nd.fpos = k → NodeRegularOK env nd)
    (hnf : AInv env st → ¬ alookup st.fnVisited k = some .freshCtxFn) :
    AEvolve env st st2 := by
  intro hinv
  obtain ⟨hv, hr, hf⟩ := hinv
  refine ⟨⟨?_, ?_, ?_⟩, ?_, ?_⟩
  · intro q w hq
    rw [h2] at hq
    rcases alookup_mset_cases _ _ _ _ _ hq with ⟨_, hw⟩ | hq2
    · exact .inl hw
    · exact hv q w hq2
  · intro q hq nd hnd hfp
    rw [h2] at hq
    rcases alookup_mset_cases _ _ _ _ _ hq with ⟨hqk, _⟩ | hq2
    · exact hreg nd hnd (hqk ▸ hfp)
    · exact hr q hq2 nd hnd hfp
  · intro q hq
    rw [h2] at hq
    rcases alookup_mset_cases _ _ _ _ _ hq with ⟨_, hw⟩ | hq2
    · exact absurd hw (by simp)
    · exact hf q hq2
  · intro q w w2 hw hw2
    rw [h2] at hw2
    rcases alookup_mset_cases _ _ _ _ _ hw2 with ⟨hqk, hww⟩ | hq2
    · subst hqk
      rcases hv _ w hw with h | h | h
      · subst h; exact .inl hww
      · exact absurd (h ▸ hw) (hnf ⟨hv, hr, hf⟩)
      · exact .inr h
    · rw [hw] at hq2
      exact .inl (Option.some.inj hq2).symm
  · intro q hq
    rw [h2]
    exact alookup_mset_isSome _ _ _ _ hq

/-- Writing `freshCtxFn` at the position of a call-graph node admits the
evolution relation, provided that position cannot currently hold
`regularFn`. -/
theorem aevolve_write_fresh (env : AEnv) (st st2 : AState) (nd0 : CNode)
    (hnd0 : nd0 ∈ env.nodes)
    (h2 : st2.fnVisited = mset st.fnVisited nd0.fpos .freshCtxFn)
    (hnr : AInv env st → ¬ alookup st.fnVisited nd0.fpos = some .regularFn) :
    AEvolve env st st2 := by
  intro hinv
  obtain ⟨hv, hr, hf⟩ := hinv
  refine ⟨⟨?_, ?_, ?_⟩, ?_, ?_⟩
  · intro q w hq
    rw [h2] at hq
    rcases alookup_mset_cases _ _ _ _ _ hq with ⟨_, hw⟩ | hq2
    · exact .inr (.inl hw)
    · exact hv q w hq2
  · intro q hq nd hnd hfp
    rw [h2] at hq
    rcases alookup_mset_cases _ _ _ _ _ hq with ⟨_, hw⟩ | hq2
    · exact absurd hw (by simp)
    · exact hr q hq2 nd hnd hfp
  · intro q hq
    rw [h2] at hq
    rcases alookup_mset_cases _ _ _ _ _ hq with ⟨hqk, _⟩ | hq2
    · exact ⟨nd0, hnd0, hqk.symm⟩
    · exact hf q hq2
  · intro q w w2 hw hw2
    rw [h2] at hw2
    rcases alookup_mset_cases _ _ _ _ _ hw2 with ⟨hqk, hww⟩ | hq2
    · subst hqk
      rcases hv _ w hw with h | h | h
      · exact absurd (h ▸ hw) (hnr ⟨hv, hr, hf⟩)
      · subst h; exact .inl hww
      · exact .inr h
    · rw [hw] at hq2
      exact .inl (Option.some.inj hq2).symm
  · intro q hq
    rw [h2]
    exact alookup_mset_isSome _ _ _ _ hq

/-- A fold whose every step admits the evolution relation (stated through a
projection, covering folds over product accumulators). -/
theorem aevolve_foldl_proj {β γ : Type} (env : AEnv) (f : γ → β → γ) (pr : γ → AState) :
    ∀ (l : List β) (acc0 : γ),
      (∀ acc x, x ∈ l → AEvolve env (pr acc) (pr (f acc x))) →
      AEvolve env (pr acc0) (pr (l.foldl f acc0)) := by
  intro l
  induction l with
  | nil => intro acc0 _; exact aevolve_refl _ _
  | cons x rest ih =>
    intro acc0 h
    exact aevolve_trans env (h acc0 x (List.mem_cons_self x rest))
      (ih (f acc0 x) (fun acc y hy => h acc y (List.mem_cons_of_mem x hy)))

/-- A fold over analysis states whose every step admits the evolution
relation. -/
theorem aevolve_foldl (env : AEnv) {β : Type} (f : AState → β → AState)
    (l : List β) (st : AState)
    (h : ∀ acc x, x ∈ l → AEvolve env acc (f acc x)) :
    AEvolve env st (l.foldl f st) :=
  aevolve_foldl_proj env f id l st h

/-- A fold whose steps do not touch `fnVisited` leaves `fnVisited`
unchanged. -/
theorem foldl_fnVisited_eq {β : Type} (f : AState → β → AState)
    (h : ∀ acc x, (f acc x).fnVisited = acc.fnVisited) :
    ∀ (l : List β) (st : AState), (l.foldl f st).fnVisited = st.fnVisited := by
  intro l
  induction l with
  | nil => intro st; rfl
  | cons x rest ih => intro st; rw [List.foldl_cons, ih, h]

/-- A fold whose steps preserve the binding at key `k` preserves the
binding at key `k`. -/
theorem foldl_alookup_eq {β : Type} (k : Nat) (f : AState → β → AState) :
    ∀ (l : List β) (st : AState),
      (∀ acc x, x ∈ l → alookup (f acc x).fnVisited k = alookup acc.fnVisited k) →
      alookup (l.foldl f st).fnVisited k = alookup st.fnVisited k := by
  intro l
  induction l with
  | nil => intro st _; rfl
  | cons x rest ih =>
    intro st h
    rw [List.foldl_cons, ih (f st x) (fun acc y hy => h acc y (List.mem_cons_of_mem x hy)),
      h st x (List.mem_cons_self x rest)]

/-- The success flag of `addIfacesModified` is the pure guard
`addIfacesOk`. -/
theorem addIfacesModified_fst (env : AEnv) (st : AState) (sig : SigInfo)
    (fname fnRecv : String) :
    (addIfacesModified env st sig fname fnRecv).1 = addIfacesOk env sig fname fnRecv := by
  by_cases hrecv : fnRecv = ""
  · simp [addIfacesModified, addIfacesOk, hrecv]
  · simp only [addIfacesModified, addIfacesOk, if_neg hrecv]
    by_cases hext : (env.ifaceMeths.filter
        (fun im => env.implements sig.recvTypeQ im.ifaceId ∧ im.mname = fname)).any
        (fun im => env.ifaceExternal im.ifaceId) = true
    · rw [if_pos hext, hext]; simp
    · rw [if_neg hext]; exact (decide_eq_true hext).symm

/-- `addIfacesModified` writes only at interface-method positions. -/
theorem addIfacesModified_lookup_other (env : AEnv) (st : AState) (sig : SigInfo)
    (fname fnRecv : String) (k : Nat)
    (hk : ∀ im ∈ env.ifaceMeths, ¬ k = im.mpos) :
    alookup (addIfacesModified env st sig fname fnRecv).2.fnVisited k =
      alookup st.fnVisited k := by
  by_cases hrecv : fnRecv = ""
  · simp [addIfacesModified, hrecv]
  · by_cases hext : (env.ifaceMeths.filter
        (fun im => env.implements sig.recvTypeQ im.ifaceId ∧ im.mname = fname)).any
        (fun im => env.ifaceExternal im.ifaceId) = true
    · simp only [addIfacesModified, if_neg hrecv]
      rw [if_pos hext]
    · simp only [addIfacesModified, if_neg hrecv, if_neg hext]
      refine foldl_alookup_eq k _ _ st ?_
      intro acc im him
      have him2 : im ∈ env.ifaceMeths := List.mem_of_mem_filter him
      show alookup (mset acc.fnVisited im.mpos .regularFn) k = alookup acc.fnVisited k
      exact alookup_mset_ne _ _ _ _ (hk im him2)

/-- `addIfacesModified` admits the evolution relation in a consistent
environment. -/
theorem aevolve_addIfaces (env : AEnv) (st : AState) (sig : SigInfo)
    (fname fnRecv : String) (hc : Consistent env) :
    AEvolve env st (addIfacesModified env st sig fname fnRecv).2 := by
  by_cases hrecv : fnRecv = ""
  · simp only [addIfacesModified, if_pos hrecv]
    exact aevolve_refl _ _
  · by_cases hext : (env.ifaceMeths.filter
        (fun im => env.implements sig.recvTypeQ im.ifaceId ∧ im.mname = fname)).any
        (fun im => env.ifaceExternal im.ifaceId) = true
    · simp only [addIfacesModified, if_neg hrecv, if_pos hext]
      exact aevolve_refl _ _
    · simp only [addIfacesModified, if_neg hrecv, if_neg hext]
      refine aevolve_foldl env _ _ st ?_
      intro acc im him
      have him2 : im ∈ env.ifaceMeths := List.mem_of_mem_filter him
      refine aevolve_write_regular env acc _ im.mpos rfl ?_ ?_
      · intro nd hnd hfp
        exact absurd hfp (hc.2.1 nd hnd im him2)
      · intro hinv hfr
        obtain ⟨nd, hnd, hfp⟩ := hinv.2.2 im.mpos hfr
        exact hc.2.1 nd hnd im him2 hfp

/-- A state the pre-scan can produce satisfies the classification
invariant. -/
theorem initExt_AInv (env : AEnv) (st : AState) (h : InitExtOnly st) :
    AInv env st := by
  refine ⟨fun k v hv => .inr (.inr (h k v hv)), fun k hk => ?_, fun k hk => ?_⟩
  · exact absurd (h k _ hk) (by simp)
  · exact absurd (h k _ hk) (by simp)

/-- Every function of the worklist recursion admits the evolution relation
in a consistent environment, at every fuel. -/
theorem aevolve_collect_family (env : AEnv) (hc : Consistent env) : ∀ fuel : Nat,
    (∀ wl vis st, AEvolve env st (collect env fuel wl vis st).2) ∧
    (∀ nd es wl vis st, AEvolve env st (edgeLoop env fuel nd es wl vis st).2) ∧
    (∀ e caller wl vis st, AEvolve env st (collectFnParam env fuel e caller wl vis st).2) ∧
    (∀ os epos wl vis st, AEvolve env st (outLoop env fuel os epos wl vis st).2) ∧
    (∀ wl vis st caller, caller ∈ env.nodes →
      AEvolve env st (collectFnDef env fuel wl vis st caller).2.1) ∧
    (∀ wl vis st caller, caller ∈ env.nodes →
      AEvolve env st (collectFnDefCore env fuel wl vis st caller).2.1) := by
  intro fuel
  induction fuel with
  | zero =>
    refine ⟨fun wl vis st => ?_, fun nd es wl vis st => ?_, fun e caller wl vis st => ?_,
      fun os epos wl vis st => ?_, fun wl vis st caller _ => ?_,
      fun wl vis st caller _ => ?_⟩
    · simp only [collect]; exact aevolve_refl env st
    · simp only [edgeLoop]; exact aevolve_refl env st
    · simp only [collectFnParam]; exact aevolve_refl env st
    · simp only [outLoop]; exact aevolve_refl env st
    · simp only [collectFnDef]; exact aevolve_refl env st
    · simp only [collectFnDefCore]; exact aevolve_refl env st
  | succ fuel ih =>
    obtain ⟨ihc, ihe, ihp, iho, ihd, ihcore⟩ := ih
    refine ⟨?_, ?_, ?_, ?_, ?_, ?_⟩
    · -- collect
      intro wl vis st
      cases wl with
      | nil => simp only [collect]; exact aevolve_refl env st
      | cons n wl2 =>
        cases hfn : env.findNode n with
        | none => simp only [collect, hfn]; exact aevolve_refl env st
        | some nd => simp only [collect, hfn]; exact ihe nd nd.ins wl2 vis st
    · -- edgeLoop
      intro nd es wl vis st
      cases es with
      | nil => simp only [edgeLoop]; exact ihc wl vis st
      | cons e es2 =>
        simp only [edgeLoop]
        split
        · exact ihc wl vis st
        · split
          · exact ihe nd es2 wl vis st
          · split
            · exact ihe nd es2 wl vis st
            · split
              · exact ihe nd es2 wl vis st
              · next caller hfc =>
                  split
                  · exact aevolve_trans env (aevolve_set_callSites env st _)
                      (ihe nd es2 wl vis _)
                  · have hmem := findNode_mem env e.callerNid caller hfc
                    split
                    · exact aevolve_trans env
                        (aevolve_trans env (ihp e caller wl vis st)
                          (aevolve_set_callSites env _ _))
                        (ihe nd es2 wl _ _)
                    · split
                      · exact aevolve_trans env
                          (aevolve_trans env (ihp e caller wl vis st)
                            (aevolve_set_callSites env _ _))
                          (ihe nd es2 wl _ _)
                      · split
                        · exact aevolve_trans env
                            (aevolve_trans env
                              (aevolve_trans env (ihp e caller wl vis st)
                                (aevolve_set_callSites env _ _))
                              (aevolve_trans env (ihd _ _ _ caller hmem)
                                (aevolve_set_callSites env _ _)))
                            (ihe nd es2 wl _ _)
                        · exact aevolve_trans env
                            (aevolve_trans env
                              (aevolve_trans env (ihp e caller wl vis st)
                                (aevolve_set_callSites env _ _))
                              (ihd _ _ _ caller hmem))
                            (ihe nd es2 wl _ _)
    · -- collectFnParam
      intro e caller wl vis st
      simp only [collectFnParam]
      split
      · exact aevolve_refl env st
      · split
        · exact aevolve_refl env st
        · split
          · exact aevolve_refl env st
          · split
            · exact aevolve_refl env st
            · exact aevolve_trans env (aevolve_set_fnParams env st _)
                (iho caller.outs e.pos wl vis _)
    · -- outLoop
      intro os epos wl vis st
      cases os with
      | nil => simp only [outLoop]; exact aevolve_refl env st
      | cons o os2 =>
        simp only [outLoop]
        split
        · split
          · exact iho os2 epos wl vis st
          · next cal hfc =>
              exact aevolve_trans env (ihd wl vis st cal (findNode_mem env o.2 cal hfc))
                (iho os2 epos wl _ _)
        · exact iho os2 epos wl vis st
    · -- collectFnDef
      intro wl vis st caller hmem
      simp only [collectFnDef]
      split
      · split
        · exact aevolve_set_renameParams env st _
        · exact aevolve_refl env st
      · split
        · next pn hpn =>
            cases hfp : env.findNode pn with
            | some parent =>
                simp only [hfp]
                exact ihd wl vis st parent (findNode_mem env pn parent hfp)
            | none =>
                simp only [hfp]
                exact ihcore wl vis st caller hmem
        · exact ihcore wl vis st caller hmem
    · -- collectFnDefCore
      intro wl vis st caller hmem
      simp only [collectFnDefCore]
      split
      · exact aevolve_refl env st
      · split
        · next hb1 =>
            refine aevolve_write_fresh env st _ caller hmem rfl ?_
            intro hinv hregold
            rcases hb1 with ⟨_, hne⟩ | hmt
            · exact hne hregold
            · have hmtf := (hinv.2.1 caller.fpos hregold caller hmem rfl).1
              rw [hmtf] at hmt
              exact absurd hmt (by simp)
        · next hnb1 =>
            split
            · next hcont =>
                refine aevolve_write_fresh env st _ caller hmem rfl ?_
                intro hinv hregold
                have hcf := (hinv.2.1 caller.fpos hregold caller hmem rfl).2.1
                rw [hcf] at hcont
                exact absurd hcont (by simp)
            · split
              · next hrecv =>
                  refine aevolve_write_fresh env st _ caller hmem rfl ?_
                  intro hinv hregold
                  have hrf := (hinv.2.1 caller.fpos hregold caller hmem rfl).2.2.1
                  rw [hrf] at hrecv
                  exact absurd hrecv (by simp)
              · next hncont hnrecv =>
                  split
                  · next ham =>
                      have hmtf : caller.mainTest = false :=
                        Bool.eq_false_iff.mpr (fun h => hnb1 (.inr h))
                      have hcf : caller.containerSig = false :=
                        Bool.eq_false_iff.mpr hncont
                      have hrf : caller.extRecv = false :=
                        Bool.eq_false_iff.mpr hnrecv
                      have haio : addIfacesOk env caller.sig caller.fname
                          caller.sig.recvTypeQ = true := by
                        rw [← addIfacesModified_fst env st]; exact ham
                      refine aevolve_trans env (aevolve_trans env
                        (aevolve_addIfaces env st caller.sig caller.fname
                          caller.sig.recvTypeQ hc)
                        (aevolve_write_regular env _ _ caller.fpos rfl ?_ ?_)) (ihc _ _ _)
                      · intro nd hnd hfpe
                        obtain ⟨hfn, hsig, hcont2, hrecv2, hmt2⟩ :=
                          hc.1 nd hnd caller hmem hfpe
                        exact ⟨hmt2.trans hmtf, hcont2.trans hcf, hrecv2.trans hrf,
                          by rw [hfn, hsig]; exact haio⟩
                      · intro hinv hfr
                        rw [addIfacesModified_lookup_other env st caller.sig caller.fname
                          caller.sig.recvTypeQ caller.fpos
                          (fun im him => hc.2.1 caller hmem im him)] at hfr
                        exact hnb1 (.inl ⟨by rw [hfr]; rfl, by rw [hfr]; simp⟩)
                  · next ham =>
                      refine aevolve_trans env
                        (aevolve_addIfaces env st caller.sig caller.fname
                          caller.sig.recvTypeQ hc)
                        (aevolve_write_fresh env _ _ caller hmem rfl ?_)
                      intro hinv hregold
                      have haio := (hinv.2.1 caller.fpos hregold caller hmem rfl).2.2.2
                      have hfalse : addIfacesOk env caller.sig caller.fname
                          caller.sig.recvTypeQ = false := by
                        rw [← addIfacesModified_fst env st]
                        exact Bool.eq_false_iff.mpr ham
                      rw [haio] at hfalse
                      exact absurd hfalse (by simp)

/-- The call-site pass of the closure never touches `fnVisited`. -/
theorem insertArtificialCtxCallsites_fnVisited (env : AEnv) (nmod : List Nat)
    (st : AState) (nd : CNode) :
    (insertArtificialCtxCallsites env nmod st nd).fnVisited = st.fnVisited := by
  unfold insertArtificialCtxCallsites
  refine foldl_fnVisited_eq _ ?_ nd.ins st
  intro acc e
  dsimp only
  repeat' split
  all_goals rfl

theorem aevolve_insertArtificialCtxCallsites (env : AEnv) (nmod : List Nat)
    (st : AState) (nd : CNode) :
    AEvolve env st (insertArtificialCtxCallsites env nmod st nd) :=
  aevolve_of_fnVisited_eq env (insertArtificialCtxCallsites_fnVisited env nmod st nd)

/-- `insertArtificialCtx` admits the evolution relation (same case analysis
as `collectFnDefCore`). -/
theorem aevolve_insertArtificialCtx (env : AEnv) (nmod : List Nat)
    (st : AState) (nd : CNode) (hc : Consistent env) (hnd : nd ∈ env.nodes) :
    AEvolve env st (insertArtificialCtx env nmod st nd) := by
  simp only [insertArtificialCtx]
  split
  · exact aevolve_set_renameParams env st _
  · split
    · exact aevolve_refl env st
    · split
      · next hb1 =>
          refine aevolve_write_fresh env st _ nd hnd rfl ?_
          intro hinv hregold
          rcases hb1 with ⟨_, hne⟩ | hmt
          · exact hne hregold
          · have hmtf := (hinv.2.1 nd.fpos hregold nd hnd rfl).1
            rw [hmtf] at hmt
            exact absurd hmt (by simp)
      · next hnb1 =>
          split
          · next hcont =>
              refine aevolve_write_fresh env st _ nd hnd rfl ?_
              intro hinv hregold
              have hcf := (hinv.2.1 nd.fpos hregold nd hnd rfl).2.1
              rw [hcf] at hcont
              exact absurd hcont (by simp)
          · split
            · next hrecv =>
                refine aevolve_write_fresh env st _ nd hnd rfl ?_
                intro hinv hregold
                have hrf := (hinv.2.1 nd.fpos hregold nd hnd rfl).2.2.1
                rw [hrf] at hrecv
                exact absurd hrecv (by simp)
            · next hncont hnrecv =>
                split
                · next ham =>
                    have hmtf : nd.mainTest = false :=
                      Bool.eq_false_iff.mpr (fun h => hnb1 (.inr h))
                    have hcf : nd.containerSig = false := Bool.eq_false_iff.mpr hncont
                    have hrf : nd.extRecv = false := Bool.eq_false_iff.mpr hnrecv
                    have haio : addIfacesOk env nd.sig nd.fname nd.sig.recvTypeQ
                        = true := by
                      rw [← addIfacesModified_fst env st]; exact ham
                    refine aevolve_trans env (aevolve_trans env
                      (aevolve_addIfaces env st nd.sig nd.fname nd.sig.recvTypeQ hc)
                      (aevolve_write_regular env _ _ nd.fpos rfl ?_ ?_))
                      (aevolve_insertArtificialCtxCallsites env nmod _ nd)
                    · intro nd2 hnd2 hfpe
                      obtain ⟨hfn, hsig, hcont2, hrecv2, hmt2⟩ :=
                        hc.1 nd2 hnd2 nd hnd hfpe
                      exact ⟨hmt2.trans hmtf, hcont2.trans hcf, hrecv2.trans hrf,
                        by rw [hfn, hsig]; exact haio⟩
                    · intro hinv hfr
                      rw [addIfacesModified_lookup_other env st nd.sig nd.fname
                        nd.sig.recvTypeQ nd.fpos
                        (fun im him => hc.2.1 nd hnd im him)] at hfr
                      exact hnb1 (.inl ⟨by rw [hfr]; rfl, by rw [hfr]; simp⟩)
                · next ham =>
                    refine aevolve_trans env
                      (aevolve_addIfaces env st nd.sig nd.fname nd.sig.recvTypeQ hc)
                      (aevolve_write_fresh env _ _ nd hnd rfl ?_)
                    intro hinv hregold
                    have haio := (hinv.2.1 nd.fpos hregold nd hnd rfl).2.2.2
                    have hfalse : addIfacesOk env nd.sig nd.fname nd.sig.recvTypeQ
                        = false := by
                      rw [← addIfacesModified_fst env st]
                      exact Bool.eq_false_iff.mpr ham
                    rw [haio] at hfalse
                    exact absurd hfalse (by simp)

/-- Second components of list enumerations are list members. -/
theorem mem_enumFrom_snd {α : Type} : ∀ (l : List α) (n : Nat) (x : Nat × α),
    x ∈ l.enumFrom n → x.2 ∈ l := by
  intro l
  induction l with
  | nil => intro n x h; simp [List.enumFrom] at h
  | cons a rest ih =>
    intro n x h
    simp only [List.enumFrom] at h
    rcases List.mem_cons.mp h with h | h
    · subst h; exact List.mem_cons_self a rest
    · exact List.mem_cons_of_mem a (ih (n + 1) x h)

theorem mem_enum_snd {α : Type} (l : List α) (x : Nat × α) (h : x ∈ l.enum) :
    x.2 ∈ l :=
  mem_enumFrom_snd l 0 x h

/-- The per-node body of `collectIfaces` admits the evolution relation. -/
theorem aevolve_collectIfacesScanNode (env : AEnv) (nmod : List Nat)
    (st : AState) (nd : CNode) (hc : Consistent env) (hnd : nd ∈ env.nodes) :
    AEvolve env st (collectIfacesScanNode env nmod st nd) := by
  simp only [collectIfacesScanNode]
  refine aevolve_trans env ?_ (aevolve_foldl env _ _ _ ?_)
  · split
    · refine aevolve_foldl env _ _ _ ?_
      intro acc im _
      split
      · exact aevolve_insertArtificialCtx env nmod acc nd hc hnd
      · exact aevolve_refl env acc
    · exact aevolve_refl env st
  · intro acc ip _
    split
    · exact aevolve_refl env acc
    · split
      · exact aevolve_refl env acc
      · refine aevolve_foldl env _ _ _ ?_
        intro acc2 e _
        refine aevolve_foldl env _ _ _ ?_
        intro acc3 mn _
        split
        · split
          · split
            · next fnode hfn =>
                exact aevolve_insertArtificialCtx env nmod acc3 fnode hc
                  (findNode_mem env _ fnode hfn)
            · exact aevolve_refl env acc3
          · exact aevolve_refl env acc3
        · exact aevolve_refl env acc3

/-- `collectIfaces` admits the evolution relation. -/
theorem aevolve_collectIfaces (env : AEnv) (nmod : List Nat) (st : AState)
    (hc : Consistent env) :
    AEvolve env st (collectIfaces env nmod st).1 := by
  simp only [collectIfaces, List.foldl_nil]
  refine aevolve_foldl env _ _ _ ?_
  intro acc n _
  split
  · exact aevolve_refl env acc
  · next nd hfn =>
      exact aevolve_collectIfacesScanNode env nmod acc nd hc (findNode_mem env n nd hfn)

/-- The discovery loop of `collectNamedTypes` admits the evolution relation
(the named-type positions it marks `regularFn` are no node's position). -/
theorem aevolve_namedDiscover (env : AEnv) (nmod : List Nat) (st : AState)
    (hc : Consistent env) :
    AEvolve env st (namedDiscover env nmod st).1 := by
  simp only [namedDiscover]
  refine aevolve_foldl_proj env _ Prod.fst _ (st, []) ?_
  intro acc n _
  split
  · exact aevolve_refl env acc.1
  · next nd hfn =>
      have hndm := findNode_mem env n nd hfn
      refine aevolve_foldl_proj env _ Prod.fst _ acc ?_
      intro acc2 ip hip
      split
      · exact aevolve_refl env acc2.1
      · next nm hnm =>
          split
          · exact aevolve_refl env acc2.1
          · split
            · exact aevolve_refl env acc2.1
            · refine aevolve_foldl_proj env _ Prod.fst _ acc2 ?_
              intro acc3 e _
              split
              · exact aevolve_refl env acc3.1
              · next fnid hfnid =>
                  split
                  · exact aevolve_refl env acc3.1
                  · next fnode hfnode =>
                      split
                      · next v hv =>
                          split
                          · refine aevolve_write_regular env acc3.1 _
                              (env.namedPos nm) rfl ?_ ?_
                            · intro ndx hndx hfpx
                              exact absurd hfpx (hc.2.2 ndx hndx nd hndm ip.2
                                (mem_enum_snd _ _ hip) nm hnm)
                            · intro hinv hfr
                              obtain ⟨ndx, hndx, hfpx⟩ :=
                                hinv.2.2 (env.namedPos nm) hfr
                              exact hc.2.2 ndx hndx nd hndm ip.2
                                (mem_enum_snd _ _ hip) nm hnm hfpx
                          · exact aevolve_refl env acc3.1
                      · exact aevolve_refl env acc3.1

/-- The propagation loop of `collectNamedTypes` admits the evolution
relation. -/
theorem aevolve_namedPropagate (env : AEnv) (nmod nnew : List Nat) (st : AState)
    (hc : Consistent env) :
    AEvolve env st (namedPropagate env nmod nnew st) := by
  simp only [namedPropagate]
  refine aevolve_foldl env _ _ _ ?_
  intro acc n _
  split
  · exact aevolve_refl env acc
  · next nd hfn =>
      refine aevolve_foldl env _ _ _ ?_
      intro acc2 ip _
      split
      · exact aevolve_refl env acc2
      · next nm hnm =>
          split
          · refine aevolve_foldl env _ _ _ ?_
            intro acc3 e _
            split
            · exact aevolve_refl env acc3
            · next fnid hfnid =>
                split
                · exact aevolve_refl env acc3
                · next fnode hfnode =>
                    exact aevolve_insertArtificialCtx env nmod acc3 fnode hc
                      (findNode_mem env fnid fnode hfnode)
          · exact aevolve_refl env acc2

/-- `collectNamedTypes` admits the evolution relation at every fuel. -/
theorem aevolve_collectNamedTypes (env : AEnv) (hc : Consistent env) :
    ∀ (fuel : Nat) (nmod : List Nat) (st : AState),
      AEvolve env st (collectNamedTypes env fuel nmod st).2 := by
  intro fuel
  induction fuel with
  | zero => intro nmod st; simp only [collectNamedTypes]; exact aevolve_refl env st
  | succ fuel ih =>
    intro nmod st
    simp only [collectNamedTypes]
    split
    · exact aevolve_namedDiscover env nmod st hc
    · exact aevolve_trans env
        (aevolve_trans env (aevolve_namedDiscover env nmod st hc)
          (aevolve_namedPropagate env nmod _ _ hc))
        (ih _ _)

/-- The closure fixed-point loop admits the evolution relation. -/
theorem aevolve_analyzeFixpoint (env : AEnv) (hc : Consistent env) :
    ∀ (fuel : Nat) (nmod : List Nat) (st : AState),
      AEvolve env st (analyzeFixpoint env fuel nmod st).2 := by
  intro fuel
  induction fuel with
  | zero => intro nmod st; simp only [analyzeFixpoint]; exact aevolve_refl env st
  | succ fuel ih =>
    intro nmod st
    simp only [analyzeFixpoint]
    split
    · exact aevolve_trans env
        (aevolve_trans env (aevolve_collectIfaces env nmod st hc)
          (aevolve_collectNamedTypes env hc fuel nmod _))
        (ih _ _)
    · exact aevolve_trans env (aevolve_collectIfaces env nmod st hc)
        (aevolve_collectNamedTypes env hc fuel nmod _)

/-- The full classifying pass of the analysis admits the evolution
relation. -/
theorem aevolve_analysisDriver (env : AEnv) (fuel : Nat) (seeds : List Nat)
    (st : AState) (hc : Consistent env) :
    AEvolve env st (analysisDriver env fuel seeds st) := by
  simp only [analysisDriver]
  refine aevolve_trans env (aevolve_foldl_proj env _ Prod.snd _ ([], st) ?_)
    (aevolve_trans env ((aevolve_collect_family env hc fuel).1 _ _ _)
      (aevolve_analyzeFixpoint env hc fuel [] _))
  intro acc nid _
  split
  · exact aevolve_refl env acc.2
  · next nd hfn =>
      exact (aevolve_collect_family env hc fuel).2.2.2.2.1 [] acc.1 acc.2 nd
        (findNode_mem env nid nd hfn)

/-- **C4.**  Throughout the analysis phase, every keyed function is
assigned a classification by admissible steps only: starting from any
pre-scan state (whose stored classes are all `extFn`), after the full
classifying pass every key that changed class went from `extFn` to
`regularFn` or `freshCtxFn` (`TransOK`), no binding is dropped, and the
classification invariant holds at the end; moreover every constituent pass
(`collect`, `collectFnDef`, `insertArtificialCtx`, `collectIfaces`,
`collectNamedTypes`) preserves the invariant and evolves every commonly
bound key by an admissible step (`AEvolve`), so a function classified
`regularFn` or `freshCtxFn` never changes class at any point of the
analysis.  (The classes `CONTAINER_SIG`, `EXT_PKG`, `EXT_RECV` named by the
claim are never stored in `fnVisited` by any of these passes — see the
first component of `AInv` — so the claim's list of never-reclassified
classes degenerates to `regularFn` and `freshCtxFn`.) -/
theorem classification_monotone_extfn_only (env : AEnv) (hc : Consistent env) :
    (∀ st fuel seeds, InitExtOnly st →
       AInv env (analysisDriver env fuel seeds st) ∧
       TransOK st.fnVisited (analysisDriver env fuel seeds st).fnVisited ∧
       ∀ k, (alookup st.fnVisited k).isSome →
         (alookup (analysisDriver env fuel seeds st).fnVisited k).isSome) ∧
    (∀ st fuel wl vis, AEvolve env st (collect env fuel wl vis st).2) ∧
    (∀ st fuel wl vis caller, caller ∈ env.nodes →
       AEvolve env st (collectFnDef env fuel wl vis st caller).2.1) ∧
    (∀ st nmod nd, nd ∈ env.nodes →
       AEvolve env st (insertArtificialCtx env nmod st nd)) ∧
    (∀ st nmod, AEvolve env st (collectIfaces env nmod st).1) ∧
    (∀ st fuel nmod, AEvolve env st (collectNamedTypes env fuel nmod st).2) := by
  refine ⟨?_, ?_, ?_, ?_, ?_, ?_⟩
  · intro st fuel seeds hinit
    exact aevolve_analysisDriver env fuel seeds st hc (initExt_AInv env st hinit)
  · intro st fuel wl vis
    exact (aevolve_collect_family env hc fuel).1 wl vis st
  · intro st fuel wl vis caller hmem
    exact (aevolve_collect_family env hc fuel).2.2.2.2.1 wl vis st caller hmem
  · intro st nmod nd hmem
    exact aevolve_insertArtificialCtx env nmod st nd hc hmem
  · intro st nmod
    exact aevolve_collectIfaces env nmod st hc
  · intro st fuel nmod
    exact aevolve_collectNamedTypes env hc fuel nmod st

/-- Witness for C4: the consistency hypothesis holds at the concrete
two-node environment. -/
theorem classification_monotone_extfn_only_witness :
    Consistent envC4 ∧
    ((∀ st fuel seeds, InitExtOnly st →
       AInv envC4 (analysisDriver envC4 fuel seeds st) ∧
       TransOK st.fnVisited (analysisDriver envC4 fuel seeds st).fnVisited ∧
       ∀ k, (alookup st.fnVisited k).isSome →
         (alookup (analysisDriver envC4 fuel seeds st).fnVisited k).isSome) ∧
    (∀ st fuel wl vis, AEvolve envC4 st (collect envC4 fuel wl vis st).2) ∧
    (∀ st fuel wl vis caller, caller ∈ envC4.nodes →
       AEvolve envC4 st (collectFnDef envC4 fuel wl vis st caller).2.1) ∧
    (∀ st nmod nd, nd ∈ envC4.nodes →
       AEvolve envC4 st (insertArtificialCtx envC4 nmod st nd)) ∧
    (∀ st nmod, AEvolve envC4 st (collectIfaces envC4 nmod st).1) ∧
    (∀ st fuel nmod, AEvolve envC4 st (collectNamedTypes envC4 fuel nmod st).2)) := by
  have hc : Consistent envC4 := by
    refine ⟨by decide, by decide, ?_⟩
    intro nd hnd nd2 hnd2 ip hip nm hnm
    simp [envC4, plainEnv] at hnm
  exact ⟨hc, classification_monotone_extfn_only envC4 hc⟩

/-! ## C7: the pipeline is not idempotent without leaf renames -/

/-- C7 counterexample: with a configuration that does not rename the leaf
function, the first run injects the context argument at call 20 and the
second run, fed the first run's output, reports the file modified again and
injects a second context argument. -/
theorem second_run_duplicates_ctx_arg :
    modsC7a = ["a.go"] ∧ argNamesAt 20 filesC7a = ["ctx", "p"] ∧
    modsC7b = ["a.go"] ∧ argNamesAt 20 filesC7b = ["ctx", "ctx", "p"] := by
  exact ⟨by decide, by decide, by decide, by decide⟩

/-- A fold whose every step is the identity. -/
theorem foldl_id {β γ : Type} (f : γ → β → γ) :
    ∀ (l : List β) (a : γ), (∀ acc x, x ∈ l → f acc x = acc) → l.foldl f a = a := by
  intro l
  induction l with
  | nil => intro a _; rfl
  | cons x rest ih =>
    intro a h
    rw [List.foldl_cons, h a x (List.mem_cons_self x rest)]
    exact ih a (fun acc y hy => h acc y (List.mem_cons_of_mem x hy))

/-- A fold preserving a predicate on the accumulator. -/
theorem foldl_preserve {β γ : Type} (P : γ → Prop) (f : γ → β → γ) :
    ∀ (l : List β) (a : γ), P a → (∀ acc x, x ∈ l → P acc → P (f acc x)) →
      P (l.foldl f a) := by
  intro l
  induction l with
  | nil => intro a ha _; exact ha
  | cons x rest ih =>
    intro a ha h
    exact ih (f a x) (h a x (List.mem_cons_self x rest) ha)
      (fun acc y hy => h acc y (List.mem_cons_of_mem x hy))

/-- A fold whose steps preserve a state projection. -/
theorem foldl_proj_eq {β χ : Type} (g : AState → χ) (f : AState → β → AState)
    (h : ∀ acc x, g (f acc x) = g acc) :
    ∀ (l : List β) (st : AState), g (l.foldl f st) = g st := by
  intro l
  induction l with
  | nil => intro st; rfl
  | cons x rest ih => intro st; rw [List.foldl_cons, ih, h]

/-- `addIfacesModified` never touches the rename table. -/
theorem addIfacesModified_csr (env : AEnv) (st : AState) (sig : SigInfo)
    (fname fnRecv : String) :
    (addIfacesModified env st sig fname fnRecv).2.callSitesRenamed =
      st.callSitesRenamed := by
  by_cases hrecv : fnRecv = ""
  · simp [addIfacesModified, hrecv]
  · by_cases hext : (env.ifaceMeths.filter
        (fun im => env.implements sig.recvTypeQ im.ifaceId ∧ im.mname = fname)).any
        (fun im => env.ifaceExternal im.ifaceId) = true
    · simp only [addIfacesModified, if_neg hrecv]
      rw [if_pos hext]
    · simp only [addIfacesModified, if_neg hrecv, if_neg hext]
      refine foldl_proj_eq (fun s => s.callSitesRenamed) _ ?_ _ st
      intro acc im
      rfl

/-- The worklist recursion never touches the rename table. -/
theorem csr_collect_family (env : AEnv) : ∀ fuel : Nat,
    (∀ wl vis st, (collect env fuel wl vis st).2.callSitesRenamed =
      st.callSitesRenamed) ∧
    (∀ nd es wl vis st, (edgeLoop env fuel nd es wl vis st).2.callSitesRenamed =
      st.callSitesRenamed) ∧
    (∀ e caller wl vis st,
      (collectFnParam env fuel e caller wl vis st).2.callSitesRenamed =
        st.callSitesRenamed) ∧
    (∀ os epos wl vis st, (outLoop env fuel os epos wl vis st).2.callSitesRenamed =
      st.callSitesRenamed) ∧
    (∀ wl vis st caller, (collectFnDef env fuel wl vis st caller).2.1.callSitesRenamed =
      st.callSitesRenamed) ∧
    (∀ wl vis st caller,
      (collectFnDefCore env fuel wl vis st caller).2.1.callSitesRenamed =
        st.callSitesRenamed) := by
  intro fuel
  induction fuel with
  | zero =>
    refine ⟨fun wl vis st => ?_, fun nd es wl vis st => ?_, fun e caller wl vis st => ?_,
      fun os epos wl vis st => ?_, fun wl vis st caller => ?_,
      fun wl vis st caller => ?_⟩
    all_goals simp only [collect, edgeLoop, collectFnParam, outLoop, collectFnDef,
      collectFnDefCore]
  | succ fuel ih =>
    obtain ⟨ihc, ihe, ihp, iho, ihd, ihcore⟩ := ih
    refine ⟨?_, ?_, ?_, ?_, ?_, ?_⟩
    · intro wl vis st
      cases wl with
      | nil => simp only [collect]
      | cons n wl2 =>
        simp only [collect]
        split
        · rfl
        · exact ihe _ _ _ _ _
    · intro nd es wl vis st
      cases es with
      | nil => simp only [edgeLoop]; exact ihc wl vis st
      | cons e es2 =>
        simp only [edgeLoop]
        repeat' split
        all_goals simp only [ihc, ihe, ihp, iho, ihd, ihcore]
    · intro e caller wl vis st
      simp only [collectFnParam]
      repeat' split
      all_goals simp only [iho]
    · intro os epos wl vis st
      cases os with
      | nil => simp only [outLoop]
      | cons o os2 =>
        simp only [outLoop]
        repeat' split
        all_goals simp only [ihd, iho]
    · intro wl vis st caller
      simp only [collectFnDef]
      repeat' split
      all_goals simp only [ihd, ihcore]
    · intro wl vis st caller
      simp only [collectFnDefCore]
      repeat' split
      all_goals simp only [ihc, addIfacesModified_csr, markFnAsFreshCtx]

/-- The closure's call-site pass never touches the rename table. -/
theorem insertArtificialCtxCallsites_csr (env : AEnv) (nmod : List Nat)
    (st : AState) (nd : CNode) :
    (insertArtificialCtxCallsites env nmod st nd).callSitesRenamed =
      st.callSitesRenamed := by
  unfold insertArtificialCtxCallsites
  refine foldl_proj_eq (fun s => s.callSitesRenamed) _ ?_ nd.ins st
  intro acc e
  dsimp only
  repeat' split
  all_goals rfl

/-- `insertArtificialCtx` never touches the rename table. -/
theorem insertArtificialCtx_csr (env : AEnv) (nmod : List Nat)
    (st : AState) (nd : CNode) :
    (insertArtificialCtx env nmod st nd).callSitesRenamed = st.callSitesRenamed := by
  simp only [insertArtificialCtx]
  repeat' split
  all_goals simp only [insertArtificialCtxCallsites_csr, addIfacesModified_csr,
    markFnAsFreshCtx]

/-- A fold over an arbitrary accumulator whose steps preserve a
projection. -/
theorem foldl_projg_eq {β γ χ : Type} (g : γ → χ) (f : γ → β → γ)
    (h : ∀ acc x, g (f acc x) = g acc) :
    ∀ (l : List β) (a : γ), g (l.foldl f a) = g a := by
  intro l
  induction l with
  | nil => intro a; rfl
  | cons x rest ih => intro a; rw [List.foldl_cons, ih, h]

/-- The per-node interface scan never touches the rename table. -/
theorem collectIfacesScanNode_csr (env : AEnv) (nmod : List Nat)
    (st : AState) (nd : CNode) :
    (collectIfacesScanNode env nmod st nd).callSitesRenamed =
      st.callSitesRenamed := by
  simp only [collectIfacesScanNode]
  refine Eq.trans (foldl_projg_eq (fun s : AState => s.callSitesRenamed) _ ?_ _ _) ?_
  · intro acc ip
    dsimp only
    repeat' split
    all_goals first
      | rfl
      | (refine foldl_projg_eq (fun s : AState => s.callSitesRenamed) _ ?_ _ _
         intro acc2 e
         dsimp only
         refine foldl_projg_eq (fun s : AState => s.callSitesRenamed) _ ?_ _ _
         intro acc3 mn
         dsimp only
         repeat' split
         all_goals first | rfl | exact insertArtificialCtx_csr env nmod acc3 _)
  · split
    · refine foldl_projg_eq (fun s : AState => s.callSitesRenamed) _ ?_ _ _
      intro acc im
      dsimp only
      split
      · exact insertArtificialCtx_csr env nmod acc nd
      · rfl
    · rfl

/-- `collectIfaces` never touches the rename table. -/
theorem collectIfaces_csr (env : AEnv) (nmod : List Nat) (st : AState) :
    (collectIfaces env nmod st).1.callSitesRenamed = st.callSitesRenamed := by
  simp only [collectIfaces, List.foldl_nil]
  refine foldl_projg_eq (fun s : AState => s.callSitesRenamed) _ ?_ _ st
  intro acc n
  dsimp only
  split
  · rfl
  · exact collectIfacesScanNode_csr env nmod acc _

/-- The named-type discovery loop never touches the rename table. -/
theorem namedDiscover_csr (env : AEnv) (nmod : List Nat) (st : AState) :
    (namedDiscover env nmod st).1.callSitesRenamed = st.callSitesRenamed := by
  simp only [namedDiscover]
  refine foldl_projg_eq (fun a : AState × List Nat => a.1.callSitesRenamed) _ ?_ _ _
  intro acc n
  dsimp only
  split
  · rfl
  · refine foldl_projg_eq (fun a : AState × List Nat => a.1.callSitesRenamed) _ ?_ _ _
    intro acc2 ip
    dsimp only
    repeat' split
    all_goals first
      | rfl
      | (refine foldl_projg_eq (fun a : AState × List Nat => a.1.callSitesRenamed) _ ?_ _ _
         intro acc3 e
         dsimp only
         repeat' split
         all_goals rfl)

/-- The named-type propagation loop never touches the rename table. -/
theorem namedPropagate_csr (env : AEnv) (nmod nnew : List Nat) (st : AState) :
    (namedPropagate env nmod nnew st).callSitesRenamed = st.callSitesRenamed := by
  simp only [namedPropagate]
  refine foldl_projg_eq (fun s : AState => s.callSitesRenamed) _ ?_ _ _
  intro acc n
  dsimp only
  split
  · rfl
  · refine foldl_projg_eq (fun s : AState => s.callSitesRenamed) _ ?_ _ _
    intro acc2 ip
    dsimp only
    repeat' split
    all_goals first
      | rfl
      | (refine foldl_projg_eq (fun s : AState => s.callSitesRenamed) _ ?_ _ _
         intro acc3 e
         dsimp only
         repeat' split
         all_goals first | rfl | exact insertArtificialCtx_csr env nmod acc3 _)

/-- `collectNamedTypes` never touches the rename table. -/
theorem collectNamedTypes_csr (env : AEnv) :
    ∀ (fuel : Nat) (nmod : List Nat) (st : AState),
      (collectNamedTypes env fuel nmod st).2.callSitesRenamed =
        st.callSitesRenamed := by
  intro fuel
  induction fuel with
  | zero => intro nmod st; rfl
  | succ fuel ih =>
    intro nmod st
    simp only [collectNamedTypes]
    split
    · exact namedDiscover_csr env nmod st
    · rw [ih, namedPropagate_csr, namedDiscover_csr]

/-- The closure fixed-point loop never touches the rename table. -/
theorem analyzeFixpoint_csr (env : AEnv) :
    ∀ (fuel : Nat) (nmod : List Nat) (st : AState),
      (analyzeFixpoint env fuel nmod st).2.callSitesRenamed =
        st.callSitesRenamed := by
  intro fuel
  induction fuel with
  | zero => intro nmod st; rfl
  | succ fuel ih =>
    intro nmod st
    simp only [analyzeFixpoint]
    split
    · rw [ih, collectNamedTypes_csr, collectIfaces_csr]
    · rw [collectNamedTypes_csr, collectIfaces_csr]

/-- The whole analysis phase leaves the rename table exactly as the leaf
seeding built it. -/
theorem analyzeToy_csr (cfg : PipeCfg) (fuel : Nat) (files : List GoFile) :
    (analyzeToy cfg fuel files).callSitesRenamed =
      (seedLeafCalls cfg (buildAEnv cfg files) fuel files).2.callSitesRenamed := by
  simp only [analyzeToy]
  rw [analyzeFixpoint_csr, (csr_collect_family (buildAEnv cfg files) fuel).1]

/-- The rename table after one seeding step: the processed call position is
bound to the configured new name (when one is configured); nothing else
changes. -/
theorem seedStepInner_csr (cfg : PipeCfg) (env : AEnv) (fuel : Nat)
    (lr : String × ReplacementInfo) (acc : List Nat × AState) (gc : Nat × Nat) :
    (seedStepInner cfg env fuel lr acc gc).2.callSitesRenamed =
      if ¬ lr.2.newName = "" then
        mset acc.2.callSitesRenamed gc.2 lr.2.newName
      else acc.2.callSitesRenamed := by
  simp only [seedStepInner]
  split
  · split
    · rfl
    · rfl
  · show (collectFnDef env fuel [] acc.1 _ _).2.1.callSitesRenamed = _
    rw [(csr_collect_family env fuel).2.2.2.2.1]
    split
    · rfl
    · rfl

/-- A seeding step preserves the presence of any rename-table binding. -/
theorem seedStepInner_mono (cfg : PipeCfg) (env : AEnv) (fuel : Nat)
    (lr : String × ReplacementInfo) (acc : List Nat × AState) (gc : Nat × Nat)
    (p : Nat) (h : (alookup acc.2.callSitesRenamed p).isSome) :
    (alookup (seedStepInner cfg env fuel lr acc gc).2.callSitesRenamed p).isSome := by
  rw [seedStepInner_csr]
  split
  · exact alookup_mset_isSome _ _ _ _ h
  · exact h

/-- After the seeding step for a call with a configured rename, the call's
position is bound in the rename table. -/
theorem seedStepInner_covers (cfg : PipeCfg) (env : AEnv) (fuel : Nat)
    (lr : String × ReplacementInfo) (acc : List Nat × AState) (gc : Nat × Nat)
    (hnn : ¬ lr.2.newName = "") :
    (alookup (seedStepInner cfg env fuel lr acc gc).2.callSitesRenamed gc.2).isSome := by
  rw [seedStepInner_csr, if_pos hnn, alookup_mset_self]
  rfl

/-- Every value in the rename table built by the leaf seeding is a
configured new name. -/
theorem seed_renames_from_cfg (cfg : PipeCfg) (env : AEnv) (fuel : Nat)
    (files : List GoFile) :
    RenamesFromCfg cfg (seedLeafCalls cfg env fuel files).2.callSitesRenamed := by
  simp only [seedLeafCalls]
  refine foldl_preserve
    (fun acc : List Nat × AState => RenamesFromCfg cfg acc.2.callSitesRenamed)
    _ _ _ ?_ ?_
  · intro pos nn h
    simp [alookup] at h
  · intro acc lr hlr hP
    refine foldl_preserve
      (fun acc : List Nat × AState => RenamesFromCfg cfg acc.2.callSitesRenamed)
      _ _ _ hP ?_
    intro acc2 gc _ hP2
    intro pos nn h
    rw [seedStepInner_csr] at h
    split at h
    · rcases alookup_mset_cases _ _ _ _ _ h with ⟨_, rfl⟩ | h2
      · exact ⟨lr, hlr, rfl⟩
      · exact hP2 pos nn h2
    · exact hP2 pos nn h

/-- Every leaf call of a configured-and-renamed leaf function ends up bound
in the rename table built by the leaf seeding. -/
theorem seed_covers (cfg : PipeCfg) (env : AEnv) (fuel : Nat) (files : List GoFile) :
    ∀ lr ∈ cfg.libFns, ¬ lr.2.newName = "" →
    ∀ gc ∈ leafCallsOf cfg.libPkgName lr.1 files,
      (alookup (seedLeafCalls cfg env fuel files).2.callSitesRenamed gc.2).isSome := by
  simp only [seedLeafCalls]
  suffices h : ∀ (L : List (String × ReplacementInfo)) (a : List Nat × AState),
      ∀ lr ∈ L, ¬ lr.2.newName = "" →
      ∀ gc ∈ leafCallsOf cfg.libPkgName lr.1 files,
        (alookup ((L.foldl (fun acc lr =>
          (leafCallsOf cfg.libPkgName lr.1 files).foldl (seedStepInner cfg env fuel lr)
            acc) a)).2.callSitesRenamed gc.2).isSome by
    exact h cfg.libFns ([], ⟨[], [], [], [], [], []⟩)
  intro L
  induction L with
  | nil => intro a lr hlr; exact absurd hlr (by simp)
  | cons lr0 rest ih =>
    intro a lr hlr hnn gc hgc
    rw [List.foldl_cons]
    rcases List.mem_cons.mp hlr with heq | hmem
    · subst heq
      have hinner : ∀ (G : List (Nat × Nat)) (a2 : List Nat × AState), gc ∈ G →
          (alookup (G.foldl (seedStepInner cfg env fuel lr) a2).2.callSitesRenamed
            gc.2).isSome := by
        intro G
        induction G with
        | nil => intro a2 h2; simp at h2
        | cons g0 grest ihg =>
          intro a2 hmem2
          rw [List.foldl_cons]
          rcases List.mem_cons.mp hmem2 with hg | hg
          · subst hg
            refine foldl_preserve (fun acc : List Nat × AState =>
              (alookup acc.2.callSitesRenamed gc.2).isSome = true) _ _ _ ?_ ?_
            · exact seedStepInner_covers cfg env fuel lr a2 gc hnn
            · intro acc x _ hP
              exact seedStepInner_mono cfg env fuel lr acc x gc.2 hP
          · exact ihg _ hg
      refine foldl_preserve (fun acc : List Nat × AState =>
        (alookup acc.2.callSitesRenamed gc.2).isSome = true) _ _ _
        (hinner _ a hgc) ?_
      intro acc lr2 _ hP
      refine foldl_preserve (fun acc : List Nat × AState =>
        (alookup acc.2.callSitesRenamed gc.2).isSome = true) _ _ _ hP ?_
      intro acc2 x _ hP2
      exact seedStepInner_mono cfg env fuel lr2 acc2 x gc.2 hP2
    · exact ih _ lr hmem hnn gc hgc

/-- Leaf-freeness of an expression list is leaf-freeness of every
element. -/
theorem exprListLeafFree_iff_forall (libPkg : String) (leaf : List String) :
    ∀ l : List GoExpr, exprListLeafFree libPkg leaf l = true ↔
      ∀ x ∈ l, exprLeafFree libPkg leaf x = true := by
  intro l
  induction l with
  | nil => simp [exprListLeafFree]
  | cons e rest ih => simp [exprListLeafFree, ih]

/-- Introduction rule for leaf-freeness of a call expression. -/
theorem exprLeafFree_call_intro (libPkg : String) (leaf : List String)
    (pos : Nat) (fn : GoExpr) (args : List GoExpr)
    (hg : ∀ q l, fn = GoExpr.sel q l → ¬ (q = libPkg ∧ l ∈ leaf))
    (hfn : exprLeafFree libPkg leaf fn = true)
    (hargs : exprListLeafFree libPkg leaf args = true) :
    exprLeafFree libPkg leaf (GoExpr.call pos fn args) = true := by
  simp only [exprLeafFree, Bool.and_eq_true]
  refine ⟨⟨?_, hfn⟩, hargs⟩
  cases fn with
  | sel q l => exact decide_eq_true (hg q l rfl)
  | ident n => rfl
  | call p2 f2 a2 => rfl

/-- Inserting the context identifier keeps an argument list leaf-free. -/
theorem callSiteInsert_leafFree (libPkg : String) (leaf : List String)
    (argPos : Int) (nm : String) (args res : List GoExpr)
    (heq : callSiteInsert argPos (GoExpr.ident nm) args = .ok res)
    (h : exprListLeafFree libPkg leaf args = true) :
    exprListLeafFree libPkg leaf res = true := by
  rw [exprListLeafFree_iff_forall] at h ⊢
  intro x hx
  simp only [callSiteInsert] at heq
  split at heq
  · cases heq
    rcases List.mem_append.mp hx with h1 | h1
    · exact h x h1
    · simp at h1; subst h1; rfl
  · split at heq
    · exact Except.noConfusion heq
    · cases heq
      rcases List.mem_append.mp hx with h1 | h1
      · exact h x (List.take_subset _ _ h1)
      · rcases List.mem_cons.mp h1 with h2 | h2
        · subst h2; rfl
        · exact h x (List.drop_subset _ _ h2)

/-- `nestedInject` keeps an argument list leaf-free. -/
theorem nestedInject_leafFree (env : RWEnv) (libPkg : String) (leaf : List String) :
    ∀ (args : List GoExpr) (s : RWState) (args2 : List GoExpr) (s2 : RWState),
      nestedInject env args s = .ok (args2, s2) →
      exprListLeafFree libPkg leaf args = true →
      exprListLeafFree libPkg leaf args2 = true := by
  intro args
  induction args with
  | nil =>
    intro s args2 s2 heq h
    simp only [nestedInject] at heq
    cases heq
    exact h
  | cons a rest ih =>
    intro s args2 s2 heq h
    simp only [exprListLeafFree, Bool.and_eq_true] at h
    obtain ⟨ha, hrest⟩ := h
    cases a with
    | ident n =>
      simp only [nestedInject] at heq
      split at heq
      · exact Except.noConfusion heq
      · next rest2 s2x heq2 =>
          cases heq
          simp only [exprListLeafFree, Bool.and_eq_true]
          exact ⟨ha, ih _ _ _ heq2 hrest⟩
    | sel q n =>
      simp only [nestedInject] at heq
      split at heq
      · exact Except.noConfusion heq
      · next rest2 s2x heq2 =>
          cases heq
          simp only [exprListLeafFree, Bool.and_eq_true]
          exact ⟨ha, ih _ _ _ heq2 hrest⟩
    | call cpos cfn cargs =>
      cases cargs with
      | cons x xs =>
        simp only [nestedInject] at heq
        split at heq
        · exact Except.noConfusion heq
        · next rest2 s2x heq2 =>
            cases heq
            simp only [exprListLeafFree, Bool.and_eq_true]
            exact ⟨ha, ih _ _ _ heq2 hrest⟩
      | nil =>
        simp only [nestedInject] at heq
        split at heq
        · next r hr =>
            split at heq
            · exact Except.noConfusion heq
            · next ce ni hget =>
                split at heq
                · exact Except.noConfusion heq
                · next rest2 s2x heq2 =>
                    cases heq
                    simp only [exprListLeafFree, Bool.and_eq_true] at ha ⊢
                    simp only [exprLeafFree, Bool.and_eq_true] at ha ⊢
                    obtain ⟨⟨hg, hcfn⟩, _⟩ := ha
                    exact ⟨⟨⟨hg, hcfn⟩, rfl⟩, ih _ _ _ heq2 hrest⟩
        · next hr =>
            split at heq
            · exact Except.noConfusion heq
            · next rest2 s2x heq2 =>
                cases heq
                simp only [exprListLeafFree, Bool.and_eq_true]
                exact ⟨ha, ih _ _ _ heq2 hrest⟩

/-- Every successful output of the call handler is a call expression keyed
by the same position. -/
theorem astCallHandler_shape (env : RWEnv) (p : Bool) (pos : Nat) (fn : GoExpr)
    (args : List GoExpr) (s : RWState) (e2 : GoExpr) (s2 : RWState)
    (heq : astCallHandler env p pos fn args s = .ok (e2, s2)) :
    ∃ fn2 args2, e2 = GoExpr.call pos fn2 args2 := by
  simp only [astCallHandler] at heq
  repeat' split at heq
  all_goals first
    | exact Except.noConfusion heq
    | (cases heq; exact ⟨_, _, rfl⟩)

/-- A rewritten expression is a selector only if the original was that same
selector. -/
theorem rewriteExpr_sel_inv (env : RWEnv) (p : Bool) (e e2 : GoExpr)
    (s s2 : RWState) (q l : String)
    (heq : rewriteExpr env p e s = .ok (e2, s2)) (h2 : e2 = GoExpr.sel q l) :
    e = GoExpr.sel q l := by
  cases e with
  | ident n =>
      simp only [rewriteExpr] at heq
      cases heq
      exact GoExpr.noConfusion h2
  | sel q2 l2 =>
      simp only [rewriteExpr] at heq
      cases heq
      exact h2
  | call pos fn args =>
      simp only [rewriteExpr] at heq
      split at heq
      · exact Except.noConfusion heq
      · split at heq
        · exact Except.noConfusion heq
        · obtain ⟨fn2, args2, hshape⟩ := astCallHandler_shape env p pos _ _ _ e2 s2 heq
          rw [hshape] at h2
          exact GoExpr.noConfusion h2

/-- The call handler produces a leaf-free expression whenever its function
operand is leaf-free, its arguments are leaf-free, and a leaf-selector
operand implies a rename entry at the call position whose values avoid leaf
names. -/
theorem astCallHandler_leafFree (env : RWEnv) (libPkg : String) (leaf : List String)
    (hsafe : ∀ pos2 nn, alookup env.callSitesRenamed pos2 = some nn → ¬ nn ∈ leaf)
    (p : Bool) (pos : Nat) (fn : GoExpr) (args : List GoExpr) (s : RWState)
    (e2 : GoExpr) (s2 : RWState)
    (hfn_cov : ∀ q l, fn = GoExpr.sel q l → q = libPkg → l ∈ leaf →
      (alookup env.callSitesRenamed pos).isSome = true)
    (hfnLF : exprLeafFree libPkg leaf fn = true)
    (hargsLF : exprListLeafFree libPkg leaf args = true)
    (heq : astCallHandler env p pos fn args s = .ok (e2, s2)) :
    exprLeafFree libPkg leaf e2 = true := by
  simp only [astCallHandler] at heq
  split at heq
  · exact Except.noConfusion heq
  · next fn1 s1 heqr =>
      -- facts about the (possibly renamed) function operand
      have hfn1 : exprLeafFree libPkg leaf fn1 = true ∧
          (∀ q l, fn1 = GoExpr.sel q l → ¬ (q = libPkg ∧ l ∈ leaf)) := by
        split at heqr
        · next nn hnn =>
            split at heqr
            · exact Except.noConfusion heqr
            · next fn2x hren =>
                cases heqr
                have hnnleaf : ¬ nn ∈ leaf := hsafe pos nn hnn
                cases fn with
                | sel q2 l2 =>
                    simp only [renameFun] at hren
                    cases hren
                    exact ⟨rfl, fun q l hsel => by
                      cases hsel
                      exact fun hc => hnnleaf hc.2⟩
                | ident n =>
                    simp only [renameFun] at hren
                    cases hren
                    exact ⟨rfl, fun q l hsel => GoExpr.noConfusion hsel⟩
                | call p2 f2 a2 =>
                    simp only [renameFun] at hren
                    exact Except.noConfusion hren
        · next hnone =>
            cases heqr
            refine ⟨hfnLF, ?_⟩
            intro q l hsel hc
            have := hfn_cov q l hsel hc.1 hc.2
            rw [hnone] at this
            exact Bool.noConfusion this
      obtain ⟨hfn1LF, hfn1G⟩ := hfn1
      split at heq
      · -- standalone zero-argument call
        split at heq
        · next r hr =>
            split at heq
            · exact Except.noConfusion heq
            · next ce ni hget =>
                cases heq
                exact exprLeafFree_call_intro libPkg leaf pos fn1 _ hfn1G hfn1LF rfl
        · cases heq
          exact exprLeafFree_call_intro libPkg leaf pos fn1 args hfn1G hfn1LF hargsLF
      · split at heq
        · -- non-empty argument list
          split at heq
          · exact Except.noConfusion heq
          · next args2 s2x heqn =>
              have hargs2 : exprListLeafFree libPkg leaf args2 = true :=
                nestedInject_leafFree env libPkg leaf args _ _ _ heqn hargsLF
              split at heq
              · next r hr =>
                  split at heq
                  · exact Except.noConfusion heq
                  · next ce ni hget =>
                      split at heq
                      · exact Except.noConfusion heq
                      · next args3 hins =>
                          cases heq
                          exact exprLeafFree_call_intro libPkg leaf pos fn1 args3
                            hfn1G hfn1LF
                            (callSiteInsert_leafFree libPkg leaf r.argPos _ args2
                              args3 hins hargs2)
              · cases heq
                exact exprLeafFree_call_intro libPkg leaf pos fn1 args2
                  hfn1G hfn1LF hargs2
        · cases heq
          exact exprLeafFree_call_intro libPkg leaf pos fn1 args hfn1G hfn1LF hargsLF

mutual

/-- The expression rewrite produces a leaf-free expression when every leaf
call position is covered by the rename table and no rename value is a leaf
name. -/
theorem rewriteExpr_leafFree (env : RWEnv) (libPkg : String) (leaf : List String)
    (hsafe : ∀ pos2 nn, alookup env.callSitesRenamed pos2 = some nn → ¬ nn ∈ leaf) :
    ∀ (e : GoExpr) (p : Bool) (s : RWState) (e2 : GoExpr) (s2 : RWState),
      (∀ pc ∈ callsOfExpr e, ∀ q l, pc.2 = GoExpr.sel q l → q = libPkg → l ∈ leaf →
        (alookup env.callSitesRenamed pc.1).isSome = true) →
      rewriteExpr env p e s = .ok (e2, s2) →
      exprLeafFree libPkg leaf e2 = true
  | .ident n, p, s, e2, s2, hcov, heq => by
      simp only [rewriteExpr] at heq
      cases heq
      rfl
  | .sel q n, p, s, e2, s2, hcov, heq => by
      simp only [rewriteExpr] at heq
      cases heq
      rfl
  | .call pos fn args, p, s, e2, s2, hcov, heq => by
      simp only [rewriteExpr] at heq
      split at heq
      · exact Except.noConfusion heq
      · next fn1 s1 heqf =>
          split at heq
          · exact Except.noConfusion heq
          · next args1 s1b heqa =>
              have hfn1 : exprLeafFree libPkg leaf fn1 = true :=
                rewriteExpr_leafFree env libPkg leaf hsafe fn true s fn1 s1
                  (fun pc hpc => hcov pc (by
                    simp only [callsOfExpr]
                    exact List.mem_cons_of_mem _ (List.mem_append_left _ hpc)))
                  heqf
              have hargs1 : exprListLeafFree libPkg leaf args1 = true :=
                rewriteExprList_leafFree env libPkg leaf hsafe args s1 args1 s1b
                  (fun pc hpc => hcov pc (by
                    simp only [callsOfExpr]
                    exact List.mem_cons_of_mem _ (List.mem_append_right _ hpc)))
                  heqa
              have hfn_cov : ∀ q l, fn1 = GoExpr.sel q l → q = libPkg → l ∈ leaf →
                  (alookup env.callSitesRenamed pos).isSome = true := by
                intro q l hsel hq hl
                have hfn_orig : fn = GoExpr.sel q l :=
                  rewriteExpr_sel_inv env true fn fn1 s s1 q l heqf hsel
                refine hcov (pos, fn) ?_ q l (by rw [hfn_orig]) hq hl
                simp [callsOfExpr]
              exact astCallHandler_leafFree env libPkg leaf hsafe p pos fn1 args1
                s1b e2 s2 hfn_cov hfn1 hargs1 heq

/-- List form of `rewriteExpr_leafFree`. -/
theorem rewriteExprList_leafFree (env : RWEnv) (libPkg : String) (leaf : List String)
    (hsafe : ∀ pos2 nn, alookup env.callSitesRenamed pos2 = some nn → ¬ nn ∈ leaf) :
    ∀ (l : List GoExpr) (s : RWState) (l2 : List GoExpr) (s2 : RWState),
      (∀ pc ∈ callsOfExprList l, ∀ q lf, pc.2 = GoExpr.sel q lf → q = libPkg →
        lf ∈ leaf → (alookup env.callSitesRenamed pc.1).isSome = true) →
      rewriteExprList env l s = .ok (l2, s2) →
      exprListLeafFree libPkg leaf l2 = true
  | [], s, l2, s2, hcov, heq => by
      simp only [rewriteExprList] at heq
      cases heq
      rfl
  | e :: rest, s, l2, s2, hcov, heq => by
      simp only [rewriteExprList] at heq
      split at heq
      · exact Except.noConfusion heq
      · next e1 s1 heqe =>
          split at heq
          · exact Except.noConfusion heq
          · next rest1 s1b heqr =>
              cases heq
              simp only [exprListLeafFree, Bool.and_eq_true]
              refine ⟨?_, ?_⟩
              · exact rewriteExpr_leafFree env libPkg leaf hsafe e true s e1 s1
                  (fun pc hpc => hcov pc (by
                    simp only [callsOfExprList]
                    exact List.mem_append_left _ hpc))
                  heqe
              · exact rewriteExprList_leafFree env libPkg leaf hsafe rest s1 rest1
                  s2
                  (fun pc hpc => hcov pc (by
                    simp only [callsOfExprList]
                    exact List.mem_append_right _ hpc))
                  heqr

end

/-- Statement-list form of `rewriteExpr_leafFree`. -/
theorem rewriteStmts_leafFree (env : RWEnv) (libPkg : String) (leaf : List String)
    (hsafe : ∀ pos2 nn, alookup env.callSitesRenamed pos2 = some nn → ¬ nn ∈ leaf) :
    ∀ (body : List GoStmt) (s : RWState) (body2 : List GoStmt) (s2 : RWState),
      (∀ st ∈ body, ∀ pc ∈ callsOfStmt st, ∀ q l, pc.2 = GoExpr.sel q l →
        q = libPkg → l ∈ leaf → (alookup env.callSitesRenamed pc.1).isSome = true) →
      rewriteStmts env body s = .ok (body2, s2) →
      body2.all (stmtLeafFree libPkg leaf) = true := by
  intro body
  induction body with
  | nil =>
    intro s body2 s2 hcov heq
    simp only [rewriteStmts] at heq
    cases heq
    rfl
  | cons st rest ih =>
    intro s body2 s2 hcov heq
    cases st with
    | assign lhs e =>
      simp only [rewriteStmts] at heq
      split at heq
      · exact Except.noConfusion heq
      · next e1 s1 heqe =>
          split at heq
          · exact Except.noConfusion heq
          · next rest1 s1b heqr =>
              cases heq
              simp only [List.all_cons, Bool.and_eq_true]
              refine ⟨?_, ?_⟩
              · show exprLeafFree libPkg leaf e1 = true
                exact rewriteExpr_leafFree env libPkg leaf hsafe e false s e1 s1
                  (fun pc hpc =>
                    hcov (.assign lhs e) (List.mem_cons_self _ _) pc hpc)
                  heqe
              · exact ih s1 rest1 s2
                  (fun st2 hst2 pc hpc =>
                    hcov st2 (List.mem_cons_of_mem _ hst2) pc hpc)
                  heqr
    | exprStmt e =>
      simp only [rewriteStmts] at heq
      split at heq
      · exact Except.noConfusion heq
      · next e1 s1 heqe =>
          split at heq
          · exact Except.noConfusion heq
          · next rest1 s1b heqr =>
              cases heq
              simp only [List.all_cons, Bool.and_eq_true]
              refine ⟨?_, ?_⟩
              · show exprLeafFree libPkg leaf e1 = true
                exact rewriteExpr_leafFree env libPkg leaf hsafe e false s e1 s1
                  (fun pc hpc =>
                    hcov (.exprStmt e) (List.mem_cons_self _ _) pc hpc)
                  heqe
              · exact ih s1 rest1 s2
                  (fun st2 hst2 pc hpc =>
                    hcov st2 (List.mem_cons_of_mem _ hst2) pc hpc)
                  heqr

/-- One function declaration: its rewritten body is leaf-free. -/
theorem rewriteFunc_leafFree (c : StaticCfg) (d : DynCfg) (tabs : TTables)
    (env : RWEnv) (libPkg : String) (leaf : List String)
    (hsafe : ∀ pos2 nn, alookup env.callSitesRenamed pos2 = some nn → ¬ nn ∈ leaf)
    (f : GoFunc) (s : RWState) (f2 : GoFunc) (s2 : RWState)
    (hcov : ∀ st ∈ f.body, ∀ pc ∈ callsOfStmt st, ∀ q l, pc.2 = GoExpr.sel q l →
      q = libPkg → l ∈ leaf → (alookup env.callSitesRenamed pc.1).isSome = true)
    (heq : rewriteFunc c d tabs env f s = .ok (f2, s2)) :
    f2.body.all (stmtLeafFree libPkg leaf) = true := by
  have hcov2 : ∀ st ∈ GoStmt.assign c.ctxParamName
        (GoExpr.ident d.ctxParamInvalid) :: f.body,
      ∀ pc ∈ callsOfStmt st, ∀ q l, pc.2 = GoExpr.sel q l →
        q = libPkg → l ∈ leaf →
        (alookup env.callSitesRenamed pc.1).isSome = true := by
    intro st hst
    rcases List.mem_cons.mp hst with h | h
    · subst h; intro pc hpc; simp [callsOfStmt, callsOfExpr] at hpc
    · exact hcov st h
  by_cases hreg : alookup tabs.fnVisited f.pos = some FnClass.regularFn <;>
    by_cases hfresh : alookup tabs.fnVisited f.pos = some FnClass.freshCtxFn <;>
    simp only [rewriteFunc, hreg, hfresh] at heq <;>
    (try simp only [reduceCtorEq, if_true, if_false, reduceIte] at heq) <;>
    (split at heq
     · exact Except.noConfusion heq
     · next body2 s3 heqs =>
         cases heq
         first
           | exact rewriteStmts_leafFree env libPkg leaf hsafe _ _ _ _ hcov2 heqs
           | exact rewriteStmts_leafFree env libPkg leaf hsafe _ _ _ _ hcov heqs)

/-- All function declarations of a file. -/
theorem rewriteFuncs_leafFree (c : StaticCfg) (d : DynCfg) (tabs : TTables)
    (env : RWEnv) (libPkg : String) (leaf : List String)
    (hsafe : ∀ pos2 nn, alookup env.callSitesRenamed pos2 = some nn → ¬ nn ∈ leaf) :
    ∀ (funcs : List GoFunc) (s : RWState) (funcs1 : List GoFunc) (s2 : RWState),
      (∀ g ∈ funcs, ∀ st ∈ g.body, ∀ pc ∈ callsOfStmt st, ∀ q l,
        pc.2 = GoExpr.sel q l → q = libPkg → l ∈ leaf →
        (alookup env.callSitesRenamed pc.1).isSome = true) →
      rewriteFuncs c d tabs env funcs s = .ok (funcs1, s2) →
      funcs1.all (fun f => f.body.all (stmtLeafFree libPkg leaf)) = true := by
  intro funcs
  induction funcs with
  | nil =>
    intro s funcs1 s2 hcov heq
    simp only [rewriteFuncs] at heq
    cases heq
    rfl
  | cons f rest ih =>
    intro s funcs1 s2 hcov heq
    simp only [rewriteFuncs] at heq
    split at heq
    · exact Except.noConfusion heq
    · next f1 s1 heqf =>
        split at heq
        · exact Except.noConfusion heq
        · next rest1 s1b heqr =>
            cases heq
            simp only [List.all_cons, Bool.and_eq_true]
            exact ⟨rewriteFunc_leafFree c d tabs env libPkg leaf hsafe f s f1 s1
                (hcov f (List.mem_cons_self _ _)) heqf,
              ih s1 rest1 s2
                (fun g hg => hcov g (List.mem_cons_of_mem _ hg)) heqr⟩

/-- One file: the transformed file's functions are leaf-free. -/
theorem transformFile_leafFree (c : StaticCfg) (tabs : TTables) (d : DynCfg)
    (file : GoFile) (libPkg : String) (leaf : List String)
    (hsafe : ∀ pos2 nn, alookup tabs.callSitesRenamed pos2 = some nn → ¬ nn ∈ leaf)
    (hcov : ∀ g ∈ file.funcs, ∀ st ∈ g.body, ∀ pc ∈ callsOfStmt st, ∀ q l,
      pc.2 = GoExpr.sel q l → q = libPkg → l ∈ leaf →
      (alookup tabs.callSitesRenamed pc.1).isSome = true)
    (d1 : DynCfg) (file1 : GoFile) (m : Bool) (sx : RWState)
    (heq : transformFile c tabs d file = .ok (d1, file1, m, sx)) :
    file1.funcs.all (fun f => f.body.all (stmtLeafFree libPkg leaf)) = true := by
  simp only [transformFile] at heq
  split at heq
  · exact Except.noConfusion heq
  · next funcs1 s1 heqf =>
      have hall := rewriteFuncs_leafFree c _ tabs _ libPkg leaf hsafe file.funcs _
        funcs1 s1 hcov heqf
      split at heq
      · rcases haddi : addImports c file.imports s1.newImports file.imports
          with ⟨imps1, b⟩
        simp only [haddi] at heq
        cases heq
        exact hall
      · cases heq; exact hall

/-- The file loop: all output files are leaf-free. -/
theorem transformAll_leafFree (c : StaticCfg) (tabs : TTables)
    (libPkg : String) (leaf : List String)
    (hsafe : ∀ pos2 nn, alookup tabs.callSitesRenamed pos2 = some nn → ¬ nn ∈ leaf) :
    ∀ (files : List GoFile) (d d2 : DynCfg) (files1 : List GoFile)
      (mods : List String),
      (∀ file ∈ files, ∀ g ∈ file.funcs, ∀ st ∈ g.body, ∀ pc ∈ callsOfStmt st,
        ∀ q l, pc.2 = GoExpr.sel q l → q = libPkg → l ∈ leaf →
        (alookup tabs.callSitesRenamed pc.1).isSome = true) →
      transformAll c tabs d files = .ok (d2, files1, mods) →
      filesLeafFree libPkg leaf files1 = true := by
  intro files
  induction files with
  | nil =>
    intro d d2 files1 mods hcov heq
    simp only [transformAll] at heq
    cases heq
    rfl
  | cons file rest ih =>
    intro d d2 files1 mods hcov heq
    simp only [transformAll] at heq
    split at heq
    · exact Except.noConfusion heq
    · next d1 file1 modified sx heqf =>
        split at heq
        · exact Except.noConfusion heq
        · next d2b rest1 mods1 heqr =>
            cases heq
            simp only [filesLeafFree, List.all_cons, Bool.and_eq_true]
            refine ⟨transformFile_leafFree c tabs d file libPkg leaf hsafe
              (hcov file (List.mem_cons_self _ _)) d1 file1 modified sx heqf, ?_⟩
            have hrest := ih d1 d2 rest1 mods1
              (fun fl hfl => hcov fl (List.mem_cons_of_mem _ hfl)) heqr
            simpa [filesLeafFree] using hrest

mutual

/-- A leaf-free expression contains no call to a configured leaf. -/
theorem leafFree_calls (libPkg : String) (leaf : List String) :
    ∀ e : GoExpr, exprLeafFree libPkg leaf e = true →
      ∀ pc ∈ callsOfExpr e, ∀ q l, pc.2 = GoExpr.sel q l →
        ¬ (q = libPkg ∧ l ∈ leaf)
  | .ident n, _, pc, hpc => by simp [callsOfExpr] at hpc
  | .sel q2 l2, _, pc, hpc => by simp [callsOfExpr] at hpc
  | .call pos fn args, h, pc, hpc => by
      simp only [exprLeafFree, Bool.and_eq_true] at h
      obtain ⟨⟨hg, hfn⟩, hargs⟩ := h
      intro q l hsel
      simp only [callsOfExpr] at hpc
      rcases List.mem_cons.mp hpc with hhd | htl
      · subst hhd
        simp only at hsel
        rw [hsel] at hg
        intro hc
        rw [decide_eq_true_eq] at hg
        exact hg hc
      · rcases List.mem_append.mp htl with h1 | h1
        · exact leafFree_calls libPkg leaf fn hfn pc h1 q l hsel
        · exact leafFreeList_calls libPkg leaf args hargs pc h1 q l hsel

/-- List form of `leafFree_calls`. -/
theorem leafFreeList_calls (libPkg : String) (leaf : List String) :
    ∀ l : List GoExpr, exprListLeafFree libPkg leaf l = true →
      ∀ pc ∈ callsOfExprList l, ∀ q lf, pc.2 = GoExpr.sel q lf →
        ¬ (q = libPkg ∧ lf ∈ leaf)
  | [], _, pc, hpc => by simp [callsOfExprList] at hpc
  | e :: rest, h, pc, hpc => by
      simp only [exprListLeafFree, Bool.and_eq_true] at h
      obtain ⟨he, hrest⟩ := h
      simp only [callsOfExprList] at hpc
      rcases List.mem_append.mp hpc with h1 | h1
      · exact leafFree_calls libPkg leaf e he pc h1
      · exact leafFreeList_calls libPkg leaf rest hrest pc h1

end

/-- The calls of a leaf-free function contain no call to a configured
leaf. -/
theorem callsOfFunc_leafFree (libPkg : String) (leaf : List String) (g : GoFunc)
    (hg : g.body.all (stmtLeafFree libPkg leaf) = true) :
    ∀ pc ∈ callsOfFunc g, ∀ q l, pc.2 = GoExpr.sel q l →
      ¬ (q = libPkg ∧ l ∈ leaf) := by
  have haux : ∀ body : List GoStmt, body.all (stmtLeafFree libPkg leaf) = true →
      ∀ pc ∈ body.foldr (fun st acc => callsOfStmt st ++ acc) [],
        ∀ q l, pc.2 = GoExpr.sel q l → ¬ (q = libPkg ∧ l ∈ leaf) := by
    intro body
    induction body with
    | nil => intro _ pc hpc; simp at hpc
    | cons st brest ihb =>
      intro hall pc hpc
      simp only [List.all_cons, Bool.and_eq_true] at hall
      obtain ⟨hst, hbrest⟩ := hall
      simp only [List.foldr_cons] at hpc
      rcases List.mem_append.mp hpc with h1 | h1
      · cases st with
        | assign lhs e => exact leafFree_calls libPkg leaf e hst pc h1
        | exprStmt e => exact leafFree_calls libPkg leaf e hst pc h1
      · exact ihb hbrest pc h1
  exact haux g.body hg

/-- Over leaf-free files, the leaf-call collector finds nothing. -/
theorem leafCallsOf_empty (libPkg : String) (leaf : List String) (lname : String)
    (hl : lname ∈ leaf) :
    ∀ files : List GoFile, filesLeafFree libPkg leaf files = true →
      leafCallsOf libPkg lname files = [] := by
  have hcallsFold : ∀ (g : GoFunc),
      g.body.all (stmtLeafFree libPkg leaf) = true →
      ∀ (cs : List (Nat × GoExpr)) (acc : List (Nat × Nat)),
      (∀ pc ∈ cs, ∀ q l, pc.2 = GoExpr.sel q l → ¬ (q = libPkg ∧ l ∈ leaf)) →
      cs.foldr (fun c acc3 =>
        match c.2 with
        | GoExpr.sel q s =>
          if q = libPkg ∧ s = lname then (g.pos, c.1) :: acc3 else acc3
        | _ => acc3) acc = acc := by
    intro g _ cs
    induction cs with
    | nil => intro acc _; rfl
    | cons c crest ihc =>
      intro acc hcs
      simp only [List.foldr_cons]
      rw [ihc acc (fun pc hpc => hcs pc (List.mem_cons_of_mem _ hpc))]
      cases hc2 : c.2 with
      | sel q s =>
        have hns := hcs c (List.mem_cons_self _ _) q s hc2
        have hcond : ¬ (q = libPkg ∧ s = lname) := by
          intro hcond
          exact hns ⟨hcond.1, hcond.2.symm ▸ hl⟩
        simp only [hc2]
        rw [if_neg hcond]
      | ident n => simp only [hc2]
      | call p2 f2 a2 => simp only [hc2]
  have hfuncsFold : ∀ (fl : List GoFunc) (acc : List (Nat × Nat)),
      fl.all (fun f => f.body.all (stmtLeafFree libPkg leaf)) = true →
      fl.foldr (fun g acc2 => (callsOfFunc g).foldr (fun c acc3 =>
        match c.2 with
        | GoExpr.sel q s =>
          if q = libPkg ∧ s = lname then (g.pos, c.1) :: acc3 else acc3
        | _ => acc3) acc2) acc = acc := by
    intro fl
    induction fl with
    | nil => intro acc _; rfl
    | cons g grest ihg =>
      intro acc hall
      simp only [List.all_cons, Bool.and_eq_true] at hall
      obtain ⟨hg, hgrest⟩ := hall
      simp only [List.foldr_cons]
      rw [ihg acc hgrest]
      exact hcallsFold g hg (callsOfFunc g) acc (callsOfFunc_leafFree libPkg leaf g hg)
  intro files
  induction files with
  | nil => intro _; rfl
  | cons file rest ihf =>
    intro hfree
    simp only [filesLeafFree, List.all_cons, Bool.and_eq_true] at hfree
    obtain ⟨hfile, hrest⟩ := hfree
    simp only [leafCallsOf, List.foldr_cons]
    have hr := ihf hrest
    simp only [leafCallsOf] at hr
    rw [hr]
    exact hfuncsFold file.funcs [] hfile

/-- With no leaf calls, the seeding produces the empty state. -/
theorem seedLeafCalls_of_leafFree (cfg : PipeCfg) (env : AEnv) (fuel : Nat)
    (files : List GoFile)
    (hfree : ∀ lr ∈ cfg.libFns, leafCallsOf cfg.libPkgName lr.1 files = []) :
    seedLeafCalls cfg env fuel files = ([], ⟨[], [], [], [], [], []⟩) := by
  simp only [seedLeafCalls]
  refine foldl_id _ _ _ ?_
  intro acc lr hlr
  rw [hfree lr hlr, List.foldl_nil]

/-- `collect` on the empty worklist returns its state unchanged. -/
theorem collect_nil (env : AEnv) (fuel : Nat) (vis : List Nat) (st : AState) :
    collect env fuel [] vis st = (vis, st) := by
  cases fuel with
  | zero => rfl
  | succ fuel => rfl

/-- With no interface parameters and an empty interface-modification set,
the per-node scan is the identity. -/
theorem scanNode_id (env : AEnv) (nmod : List Nat) (st : AState) (nd : CNode)
    (hpi : ∀ p, env.paramIface p = none) (him : st.ifaceModified = []) :
    collectIfacesScanNode env nmod st nd = st := by
  simp only [collectIfacesScanNode, him, List.foldl_nil, ite_self]
  refine foldl_id _ _ _ ?_
  intro acc ip _
  rw [hpi]

/-- The node loop of `collectIfaces` is the identity under the same
conditions. -/
theorem nodeOrder_fold_id (env : AEnv) (nmod : List Nat)
    (hpi : ∀ p, env.paramIface p = none) :
    ∀ (l : List Nat) (st : AState), st.ifaceModified = [] →
      l.foldl (fun st n =>
        match env.findNode n with
        | none => st
        | some nd => collectIfacesScanNode env nmod st nd) st = st := by
  intro l
  induction l with
  | nil => intro st _; rfl
  | cons n rest ih =>
    intro st him
    rw [List.foldl_cons]
    cases hfn : env.findNode n with
    | none => simp only [hfn]; exact ih st him
    | some nd =>
      simp only [hfn, scanNode_id env nmod st nd hpi him]
      exact ih st him

/-- `collectIfaces` is the identity (and reports no addition) under the
same conditions. -/
theorem collectIfaces_id (env : AEnv) (nmod : List Nat) (st : AState)
    (hpi : ∀ p, env.paramIface p = none) (him : st.ifaceModified = []) :
    collectIfaces env nmod st = (st, false) := by
  simp only [collectIfaces, List.foldl_nil]
  rw [nodeOrder_fold_id env nmod hpi _ st him]

/-- With no named-type parameters, discovery finds nothing. -/
theorem namedDiscover_id (env : AEnv) (nmod : List Nat) (st : AState)
    (hpn : ∀ p, env.paramNamed p = none) :
    namedDiscover env nmod st = (st, []) := by
  simp only [namedDiscover]
  refine foldl_id _ _ _ ?_
  intro acc n _
  cases hfn : env.findNode n with
  | none => simp only [hfn]
  | some nd =>
    simp only [hfn]
    refine foldl_id _ _ _ ?_
    intro acc2 ip _
    rw [hpn]

/-- `collectNamedTypes` is the identity under the same condition. -/
theorem collectNamedTypes_id (env : AEnv) (hpn : ∀ p, env.paramNamed p = none) :
    ∀ (fuel : Nat) (nmod : List Nat) (st : AState),
      collectNamedTypes env fuel nmod st = (nmod, st) := by
  intro fuel nmod st
  cases fuel with
  | zero => rfl
  | succ fuel =>
    simp only [collectNamedTypes, namedDiscover_id env nmod st hpn]
    rfl

/-- The closure fixed-point loop is the identity on an environment without
interface or named-type data and a state with no modified interfaces. -/
theorem analyzeFixpoint_id (env : AEnv) (hpi : ∀ p, env.paramIface p = none)
    (hpn : ∀ p, env.paramNamed p = none) :
    ∀ (fuel : Nat) (nmod : List Nat) (st : AState), st.ifaceModified = [] →
      analyzeFixpoint env fuel nmod st = (nmod, st) := by
  intro fuel nmod st him
  cases fuel with
  | zero => rfl
  | succ fuel =>
    simp only [analyzeFixpoint, collectIfaces_id env nmod st hpi him,
      collectNamedTypes_id env hpn fuel nmod st]
    rfl

/-- On leaf-free input the analysis phase produces the empty decision
tables. -/
theorem analyzeToy_of_leafFree (cfg : PipeCfg) (fuel : Nat) (files : List GoFile)
    (hfree : ∀ lr ∈ cfg.libFns, leafCallsOf cfg.libPkgName lr.1 files = []) :
    analyzeToy cfg fuel files = ⟨[], [], [], [], [], []⟩ := by
  simp only [analyzeToy, seedLeafCalls_of_leafFree cfg _ fuel files hfree]
  rw [collect_nil]
  rw [analyzeFixpoint_id (buildAEnv cfg files) (fun p => rfl) (fun p => rfl)
    fuel [] _ rfl]

/-- With an empty call-site table, `nestedInject` is the identity. -/
theorem nestedInject_id (env : RWEnv) (hcs : env.callSites = []) :
    ∀ (args : List GoExpr) (s : RWState), nestedInject env args s = .ok (args, s) := by
  intro args
  induction args with
  | nil => intro s; rfl
  | cons a rest ih =>
    intro s
    cases a with
    | ident n => simp [nestedInject, ih]
    | sel q n => simp [nestedInject, ih]
    | call cpos cfn cargs =>
      cases cargs with
      | nil => simp [nestedInject, hcs, alookup, ih]
      | cons x xs => simp [nestedInject, ih]

/-- With empty tables, the call handler rebuilds the call unchanged. -/
theorem astCallHandler_id (env : RWEnv) (hcs : env.callSites = [])
    (hcr : env.callSitesRenamed = []) (p : Bool) (pos : Nat) (fn : GoExpr)
    (args : List GoExpr) (s : RWState) :
    astCallHandler env p pos fn args s = .ok (.call pos fn args, s) := by
  simp only [astCallHandler, hcr, hcs, alookup]
  cases args with
  | nil => simp [nestedInject_id env hcs, alookup]
  | cons a args2 => simp [nestedInject_id env hcs, alookup]

mutual

/-- With empty tables, the expression rewrite is the identity. -/
theorem rewriteExpr_id (env : RWEnv) (hcs : env.callSites = [])
    (hcr : env.callSitesRenamed = []) :
    ∀ (e : GoExpr) (p : Bool) (s : RWState), rewriteExpr env p e s = .ok (e, s)
  | .ident n, p, s => by simp [rewriteExpr]
  | .sel q n, p, s => by simp [rewriteExpr]
  | .call pos fn args, p, s => by
      simp only [rewriteExpr, rewriteExpr_id env hcs hcr fn true s,
        rewriteExprList_id env hcs hcr args s]
      exact astCallHandler_id env hcs hcr p pos fn args s

/-- With empty tables, the expression-list rewrite is the identity. -/
theorem rewriteExprList_id (env : RWEnv) (hcs : env.callSites = [])
    (hcr : env.callSitesRenamed = []) :
    ∀ (l : List GoExpr) (s : RWState), rewriteExprList env l s = .ok (l, s)
  | [], s => by simp [rewriteExprList]
  | e :: rest, s => by
      simp [rewriteExprList, rewriteExpr_id env hcs hcr e true s,
        rewriteExprList_id env hcs hcr rest s]

end

/-- With empty tables, the statement rewrite is the identity. -/
theorem rewriteStmts_id (env : RWEnv) (hcs : env.callSites = [])
    (hcr : env.callSitesRenamed = []) :
    ∀ (body : List GoStmt) (s : RWState), rewriteStmts env body s = .ok (body, s) := by
  intro body
  induction body with
  | nil => intro s; rfl
  | cons st rest ih =>
    intro s
    cases st with
    | assign lhs e => simp [rewriteStmts, rewriteExpr_id env hcs hcr e false s, ih]
    | exprStmt e => simp [rewriteStmts, rewriteExpr_id env hcs hcr e false s, ih]

/-- With empty tables, a function declaration is rewritten to itself. -/
theorem rewriteFunc_id (c : StaticCfg) (d : DynCfg) (tabs : TTables) (env : RWEnv)
    (hcs : env.callSites = []) (hcr : env.callSitesRenamed = [])
    (htv : tabs.fnVisited = []) (f : GoFunc) (s : RWState) :
    rewriteFunc c d tabs env f s = .ok (f, s) := by
  simp [rewriteFunc, htv, alookup, rewriteStmts_id env hcs hcr f.body s]

/-- With empty tables, a file's declarations are rewritten to themselves. -/
theorem rewriteFuncs_id (c : StaticCfg) (d : DynCfg) (tabs : TTables) (env : RWEnv)
    (hcs : env.callSites = []) (hcr : env.callSitesRenamed = [])
    (htv : tabs.fnVisited = []) :
    ∀ (funcs : List GoFunc) (s : RWState),
      rewriteFuncs c d tabs env funcs s = .ok (funcs, s) := by
  intro funcs
  induction funcs with
  | nil => intro s; rfl
  | cons f rest ih =>
    intro s
    simp [rewriteFuncs, rewriteFunc_id c d tabs env hcs hcr htv f s, ih]

/-- With empty tables, a file passes through the transformer unmodified. -/
theorem transformFile_id (c : StaticCfg) (d : DynCfg) (file : GoFile) :
    transformFile c ⟨[], [], []⟩ d file =
      .ok (initContextExpressions c file.imports d, file, false,
        ⟨[], false, 0⟩) := by
  simp [transformFile, rewriteFuncs_id]

/-- With empty tables, the file loop modifies nothing. -/
theorem transformAll_id (c : StaticCfg) :
    ∀ (files : List GoFile) (d : DynCfg),
      ∃ d2, transformAll c ⟨[], [], []⟩ d files = .ok (d2, files, []) := by
  intro files
  induction files with
  | nil => intro d; exact ⟨d, rfl⟩
  | cons file rest ih =>
    intro d
    obtain ⟨d2, hd2⟩ := ih (initContextExpressions c file.imports d)
    exact ⟨d2, by simp [transformAll, transformFile_id, hd2]⟩

/-- On leaf-free input, a pipeline run modifies nothing. -/
theorem runOnce_of_leafFree (cfg : PipeCfg) (fuel : Nat) (files : List GoFile)
    (hfree : ∀ lr ∈ cfg.libFns, leafCallsOf cfg.libPkgName lr.1 files = []) :
    runOnce cfg fuel files = .ok (files, []) := by
  simp only [runOnce, analyzeToy_of_leafFree cfg fuel files hfree]
  obtain ⟨d2, hd2⟩ := transformAll_id cfg.static files
    ⟨cfg.ctxParamInvalidInit, ""⟩
  rw [hd2]

/-- Every call of a function body is collected by `callsOfFunc`. -/
theorem callsOfFunc_mem (g : GoFunc) :
    ∀ st ∈ g.body, ∀ pc ∈ callsOfStmt st, pc ∈ callsOfFunc g := by
  simp only [callsOfFunc]
  suffices h : ∀ (body : List GoStmt), ∀ st ∈ body, ∀ pc ∈ callsOfStmt st,
      pc ∈ body.foldr (fun st acc => callsOfStmt st ++ acc) [] from h g.body
  intro body
  induction body with
  | nil => intro st h; simp at h
  | cons st0 rest ih =>
    intro st hst pc hpc
    simp only [List.foldr_cons, List.mem_append]
    rcases List.mem_cons.mp hst with h | h
    · subst h; exact .inl hpc
    · exact .inr (ih st h pc hpc)

/-- The inner fold of `leafCallsOf` extends its accumulator. -/
theorem leafCalls_callsFold_sub (libPkg lname : String) (gpos : Nat) :
    ∀ (cs : List (Nat × GoExpr)) (acc : List (Nat × Nat)) (x : Nat × Nat),
      x ∈ acc →
      x ∈ cs.foldr (fun c acc3 =>
        match c.2 with
        | GoExpr.sel q s =>
          if q = libPkg ∧ s = lname then (gpos, c.1) :: acc3 else acc3
        | _ => acc3) acc := by
  intro cs
  induction cs with
  | nil => intro acc x hx; exact hx
  | cons c crest ih =>
    intro acc x hx
    simp only [List.foldr_cons]
    have hx2 := ih acc x hx
    cases hc2 : c.2 with
    | sel q s =>
      simp only [hc2]
      split
      · exact List.mem_cons_of_mem _ hx2
      · exact hx2
    | ident n => simpa only [hc2] using hx2
    | call p2 f2 a2 => simpa only [hc2] using hx2

/-- The inner fold of `leafCallsOf` records every matching call. -/
theorem leafCalls_callsFold_mem (libPkg lname : String) (gpos : Nat) :
    ∀ (cs : List (Nat × GoExpr)) (acc : List (Nat × Nat)) (c : Nat × GoExpr),
      c ∈ cs → c.2 = GoExpr.sel libPkg lname →
      (gpos, c.1) ∈ cs.foldr (fun c acc3 =>
        match c.2 with
        | GoExpr.sel q s =>
          if q = libPkg ∧ s = lname then (gpos, c.1) :: acc3 else acc3
        | _ => acc3) acc := by
  intro cs
  induction cs with
  | nil => intro acc c h; simp at h
  | cons c0 crest ih =>
    intro acc c hc hsel
    simp only [List.foldr_cons]
    rcases List.mem_cons.mp hc with h | h
    · subst h
      simp [hsel]
    · have hx2 := ih acc c h hsel
      cases hc2 : c0.2 with
      | sel q s =>
        simp only [hc2]
        split
        · exact List.mem_cons_of_mem _ hx2
        · exact hx2
      | ident n => simpa only [hc2] using hx2
      | call p2 f2 a2 => simpa only [hc2] using hx2

/-- The function fold of `leafCallsOf` extends its accumulator. -/
theorem leafCalls_funcsFold_sub (libPkg lname : String) :
    ∀ (fl : List GoFunc) (acc : List (Nat × Nat)) (x : Nat × Nat), x ∈ acc →
      x ∈ fl.foldr (fun g acc2 => (callsOfFunc g).foldr (fun c acc3 =>
        match c.2 with
        | GoExpr.sel q s =>
          if q = libPkg ∧ s = lname then (g.pos, c.1) :: acc3 else acc3
        | _ => acc3) acc2) acc := by
  intro fl
  induction fl with
  | nil => intro acc x hx; exact hx
  | cons g0 grest ih =>
    intro acc x hx
    simp only [List.foldr_cons]
    exact leafCalls_callsFold_sub libPkg lname g0.pos (callsOfFunc g0) _ x
      (ih acc x hx)

/-- The function fold of `leafCallsOf` records every matching call of every
listed function. -/
theorem leafCalls_funcsFold_mem (libPkg lname : String) :
    ∀ (fl : List GoFunc) (acc : List (Nat × Nat)) (g : GoFunc), g ∈ fl →
      ∀ c : Nat × GoExpr, c ∈ callsOfFunc g → c.2 = GoExpr.sel libPkg lname →
      (g.pos, c.1) ∈ fl.foldr (fun g acc2 => (callsOfFunc g).foldr (fun c acc3 =>
        match c.2 with
        | GoExpr.sel q s =>
          if q = libPkg ∧ s = lname then (g.pos, c.1) :: acc3 else acc3
        | _ => acc3) acc2) acc := by
  intro fl
  induction fl with
  | nil => intro acc g h; simp at h
  | cons g0 grest ih =>
    intro acc g hg c hc hsel
    simp only [List.foldr_cons]
    rcases List.mem_cons.mp hg with h | h
    · subst h
      exact leafCalls_callsFold_mem libPkg lname g.pos (callsOfFunc g) _ c hc hsel
    · exact leafCalls_callsFold_sub libPkg lname g0.pos (callsOfFunc g0) _ _
        (ih acc g h c hc hsel)

/-- Every matching call of every function of every file is collected by
`leafCallsOf`. -/
theorem leafCallsOf_mem (libPkg lname : String) :
    ∀ (files : List GoFile) (file : GoFile), file ∈ files →
      ∀ g ∈ file.funcs, ∀ c : Nat × GoExpr, c ∈ callsOfFunc g →
      c.2 = GoExpr.sel libPkg lname →
      (g.pos, c.1) ∈ leafCallsOf libPkg lname files := by
  intro files
  induction files with
  | nil => intro file h; simp at h
  | cons f0 rest ih =>
    intro file hfile g hg c hc hsel
    simp only [leafCallsOf, List.foldr_cons]
    rcases List.mem_cons.mp hfile with h | h
    · subst h
      exact leafCalls_funcsFold_mem libPkg lname file.funcs _ g hg c hc hsel
    · have hx := ih file h g hg c hc hsel
      simp only [leafCallsOf] at hx
      exact leafCalls_funcsFold_sub libPkg lname f0.funcs _ _ hx

/-- **C7 amended / corrected.**  The pipeline is not idempotent in general
(see the counterexample: an un-renamed leaf call is rewritten again by a
second run).  The source relies on leaf renames for idempotence: when every
configured leaf replacement carries a new name, and no new name is itself a
configured leaf name, a second run on the output of a successful first run
modifies no file and returns its input unchanged. -/
theorem second_run_empty_when_leaves_renamed (cfg : PipeCfg)
    (files files1 : List GoFile) (mods : List String) (fuel fuel2 : Nat)
    (hnn : ∀ lr ∈ cfg.libFns, ¬ lr.2.newName = "")
    (hnl : ∀ lr ∈ cfg.libFns, ∀ lr2 ∈ cfg.libFns, ¬ lr.2.newName = lr2.1)
    (h1 : runOnce cfg fuel files = .ok (files1, mods)) :
    runOnce cfg fuel2 files1 = .ok (files1, []) := by
  simp only [runOnce] at h1
  split at h1
  · exact Except.noConfusion h1
  · next d2 fs ms heqT =>
      cases h1
      have hren := seed_renames_from_cfg cfg (buildAEnv cfg files) fuel files
      have hsafe : ∀ pos2 nn,
          alookup (analyzeToy cfg fuel files).callSitesRenamed pos2 = some nn →
          ¬ nn ∈ cfg.libFns.map Prod.fst := by
        intro pos2 nn h hmem
        rw [analyzeToy_csr] at h
        obtain ⟨lr, hlr, rfl⟩ := hren pos2 nn h
        obtain ⟨lr2, hlr2, hlr2e⟩ := List.mem_map.mp hmem
        exact hnl lr hlr lr2 hlr2 hlr2e.symm
      have hcov : ∀ file ∈ files, ∀ g ∈ file.funcs, ∀ st ∈ g.body,
          ∀ pc ∈ callsOfStmt st, ∀ q l, pc.2 = GoExpr.sel q l →
          q = cfg.libPkgName → l ∈ cfg.libFns.map Prod.fst →
          (alookup (analyzeToy cfg fuel files).callSitesRenamed pc.1).isSome
            = true := by
        intro file hfile g hg st hst pc hpc q l hsel hq hlk
        obtain ⟨lr, hlr, hlr1⟩ := List.mem_map.mp hlk
        have hmem : (g.pos, pc.1) ∈ leafCallsOf cfg.libPkgName lr.1 files := by
          refine leafCallsOf_mem cfg.libPkgName lr.1 files file hfile g hg pc
            (callsOfFunc_mem g st hst pc hpc) ?_
          rw [hsel, hq, ← hlr1]
        rw [analyzeToy_csr]
        exact seed_covers cfg (buildAEnv cfg files) fuel files lr hlr
          (hnn lr hlr) (g.pos, pc.1) hmem
      have hfree : filesLeafFree cfg.libPkgName (cfg.libFns.map Prod.fst) files1
          = true :=
        transformAll_leafFree cfg.static
          ⟨(analyzeToy cfg fuel files).fnVisited,
           (analyzeToy cfg fuel files).callSites,
           (analyzeToy cfg fuel files).callSitesRenamed⟩
          cfg.libPkgName (cfg.libFns.map Prod.fst) hsafe files _ d2 files1 mods
          hcov heqT
      refine runOnce_of_leafFree cfg fuel2 files1 ?_
      intro lr hlr
      exact leafCallsOf_empty cfg.libPkgName (cfg.libFns.map Prod.fst) lr.1
        (List.mem_map.mpr ⟨lr, hlr, rfl⟩) files1 hfree

/-- Witness for the amended C7 theorem: the renaming configuration on the
one-file program; the first run renames `lib.A` to `lib.CtxA` and the
second run leaves its output untouched. -/
theorem second_run_empty_when_leaves_renamed_witness :
    (∀ lr ∈ cfgC7R.libFns, ¬ lr.2.newName = "") ∧
    (∀ lr ∈ cfgC7R.libFns, ∀ lr2 ∈ cfgC7R.libFns, ¬ lr.2.newName = lr2.1) ∧
    runOnce cfgC7R 50 [fileC7] = .ok (filesC7R, modsC7R) ∧
    runOnce cfgC7R 60 filesC7R = .ok (filesC7R, []) :=
  ⟨by decide, by decide, by rfl,
   second_run_empty_when_leaves_renamed cfgC7R [fileC7] filesC7R modsC7R 50 60
     (by decide) (by decide) (by rfl)⟩

end CtxProp
